import Mathlib

/-! SimuLock: allocation ledger, wake-up scan and cycle detector.

A shallow embedding of the class `Simulator` of `frontend/js/simulator.js` and of
`Graph.detectDeadlock` of `frontend/js/graph.js`, followed by theorems about them.

Modelling conventions.

* A JavaScript object used as a map is a list of entries in `Object.keys` order:
  keys that are array indices come first, in ascending numeric order, the other keys
  follow in insertion order.  A read finds an own property or nothing: this is the
  behaviour of the code for names that are not property names of `Object.prototype`
  (`ordinaryName`, `ordinaryResources`, `GraphData.ordinary`).
* Counts are JavaScript numbers restricted to integers (`Int`), added and subtracted
  exactly: this is the behaviour of the code as long as the numbers stay within the
  range on which double arithmetic is exact (`safeNumber`, `safeRun`); identifiers are
  naturals, as produced by the counters `nextProcessId` and `nextResourceId`.
* Where a statement depends on one of these two conventions, it takes the matching
  predicate as a hypothesis, which delimits the inputs on which the model is the code.
* Only the fields that the ledger and the detector read are kept in `Process`:
  the random and statistical fields (`pid`, `priority`, `cpuTimeUsed`, ...) and the
  log are left out, and so are `updateProcessStatistics`, `updateUI` and `log`,
  which touch nothing else.
* The detection that `assignResource`, `requestResource`, `releaseResource` and
  `releaseAllResources` schedule with `setTimeout` is not part of the call: it is
  a later `detectDeadlock` operation.
* The recursive closure `dfs` of `Graph.detectDeadlock` takes a bound on the depth of
  the recursion, `edges.length + 2` at every start; `dfs_spec` shows that the bound is
  never reached, so that the result is that of the unbounded recursion.
* The source has no recovery engine: `removeProcess`, `lowestPriority`, `recoverRounds`
  and `recover` are modelled from the specification, on top of the source's
  `releaseAllResources` and `detectDeadlock`.
-/

namespace SimuLock

/-! ## JavaScript objects used as maps -/

/-- Keys of a JavaScript object: `arrayIndex k` is the number a key stands for when the key
is an array index (a canonical numeric string below `2^32 - 1`). -/
class JsKey (κ : Type) where
  arrayIndex : κ → Option Nat

/-- Value of a string of decimal digits. -/
def digitsValue (cs : List Char) : Nat :=
  cs.foldl (fun acc c => 10 * acc + (c.toNat - 48)) 0

/-- Array index denoted by a property name, if it is one: a nonempty string of digits
without a leading zero (except `"0"` itself) whose value is below `2^32 - 1`. -/
def stringArrayIndex (k : String) : Option Nat :=
  let cs := k.data
  if cs.all Char.isDigit && !cs.isEmpty && (cs.head? != some '0' || cs.length == 1) then
    if digitsValue cs < 4294967295 then some (digitsValue cs) else none
  else none

instance : JsKey String where
  arrayIndex := stringArrayIndex

instance : JsKey Nat where
  arrayIndex := fun n => if n < 4294967295 then some n else none

/-- Own properties of a JavaScript object, in `Object.keys` order. -/
abbrev JsObj (κ α : Type) := List (κ × α)

namespace JsObj

variable {κ α : Type}

/-- Property read `m[k]`; `none` stands for `undefined`. -/
def get? [DecidableEq κ] : JsObj κ α → κ → Option α
  | [], _ => none
  | (k', v) :: rest, k => if k' = k then some v else get? rest k

/-- Read of a numeric property with default, `m[k] || 0`. -/
def getD0 [DecidableEq κ] (m : JsObj κ Int) (k : κ) : Int :=
  (get? m k).getD 0

/-- The list `Object.keys(m)`. -/
def keys (m : JsObj κ α) : List κ :=
  m.map Prod.fst

/-- A new key `k` is enumerated before the existing key `k'`. -/
def precedes [JsKey κ] (k k' : κ) : Bool :=
  match JsKey.arrayIndex k, JsKey.arrayIndex k' with
  | some n, some m => decide (n < m)
  | some _, none => true
  | none, _ => false

/-- Creation of a property that the object does not have yet. -/
def insertNew [JsKey κ] (k : κ) (v : α) : JsObj κ α → JsObj κ α
  | [] => [(k, v)]
  | e :: rest => if precedes k e.1 then (k, v) :: e :: rest else e :: insertNew k v rest

/-- Overwriting of an existing property: its place is kept. -/
def replace [DecidableEq κ] (k : κ) (v : α) : JsObj κ α → JsObj κ α
  | [] => []
  | e :: rest => if e.1 = k then (k, v) :: rest else e :: replace k v rest

/-- Property write `m[k] = v`. -/
def set [DecidableEq κ] [JsKey κ] (m : JsObj κ α) (k : κ) (v : α) : JsObj κ α :=
  match get? m k with
  | some _ => replace k v m
  | none => insertNew k v m

/-- Property removal `delete m[k]`. -/
def delete [DecidableEq κ] (m : JsObj κ α) (k : κ) : JsObj κ α :=
  m.filter (fun e => !decide (e.1 = k))

end JsObj

/-! ## Data model -/

/-- Values of the field `state` of a process. -/
inductive ProcState
  | ready
  | running
  | waiting
  | deadlocked
deriving DecidableEq

/-- Process record built by `addProcess`, restricted to the ledger fields. -/
structure Process where
  id : Nat
  name : String
  state : ProcState
  allocated : JsObj String Int
  requested : JsObj String Int
  waiting : Bool
deriving DecidableEq

/-- Resource record built by `addResource`. -/
structure Resource where
  id : Nat
  name : String
  totalInstances : Int
  availableInstances : Int
  allocated : JsObj Nat Int
deriving DecidableEq

/-- Fields of the class `Simulator` that the operations read or write. -/
structure Simulator where
  processes : List Process
  resources : List Resource
  autoAssignEnabled : Bool
  autoDetectDeadlock : Bool
  nextProcessId : Nat
  nextResourceId : Nat
deriving DecidableEq

/-- State set up by the constructor of `Simulator`. -/
def Simulator.fresh : Simulator :=
  { processes := [], resources := [], autoAssignEnabled := true, autoDetectDeadlock := true,
    nextProcessId := 1, nextResourceId := 1 }

/-- In-place mutation of the object returned by `Array.prototype.find`: the first element
satisfying `pred` is replaced by its image under `f`. -/
def updateFirst {α : Type} (pred : α → Bool) (f : α → α) : List α → List α
  | [] => []
  | x :: xs => if pred x then f x :: xs else x :: updateFirst pred f xs

/-- Lookup `this.processes.find(p => p.id === processId)`. -/
def findProcess (s : Simulator) (processId : Nat) : Option Process :=
  s.processes.find? (fun p => p.id == processId)

/-- Lookup `this.resources.find(r => r.id === resourceId)`. -/
def findResource (s : Simulator) (resourceId : Nat) : Option Resource :=
  s.resources.find? (fun r => r.id == resourceId)

/-- Lookup `this.resources.find(r => r.name === resourceName)`. -/
def findResourceByName (s : Simulator) (resourceName : String) : Option Resource :=
  s.resources.find? (fun r => r.name == resourceName)

/-! ## assignResource -/

/-- Effect of `assignResource` on the resource object (lines 133-134). -/
def assignResourceEntry (resource : Resource) (processId : Nat) (count : Int) : Resource :=
  { resource with
    availableInstances := resource.availableInstances - count
    allocated := JsObj.set resource.allocated processId
      (JsObj.getD0 resource.allocated processId + count) }

/-- Effect of `assignResource` on the process object (lines 135-151). -/
def assignProcessEntry (process : Process) (resourceName : String) (count : Int) : Process :=
  let p1 : Process := { process with
    allocated := JsObj.set process.allocated resourceName
      (JsObj.getD0 process.allocated resourceName + count) }
  let p2 : Process :=
    match JsObj.get? p1.requested resourceName with
    | some q =>
      if q > 0 then
        if q - count ≤ 0 then
          { p1 with
            requested := JsObj.delete (JsObj.set p1.requested resourceName (q - count)) resourceName
            waiting := false
            state := ProcState.running }
        else { p1 with requested := JsObj.set p1.requested resourceName (q - count) }
      else p1
    | none => p1
  if !p2.waiting then { p2 with state := ProcState.running } else p2

/-- Method `assignResource(processId, resourceId, count)`: result and state left. -/
def assignResource (s : Simulator) (processId resourceId : Nat) (count : Int) :
    Bool × Simulator :=
  match findProcess s processId, findResource s resourceId with
  | some process, some resource =>
    if resource.availableInstances < count then (false, s)
    else
      (true, { s with
        resources := updateFirst (fun r => r.id == resourceId)
          (fun r => assignResourceEntry r process.id count) s.resources
        processes := updateFirst (fun p => p.id == processId)
          (fun p => assignProcessEntry p resource.name count) s.processes })
  | _, _ => (false, s)

/-! ## autoAssignResources (the wake-up scan) -/

/-- Body of the inner `forEach` of `autoAssignResources` for the process at position `i`
and one key of the snapshot `Object.keys(process.requested)`. -/
def autoAssignKey (i : Nat) (s : Simulator) (resourceName : String) : Simulator :=
  match s.processes[i]? with
  | none => s
  | some process =>
    match JsObj.get? process.requested resourceName with
    | some requestedCount =>
      if requestedCount > 0 then
        match findResourceByName s resourceName with
        | some resource =>
          if resource.availableInstances ≥ requestedCount then
            (assignResource s process.id resource.id requestedCount).2
          else s
        | none => s
      else s
    | none => s

/-- Body of the outer `forEach` of `autoAssignResources` for the process at position `i`:
the flag `waiting` is read once, the keys are taken once, the amounts are read live. -/
def autoAssignProcess (s : Simulator) (i : Nat) : Simulator :=
  match s.processes[i]? with
  | none => s
  | some process =>
    if process.waiting then (JsObj.keys process.requested).foldl (autoAssignKey i) s else s

/-- Method `autoAssignResources()`: the state it leaves (its boolean result is only
used for logging). -/
def autoAssignResources (s : Simulator) : Simulator :=
  (List.range s.processes.length).foldl autoAssignProcess s

/-- The call `if (this.autoAssignEnabled) this.autoAssignResources()`. -/
def wakeUp (s : Simulator) : Simulator :=
  if s.autoAssignEnabled then autoAssignResources s else s

/-! ## addProcess, addResource -/

/-- Method `addProcess(name)`; the empty string stands for a missing name. -/
def addProcess (s : Simulator) (name : String) : Simulator :=
  let process : Process :=
    { id := s.nextProcessId
      name := if name ≠ "" then name else "P" ++ toString (s.processes.length + 1)
      state := ProcState.ready
      allocated := []
      requested := []
      waiting := false }
  wakeUp { s with processes := s.processes ++ [process], nextProcessId := s.nextProcessId + 1 }

/-- Method `addResource(name, instances)`; the empty string stands for a missing name. -/
def addResource (s : Simulator) (name : String) (instances : Int) : Simulator :=
  let resource : Resource :=
    { id := s.nextResourceId
      name := if name ≠ "" then name else "R" ++ toString (s.resources.length + 1)
      totalInstances := instances
      availableInstances := instances
      allocated := [] }
  wakeUp { s with resources := s.resources ++ [resource], nextResourceId := s.nextResourceId + 1 }

/-! ## requestResource -/

/-- Effect of `requestResource` on the process object before the grant attempt
(lines 186-188). -/
def requestProcessEntry (process : Process) (resourceName : String) (count : Int) : Process :=
  { process with
    requested := JsObj.set process.requested resourceName
      (JsObj.getD0 process.requested resourceName + count)
    waiting := true
    state := ProcState.waiting }

/-- State of `requestResource` after the request is recorded (lines 186-188), before the
grant attempt. -/
def requestLedger (s : Simulator) (processId : Nat) (resource : Resource) (count : Int) :
    Simulator :=
  { s with
    processes := updateFirst (fun p => p.id == processId)
      (fun p => requestProcessEntry p resource.name count) s.processes }

/-- Method `requestResource(processId, resourceId, count)`: result and state left. -/
def requestResource (s : Simulator) (processId resourceId : Nat) (count : Int) :
    Bool × Simulator :=
  match findProcess s processId, findResource s resourceId with
  | some process, some resource =>
    if JsObj.getD0 process.allocated resource.name > 0 then (false, s)
    else if resource.availableInstances ≥ count then
      (true, (assignResource (requestLedger s processId resource count)
        processId resourceId count).2)
    else (true, requestLedger s processId resource count)
  | _, _ => (false, s)

/-! ## releaseResource -/

/-- Effect of `releaseResource` on the process object (lines 230-233). -/
def releaseProcessEntry (process : Process) (resourceName : String) (count : Int) : Process :=
  let allocatedCount := JsObj.getD0 process.allocated resourceName
  let a1 := JsObj.set process.allocated resourceName (allocatedCount - count)
  { process with
    allocated := if allocatedCount - count ≤ 0 then JsObj.delete a1 resourceName else a1 }

/-- Effect of a release on the resource object (lines 236-243, and 283-289 in
`releaseAllResources`). -/
def releaseResourceEntry (resource : Resource) (processId : Nat) (count : Int) : Resource :=
  let resourceAllocatedCount := JsObj.getD0 resource.allocated processId
  let a1 := JsObj.set resource.allocated processId (resourceAllocatedCount - count)
  { resource with
    allocated := if resourceAllocatedCount - count ≤ 0 then JsObj.delete a1 processId else a1
    availableInstances := resource.availableInstances + count }

/-- State of `releaseResource` after the ledger update of lines 229-243, before the
wake-up scan. -/
def releaseLedger (s : Simulator) (processId resourceId : Nat) (process : Process)
    (resource : Resource) (count : Int) : Simulator :=
  { s with
    processes := updateFirst (fun p => p.id == processId)
      (fun p => releaseProcessEntry p resource.name count) s.processes
    resources := updateFirst (fun r => r.id == resourceId)
      (fun r => releaseResourceEntry r process.id count) s.resources }

/-- Method `releaseResource(processId, resourceId, count)`: result and state left. -/
def releaseResource (s : Simulator) (processId resourceId : Nat) (count : Int) :
    Bool × Simulator :=
  match findProcess s processId, findResource s resourceId with
  | some process, some resource =>
    if JsObj.getD0 process.allocated resource.name < count then (false, s)
    else (true, wakeUp (releaseLedger s processId resourceId process resource count))
  | _, _ => (false, s)

/-! ## releaseAllResources -/

/-- Body of the `forEach` of `releaseAllResources` for one key of `process.allocated`. -/
def releaseAllStep (process : Process) (resources : List Resource) (resourceName : String) :
    List Resource :=
  match JsObj.get? process.allocated resourceName with
  | some count =>
    updateFirst (fun r => r.name == resourceName)
      (fun r => releaseResourceEntry r process.id count) resources
  | none => resources

/-- State of `releaseAllResources` after lines 276-297, before the wake-up scan. -/
def releaseAllLedger (s : Simulator) (processId : Nat) (process : Process) : Simulator :=
  { s with
    resources := (JsObj.keys process.allocated).foldl (releaseAllStep process) s.resources
    processes := updateFirst (fun p => p.id == processId)
      (fun p => { p with allocated := [], waiting := false, state := ProcState.ready })
      s.processes }

/-- Method `releaseAllResources(processId)`: result and state left. -/
def releaseAllResources (s : Simulator) (processId : Nat) : Bool × Simulator :=
  match findProcess s processId with
  | some process => (true, wakeUp (releaseAllLedger s processId process))
  | none => (false, s)

/-! ## buildGraph and the cycle detector -/

/-- Values of the field `type` of an edge. -/
inductive EdgeType
  | allocation
  | request
deriving DecidableEq

/-- Edge record pushed by `buildGraph`. -/
structure Edge where
  from_ : String
  to_ : String
  type : EdgeType
  count : Int
deriving DecidableEq

/-- Object returned by `buildGraph`. -/
structure GraphData where
  processes : JsObj String Process
  resources : JsObj String Resource
  edges : List Edge
deriving DecidableEq

/-- Allocation edges of one resource (lines 514-527): the keys of `resource.allocated` are
process identifiers, enumerated in `Object.keys` order. -/
def allocationEdges (s : Simulator) (resource : Resource) : List Edge :=
  (JsObj.keys resource.allocated).filterMap (fun processId =>
    match JsObj.get? resource.allocated processId with
    | some count =>
      if count > 0 then
        match s.processes.find? (fun p => p.id == processId) with
        | some process =>
          some { from_ := resource.name, to_ := process.name, type := EdgeType.allocation,
                 count := count }
        | none => none
      else none
    | none => none)

/-- Request edges of one process (lines 532-542). -/
def requestEdges (process : Process) : List Edge :=
  (JsObj.keys process.requested).filterMap (fun resourceName =>
    match JsObj.get? process.requested resourceName with
    | some count =>
      if count > 0 then
        some { from_ := process.name, to_ := resourceName, type := EdgeType.request,
               count := count }
      else none
    | none => none)

/-- Method `buildGraph()`. -/
def buildGraph (s : Simulator) : GraphData :=
  { processes := s.processes.foldl (fun g p => JsObj.set g p.name p) []
    resources := s.resources.foldl (fun g r => JsObj.set g r.name r) []
    edges := (s.resources.map (allocationEdges s)).flatten ++
      (s.processes.map requestEdges).flatten }

/-- The three sets of `Graph.detectDeadlock`, each in insertion order. -/
structure DfsState where
  visited : List String
  recursionStack : List String
  deadlockNodes : List String
deriving DecidableEq

/-- `Set.prototype.add`. -/
def setAdd (xs : List String) (x : String) : List String :=
  if x ∈ xs then xs else xs ++ [x]

/-- The closure `dfs(nodeName, path)` of `Graph.detectDeadlock`; the first argument bounds
the depth of the recursion. -/
def dfs (graph : GraphData) : Nat → String → List String → DfsState → DfsState
  | 0, _, _, st => st
  | fuel + 1, nodeName, path, st =>
    if nodeName ∈ st.recursionStack then
      let cycleStart := path.indexOf nodeName
      if cycleStart < path.length then
        { st with deadlockNodes := (path.drop cycleStart).foldl setAdd st.deadlockNodes }
      else st
    else if nodeName ∈ st.visited then st
    else
      let st1 : DfsState := { st with
        visited := setAdd st.visited nodeName
        recursionStack := setAdd st.recursionStack nodeName }
      let outgoingEdges := graph.edges.filter (fun edge => edge.from_ == nodeName)
      let st2 := outgoingEdges.foldl
        (fun acc edge => dfs graph fuel edge.to_ (path ++ [nodeName]) acc) st1
      { st2 with recursionStack := st2.recursionStack.filter (fun n => n != nodeName) }

/-- Depth that no chain of nested `dfs` calls exceeds: a chain visits pairwise distinct
nodes, each but the first the target of an edge, and ends with one more call. -/
def dfsFuel (graph : GraphData) : Nat :=
  graph.edges.length + 2

/-- One start of the search, `if (!visited.has(name)) dfs(name)`. -/
def dfsStart (graph : GraphData) (st : DfsState) (name : String) : DfsState :=
  if name ∈ st.visited then st else dfs graph (dfsFuel graph) name [] st

/-- Method `Graph.detectDeadlock(graph)`. -/
def Graph.detectDeadlock (graph : GraphData) : List String :=
  let st0 : DfsState := { visited := [], recursionStack := [], deadlockNodes := [] }
  let st1 := (JsObj.keys graph.processes).foldl (dfsStart graph) st0
  let st2 := (JsObj.keys graph.resources).foldl (dfsStart graph) st1
  st2.deadlockNodes.filter (fun node => (JsObj.get? graph.processes node).isSome)

/-- Method `Simulator.detectDeadlock()`: the list returned and the state left. -/
def detectDeadlock (s : Simulator) : List String × Simulator :=
  let deadlockProcesses := Graph.detectDeadlock (buildGraph s)
  if deadlockProcesses.length > 0 then
    (deadlockProcesses, { s with
      processes := s.processes.map (fun process =>
        if process.name ∈ deadlockProcesses then { process with state := ProcState.deadlocked }
        else process) })
  else
    (deadlockProcesses, { s with
      processes := s.processes.map (fun process =>
        if process.state = ProcState.deadlocked then { process with state := ProcState.ready }
        else process) })

/-! ## Sequences of operations -/

/-- Calls that a client can make on a simulator. -/
inductive Op
  | addProcess (name : String)
  | addResource (name : String) (instances : Int)
  | requestResource (processId resourceId : Nat) (count : Int)
  | assignResource (processId resourceId : Nat) (count : Int)
  | releaseResource (processId resourceId : Nat) (count : Int)
  | releaseAllResources (processId : Nat)
  | detectDeadlock
deriving DecidableEq

/-- State left by one call. -/
def step (s : Simulator) : Op → Simulator
  | Op.addProcess name => addProcess s name
  | Op.addResource name instances => addResource s name instances
  | Op.requestResource processId resourceId count =>
    (requestResource s processId resourceId count).2
  | Op.assignResource processId resourceId count =>
    (assignResource s processId resourceId count).2
  | Op.releaseResource processId resourceId count =>
    (releaseResource s processId resourceId count).2
  | Op.releaseAllResources processId => (releaseAllResources s processId).2
  | Op.detectDeadlock => (detectDeadlock s).2

/-- State left by a sequence of calls. -/
def run (s : Simulator) (ops : List Op) : Simulator :=
  ops.foldl step s

/-- States that a fresh simulator reaches by some sequence of calls. -/
def Reachable (s : Simulator) : Prop :=
  ∃ ops : List Op, run Simulator.fresh ops = s

/-! ## Properties of states -/

/-- Number of instances of `r` that the processes of `s` hold according to `r.allocated`:
the sum over all processes of `r.allocated[p.id]`, an absent entry counting for zero. -/
def allocatedTotal (s : Simulator) (r : Resource) : Int :=
  (s.processes.map (fun p => JsObj.getD0 r.allocated p.id)).sum

/-- The conservation equation of a resource. -/
def conserved (s : Simulator) (r : Resource) : Prop :=
  r.availableInstances + allocatedTotal s r = r.totalInstances

/-- Ledger part of a process: its identifier and its allocation map. -/
def Process.holding (p : Process) : Nat × JsObj String Int :=
  (p.id, p.allocated)

/-- Agreement of the two allocation views, on the ledger parts `ps` of the processes and
the resources `rs`. -/
structure LedgerInv (ps : List (Nat × JsObj String Int)) (rs : List Resource) : Prop where
  pids_nodup : (ps.map Prod.fst).Nodup
  rids_nodup : (rs.map Resource.id).Nodup
  names_nodup : (rs.map Resource.name).Nodup
  keys_nodup : ∀ e ∈ ps, (JsObj.keys e.2).Nodup
  held_named : ∀ e ∈ ps, ∀ k, JsObj.get? e.2 k ≠ none → k ∈ rs.map Resource.name
  holders_exist : ∀ r ∈ rs, ∀ k, JsObj.get? r.allocated k ≠ none → k ∈ ps.map Prod.fst
  consistent : ∀ e ∈ ps, ∀ r ∈ rs, JsObj.getD0 e.2 r.name = JsObj.getD0 r.allocated e.1
  conserved : ∀ r ∈ rs,
    r.availableInstances + (ps.map (fun e => JsObj.getD0 r.allocated e.1)).sum
      = r.totalInstances

/-- Invariant of the states reached with pairwise distinct resource names. -/
def Inv (s : Simulator) : Prop :=
  LedgerInv (s.processes.map Process.holding) s.resources ∧
  (∀ i ∈ s.processes.map Process.id, i < s.nextProcessId) ∧
  (∀ i ∈ s.resources.map Resource.id, i < s.nextResourceId)

/-- No negative count is passed by the call. -/
def Op.nonneg : Op → Bool
  | Op.addProcess _ => true
  | Op.addResource _ instances => decide (0 ≤ instances)
  | Op.requestResource _ _ count => decide (0 ≤ count)
  | Op.assignResource _ _ count => decide (0 ≤ count)
  | Op.releaseResource _ _ count => decide (0 ≤ count)
  | Op.releaseAllResources _ => true
  | Op.detectDeadlock => true

/-- The scan would grant the entry `process.requested[resourceName]`: the amount is
positive and the resource of that name has as many instances available. -/
def grantable (s : Simulator) (process : Process) (resourceName : String) : Bool :=
  match JsObj.get? process.requested resourceName with
  | some requestedCount =>
    decide (requestedCount > 0) &&
      (match findResourceByName s resourceName with
       | some resource => decide (resource.availableInstances ≥ requestedCount)
       | none => false)
  | none => false

/-- The wake-up scan has nothing to grant: no process whose flag `waiting` is set has a
grantable entry. -/
def scanIdle (s : Simulator) : Bool :=
  s.processes.all (fun process =>
    !process.waiting || (JsObj.keys process.requested).all (fun k => !grantable s process k))

/-- No process holds a negative amount and no pool is negative. -/
def NoDebt (s : Simulator) : Prop :=
  (∀ p ∈ s.processes, ∀ k, 0 ≤ JsObj.getD0 p.allocated k) ∧
  ∀ r ∈ s.resources, 0 ≤ r.availableInstances

/-! ## Concrete runs -/

/-- Two resources are given the same name; the process is granted the first and releases
the second. -/
def duplicateNameOps : List Op :=
  [Op.addProcess "P1", Op.addResource "R" 1, Op.addResource "R" 1,
    Op.requestResource 1 1 1, Op.releaseResource 1 2 1]

/-- The state `s` with the process `processId` running and not flagged as waiting. -/
def markRunning (s : Simulator) (processId : Nat) : Simulator :=
  { s with
    processes := updateFirst (fun p => p.id == processId)
      (fun p => { p with waiting := false, state := ProcState.running }) s.processes }

/-- Process identifiers are pairwise distinct, and so are resource identifiers (as the
counters `nextProcessId` and `nextResourceId` make them). -/
def UniqueIds (s : Simulator) : Prop :=
  (s.processes.map Process.id).Nodup ∧ (s.resources.map Resource.id).Nodup

/-- Identifiers in use and the two counters. -/
def idShape (s : Simulator) : List Nat × List Nat × Nat × Nat :=
  (s.processes.map Process.id, s.resources.map Resource.id, s.nextProcessId, s.nextResourceId)

/-- One process and one resource with two instances, nothing requested yet. -/
def idleState : Simulator :=
  run Simulator.fresh [Op.addProcess "P1", Op.addResource "R1" 2]

/-- The process of `idleState` has been granted one of the two instances. -/
def holdingState : Simulator :=
  run idleState [Op.requestResource 1 1 1]

/-- One process holding the three instances of the only resource. -/
def holdingThreeState : Simulator :=
  run Simulator.fresh [Op.addProcess "P1", Op.addResource "R1" 3, Op.requestResource 1 1 3]

/-- The two-process, two-resource scenario of `autoSimulate`. -/
def twoByTwoOps : List Op :=
  [Op.addProcess "P1", Op.addProcess "P2", Op.addResource "R1" 1, Op.addResource "R2" 1,
    Op.requestResource 1 1 1, Op.requestResource 2 2 1, Op.requestResource 1 2 1,
    Op.requestResource 2 1 1]

/-- Process 1 keeps a request on `R1` through a `releaseAllResources` that clears its flag,
`R1` is then freed while process 1 is not flagged, and a further request of process 1, on
the busy `R2`, flags it again: a flagged process now has a request that can be granted. -/
def staleRequestOps : List Op :=
  [Op.addProcess "P1", Op.addProcess "P2", Op.addResource "R1" 1, Op.addResource "R2" 1,
    Op.requestResource 2 1 1, Op.requestResource 2 2 1, Op.requestResource 1 1 1,
    Op.releaseAllResources 1, Op.releaseResource 2 1 1, Op.requestResource 1 2 1]

/-- Process 1 holds the only instance of `R`; process 3 asks for it first, process 2,
created earlier, asks second. -/
def lateComerOps : List Op :=
  [Op.addProcess "H", Op.addProcess "P2", Op.addProcess "P3", Op.addResource "R" 1,
    Op.requestResource 1 1 1, Op.requestResource 3 1 1, Op.requestResource 2 1 1]

/-! ## Cycles of a graph -/

/-- The graph has an edge from `a` to `b`. -/
def hasEdge (graph : GraphData) (a b : String) : Bool :=
  graph.edges.any (fun edge => edge.from_ == a && edge.to_ == b)

/-- Every node of the list is joined by an edge to the next one. -/
def isPath (graph : GraphData) : List String → Bool
  | [] => true
  | [_] => true
  | a :: b :: rest => hasEdge graph a b && isPath graph (b :: rest)

/-- The nodes of `c`, in this order, form a directed cycle: every node is joined by an edge
to the next one and the last node to the first. -/
def isCycle (graph : GraphData) (c : List String) : Bool :=
  match c.head?, c.getLast? with
  | some first, some last => isPath graph c && hasEdge graph last first
  | _, _ => false

/-- The node `x` lies on a directed cycle of the graph's edges. -/
def onCycle (graph : GraphData) (x : String) : Prop :=
  ∃ c : List String, x ∈ c ∧ isCycle graph c = true

/-- Three processes and three single-instance resources: P1 holds R3 and requests R1 then
R2, P2 holds R1 and requests R3, P3 holds R2 and requests R1. -/
def crossEdgeOps : List Op :=
  [Op.addProcess "P1", Op.addProcess "P2", Op.addProcess "P3",
    Op.addResource "R1" 1, Op.addResource "R2" 1, Op.addResource "R3" 1,
    Op.requestResource 1 3 1, Op.requestResource 2 1 1, Op.requestResource 3 2 1,
    Op.requestResource 1 1 1, Op.requestResource 1 2 1, Op.requestResource 2 3 1,
    Op.requestResource 3 1 1]

/-- Two separate two-process cycles: P1, P2 on R1, R2 and P3, P4 on R3, R4. -/
def twoCyclesOps : List Op :=
  [Op.addProcess "P1", Op.addProcess "P2", Op.addProcess "P3", Op.addProcess "P4",
    Op.addResource "R1" 1, Op.addResource "R2" 1, Op.addResource "R3" 1, Op.addResource "R4" 1,
    Op.requestResource 1 1 1, Op.requestResource 2 2 1, Op.requestResource 3 3 1,
    Op.requestResource 4 4 1, Op.requestResource 1 2 1, Op.requestResource 2 1 1,
    Op.requestResource 3 4 1, Op.requestResource 4 3 1]

/-- A resource with two instances, held by P1 and P3; P2 holds R2; P1 requests R2 and P2
requests R1. -/
def multiInstanceOps : List Op :=
  [Op.addProcess "P1", Op.addProcess "P2", Op.addProcess "P3",
    Op.addResource "R1" 2, Op.addResource "R2" 1,
    Op.requestResource 1 1 1, Op.requestResource 3 1 1, Op.requestResource 2 2 1,
    Op.requestResource 1 2 1, Op.requestResource 2 1 1]

/-- The three sets of `Graph.detectDeadlock` once the search has been started from every
process node and every resource node. -/
def dfsAll (graph : GraphData) : DfsState :=
  (JsObj.keys graph.resources).foldl (dfsStart graph)
    ((JsObj.keys graph.processes).foldl (dfsStart graph)
      { visited := [], recursionStack := [], deadlockNodes := [] })

/-! ## Counts passed by calls -/

/-- The count that a call passes on to the grant path, if it does. -/
def Op.grantCount : Op → Option Int
  | Op.requestResource _ _ count => some count
  | Op.assignResource _ _ count => some count
  | _ => none

/-- Every count passed to `requestResource` and `assignResource` is positive. -/
def Op.positive (op : Op) : Bool :=
  match op.grantCount with
  | some count => decide (0 < count)
  | none => true

/-- The number of instances passed to `addResource` is at least one. -/
def Op.instancesAtLeastOne : Op → Bool
  | Op.addResource _ instances => decide (1 ≤ instances)
  | _ => true

/-- Every stored requested amount of the process is positive, and if the process is flagged
as waiting it has such an amount and is not running. -/
def Process.flagSound (p : Process) : Prop :=
  (∀ k v, JsObj.get? p.requested k = some v → 0 < v) ∧
  (p.waiting = true →
    (∃ k v, JsObj.get? p.requested k = some v ∧ 0 < v) ∧ p.state ≠ ProcState.running)

/-- No process has a negative allocated or requested amount. -/
def NoNegative (s : Simulator) : Prop :=
  ∀ p ∈ s.processes, ∀ k, 0 ≤ JsObj.getD0 p.allocated k ∧ 0 ≤ JsObj.getD0 p.requested k

/-- P2 holds R1; P1 asks for R1 and waits, then asks for the free R2 and is granted it. -/
def earlyUnflagOps : List Op :=
  [Op.addProcess "P1", Op.addProcess "P2", Op.addResource "R1" 1, Op.addResource "R2" 1,
    Op.requestResource 2 1 1, Op.requestResource 1 1 1, Op.requestResource 1 2 1]

/-- Every stored requested amount and every stored allocated amount of the process is
positive. -/
def Process.storedPositive (p : Process) : Prop :=
  (∀ k v, JsObj.get? p.requested k = some v → 0 < v) ∧
  (∀ k v, JsObj.get? p.allocated k = some v → 0 < v)

/-! ## Calls including resetSimulation, and the identifiers handed out -/

/-- Method `resetSimulation()` (lines 769-773): both registries are emptied and both
counters are set back to 1. -/
def resetSimulation (s : Simulator) : Simulator :=
  { s with processes := [], resources := [], nextProcessId := 1, nextResourceId := 1 }

/-- A call on the simulator: one of the ledger methods, or `resetSimulation`. -/
inductive Call
  | op (o : Op)
  | resetSimulation
deriving DecidableEq

/-- State left by one call. -/
def stepCall (s : Simulator) : Call → Simulator
  | Call.op o => step s o
  | Call.resetSimulation => resetSimulation s

/-- State left by a sequence of calls. -/
def runCalls (s : Simulator) (calls : List Call) : Simulator :=
  calls.foldl stepCall s

/-- Identifier of the process created by the call, if the call is `addProcess`: the `id` of
the object the call has pushed on `processes`. -/
def issuedProcessId (s : Simulator) : Call → Option Nat
  | Call.op (Op.addProcess name) => (addProcess s name).processes.getLast?.map Process.id
  | _ => none

/-- Identifier of the resource created by the call, if the call is `addResource`. -/
def issuedResourceId (s : Simulator) : Call → Option Nat
  | Call.op (Op.addResource name instances) =>
    (addResource s name instances).resources.getLast?.map Resource.id
  | _ => none

/-- Identifiers of the processes created by a sequence of calls, in order of creation. -/
def issuedProcessIds (s : Simulator) : List Call → List Nat
  | [] => []
  | c :: cs => (issuedProcessId s c).toList ++ issuedProcessIds (stepCall s c) cs

/-- Identifiers of the resources created by a sequence of calls, in order of creation. -/
def issuedResourceIds (s : Simulator) : List Call → List Nat
  | [] => []
  | c :: cs => (issuedResourceId s c).toList ++ issuedResourceIds (stepCall s c) cs

/-- Two processes of the same name wait for the resource that a third one holds. -/
def sameNameOps : List Op :=
  [Op.addProcess "P", Op.addProcess "P", Op.addProcess "Q", Op.addResource "R1" 1,
    Op.requestResource 3 1 1, Op.requestResource 1 1 1, Op.requestResource 2 1 1]

/-- Order of `Object.keys`: no key is enumerated after a key that it precedes. -/
def KeyOrdered {κ : Type} [JsKey κ] (ks : List κ) : Prop :=
  ks.Pairwise (fun k k' => JsObj.precedes k' k = false)

/-- Process 2 acquires R1 before process 1 does. -/
def lateFirstOps : List Op :=
  [Op.addProcess "P1", Op.addProcess "P2", Op.addResource "R1" 2,
    Op.requestResource 2 1 1, Op.requestResource 1 1 1]

/-- Resources named by numerals: process 1 requests the resource named 7, then the one
named 3, both held by process 2. -/
def numeralNameOps : List Op :=
  [Op.addProcess "P1", Op.addProcess "P2", Op.addResource "7" 1, Op.addResource "3" 1,
    Op.requestResource 2 1 1, Op.requestResource 2 2 1,
    Op.requestResource 1 1 1, Op.requestResource 1 2 1]

/-- Outcome of a wake-up scan started in `s` for the entries under the resource name `n` of
one process, `before` the scan and `after` it: nothing has changed, or the whole outstanding
amount `q`, which the resource of that name could cover, has moved from `requested` to
`allocated`. -/
def WholeGrant (s : Simulator) (before after : Process) (n : String) : Prop :=
  (JsObj.get? after.requested n = JsObj.get? before.requested n ∧
    JsObj.get? after.allocated n = JsObj.get? before.allocated n) ∨
  ∃ q r, JsObj.get? before.requested n = some q ∧ 0 < q ∧
    findResourceByName s n = some r ∧ q ≤ r.availableInstances ∧
    JsObj.get? after.requested n = none ∧
    JsObj.getD0 after.allocated n = JsObj.getD0 before.allocated n + q

/-- The resources `rs'` are the resources `rs` with the same names and no more instances
available. -/
def NotRaised (rs rs' : List Resource) : Prop :=
  List.Forall₂ (fun r r' : Resource =>
    r'.availableInstances ≤ r.availableInstances ∧ r'.name = r.name) rs rs'

/-! ## Invariants of the depth-first search -/

/-- The state of the search agrees with the chain `path` of the calls of `dfs` that are
under way: the recursion stack holds the nodes of the path, which are visited, pairwise
distinct, each joined by an edge to the next one. -/
structure DfsWF (graph : GraphData) (path : List String) (st : DfsState) : Prop where
  stack_iff : ∀ x, x ∈ st.recursionStack ↔ x ∈ path
  path_visited : ∀ x ∈ path, x ∈ st.visited
  path_nodup : path.Nodup
  path_chain : isPath graph path = true
  path_targets : ∀ x ∈ path.tail, ∃ e ∈ graph.edges, e.to_ = x

/-- The call of `dfs` on the node has returned. -/
def Finished (st : DfsState) (x : String) : Prop :=
  x ∈ st.visited ∧ x ∉ st.recursionStack

/-- Some edge has both its ends among the recorded nodes. -/
def Detected (graph : GraphData) (st : DfsState) : Prop :=
  ∃ e ∈ graph.edges, e.from_ ∈ st.deadlockNodes ∧ e.to_ ∈ st.deadlockNodes

/-- Every recorded node lies on a cycle, and unless an edge has been recorded no finished
node lies on a cycle. -/
structure DfsGood (graph : GraphData) (st : DfsState) : Prop where
  sound : ∀ x ∈ st.deadlockNodes, onCycle graph x
  acyclic : Detected graph st ∨ ∀ x, Finished st x → ¬ onCycle graph x

/-- What one call of `dfs` on `v` below `path`, or one start of the search, establishes. -/
structure DfsPost (graph : GraphData) (path : List String) (v : String)
    (st st' : DfsState) : Prop where
  wf : DfsWF graph path st'
  good : DfsGood graph st'
  visited_mono : ∀ x ∈ st.visited, x ∈ st'.visited
  recorded_mono : ∀ x ∈ st.deadlockNodes, x ∈ st'.deadlockNodes
  settled : Detected graph st' ∨ Finished st' v

/-- A process and a resource are both named X, and the process holds the resource. -/
def sharedNameOps : List Op :=
  [Op.addProcess "X", Op.addResource "X" 1, Op.requestResource 1 1 1]

/-- The two allocation maps have the same entries: `p.allocated[r.name]` and
`r.allocated[p.id]` are both absent or both hold the same amount. -/
def EntryAgree (s : Simulator) : Prop :=
  ∀ p ∈ s.processes, ∀ r ∈ s.resources,
    JsObj.get? p.allocated r.name = JsObj.get? r.allocated p.id

/-- Two resources are given the same name; the process is granted the second and releases
all it holds. -/
def duplicateNameReleaseAllOps : List Op :=
  [Op.addProcess "P1", Op.addResource "R" 1, Op.addResource "R" 1,
    Op.requestResource 1 2 1, Op.releaseAllResources 1]

/-! ## Recovery -/

/-- Modelled from the spec: `removeProcess(id)`, which the source does not have (its
`recover` only posts the strategy to `/api/recover`). A process is destroyed, "at which
point all of its allocations are released back to their resources": the allocations are
released as `releaseAllResources` releases them and the process leaves the registry. -/
def removeProcess (s : Simulator) (processId : Nat) : Simulator :=
  { (releaseAllResources s processId).2 with
    processes := (releaseAllResources s processId).2.processes.filter
      (fun p => p.id != processId) }

/-- Modelled from the spec: the victim of `terminate-lowest-priority`, which the source does
not have: among the candidates "the one with the lowest priority value (ties broken by
smallest identifier)". The priority of a process, a random number in the source, is given by
the function `priority` on identifiers. -/
def lowestPriority (priority : Nat → Int) (candidates : List Process) : Option Process :=
  candidates.foldl (fun best p =>
    match best with
    | none => some p
    | some b =>
      if priority p.id < priority b.id ∨ (priority p.id = priority b.id ∧ p.id < b.id)
      then some p else some b) none

/-- Modelled from the spec: the strategy `terminate-lowest-priority` of `recover`, which the
source does not have: it "picks, among deadlocked processes, the one with the lowest
priority value, calls `releaseAll` then `removeProcess` on it, and re-runs detection,
repeating until no cycle remains or no deadlocked process is left". The result is the list
of the identifiers removed and the state left, or `none` for `RecoveryExhausted`; the first
argument bounds the number of rounds. -/
def recoverRounds (priority : Nat → Int) : Nat → Simulator → Option (List Nat × Simulator)
  | 0, _ => none
  | fuel + 1, s =>
    if (detectDeadlock s).1 = [] then some ([], (detectDeadlock s).2)
    else
      match lowestPriority priority
        ((detectDeadlock s).2.processes.filter (fun p => p.name ∈ (detectDeadlock s).1)) with
      | none => none
      | some victim =>
        match recoverRounds priority fuel
          (removeProcess (releaseAllResources (detectDeadlock s).2 victim.id).2 victim.id) with
        | some (removed, s') => some (victim.id :: removed, s')
        | none => none

/-- Modelled from the spec: `recover(terminate-lowest-priority)`; every round but the last
removes a process, so one round more than there are processes is enough. -/
def recover (priority : Nat → Int) (s : Simulator) : Option (List Nat × Simulator) :=
  recoverRounds priority (s.processes.length + 1) s

/-- The two-by-two scenario once `detectDeadlock` has reported and marked its cycle. -/
def twoByTwoDetected : Simulator :=
  (detectDeadlock (run Simulator.fresh twoByTwoOps)).2

/-! ## Inputs on which the conventions of the model are those of the code -/

/-- Property names that every object literal inherits from `Object.prototype`: under such a
key a read `m[k]` of an object without an own property `k` gives a function or an object,
not `undefined`. -/
def protoNames : List String :=
  ["constructor", "__proto__", "hasOwnProperty", "isPrototypeOf", "propertyIsEnumerable",
    "toLocaleString", "toString", "valueOf", "__defineGetter__", "__defineSetter__",
    "__lookupGetter__", "__lookupSetter__"]

/-- The name is not inherited from `Object.prototype`: a read under it finds an own property
or `undefined`, as `JsObj.get?` does. -/
def ordinaryName (n : String) : Bool :=
  !protoNames.contains n

/-- No resource of the state has a name inherited from `Object.prototype`. -/
def ordinaryResources (s : Simulator) : Bool :=
  s.resources.all (fun r => ordinaryName r.name)

/-- No node of the graph, listed or at the end of an edge, has a name inherited from
`Object.prototype`. -/
def GraphData.ordinary (graph : GraphData) : Bool :=
  (JsObj.keys graph.processes).all ordinaryName &&
  (JsObj.keys graph.resources).all ordinaryName &&
  graph.edges.all (fun e => ordinaryName e.from_ && ordinaryName e.to_)

/-- Two to the power 52: the sum or difference of two integers that are at most this large
in absolute value is at most `2^53` in absolute value, hence exact in double arithmetic. -/
def safeBound : Int := 4503599627370496

/-- The integer is at most `safeBound` in absolute value. -/
def safeNumber (x : Int) : Bool :=
  decide (-safeBound ≤ x) && decide (x ≤ safeBound)

/-- Every number stored in the state is a safe number. -/
def Simulator.safe (s : Simulator) : Bool :=
  s.resources.all (fun r => safeNumber r.totalInstances && safeNumber r.availableInstances &&
    r.allocated.all (fun e => safeNumber e.2)) &&
  s.processes.all (fun p => p.allocated.all (fun e => safeNumber e.2) &&
    p.requested.all (fun e => safeNumber e.2))

/-- The number that the call passes: a count, or a number of instances. -/
def Op.amount : Op → Int
  | Op.addResource _ instances => instances
  | Op.requestResource _ _ count => count
  | Op.assignResource _ _ count => count
  | Op.releaseResource _ _ count => count
  | _ => 0

/-- Every number passed by a call of the run, and every number stored in a state of the run,
is a safe number: every sum and difference that the calls compute is then an integer of
absolute value at most `2^53`, on which the double arithmetic of the code is exact. -/
def safeRun (ops : List Op) : Bool :=
  ops.all (fun op => safeNumber op.amount) &&
  (List.range (ops.length + 1)).all (fun n => (run Simulator.fresh (ops.take n)).safe)

/-- Two resources named R, of which process 1 holds the first. -/
def duplicateNameHeldOps : List Op :=
  [Op.addProcess "P1", Op.addResource "R" 1, Op.addResource "R" 1, Op.requestResource 1 1 1]

/-- One process holding one of the two instances of the only resource. -/
def holdingOps : List Op :=
  [Op.addProcess "P1", Op.addResource "R1" 2, Op.requestResource 1 1 1]

/-! ## Lemmas on JavaScript objects -/

namespace JsObj

variable {κ α : Type}

theorem get?_insertNew_ne [DecidableEq κ] [JsKey κ] (m : JsObj κ α) (k k' : κ) (v : α)
    (h : k ≠ k') : get? (insertNew k v m) k' = get? m k' := by
  induction m with
  | nil => simp [insertNew, get?, h]
  | cons e rest ih =>
    obtain ⟨k0, v0⟩ := e
    by_cases hp : precedes k k0 = true
    · simp [insertNew, hp, get?, h]
    · simp [insertNew, hp, get?, ih]

theorem get?_insertNew_self [DecidableEq κ] [JsKey κ] (m : JsObj κ α) (k : κ) (v : α)
    (h : get? m k = none) : get? (insertNew k v m) k = some v := by
  induction m with
  | nil => simp [insertNew, get?]
  | cons e rest ih =>
    obtain ⟨k0, v0⟩ := e
    by_cases hk : k0 = k
    · simp [get?, hk] at h
    · have hr : get? rest k = none := by simpa [get?, hk] using h
      by_cases hp : precedes k k0 = true
      · simp [insertNew, hp, get?]
      · simp [insertNew, hp, get?, hk, ih hr]

theorem get?_replace_ne [DecidableEq κ] (m : JsObj κ α) (k k' : κ) (v : α)
    (h : k ≠ k') : get? (replace k v m) k' = get? m k' := by
  induction m with
  | nil => simp [replace, get?]
  | cons e rest ih =>
    obtain ⟨k0, v0⟩ := e
    by_cases hk : k0 = k
    · subst hk
      simp [replace, get?, h]
    · simp [replace, get?, hk, ih]

theorem get?_replace_self [DecidableEq κ] (m : JsObj κ α) (k : κ) (v w : α)
    (h : get? m k = some w) : get? (replace k v m) k = some v := by
  induction m with
  | nil => simp [get?] at h
  | cons e rest ih =>
    obtain ⟨k0, v0⟩ := e
    by_cases hk : k0 = k
    · simp [replace, get?, hk]
    · have hr : get? rest k = some w := by simpa [get?, hk] using h
      simp [replace, get?, hk, ih hr]

theorem get?_set_self [DecidableEq κ] [JsKey κ] (m : JsObj κ α) (k : κ) (v : α) :
    get? (set m k v) k = some v := by
  unfold set
  cases h : get? m k with
  | none => simpa using get?_insertNew_self m k v h
  | some w => simpa using get?_replace_self m k v w h

theorem get?_set_ne [DecidableEq κ] [JsKey κ] (m : JsObj κ α) (k k' : κ) (v : α)
    (h : k ≠ k') : get? (set m k v) k' = get? m k' := by
  unfold set
  cases hm : get? m k with
  | none => simpa using get?_insertNew_ne m k k' v h
  | some w => simpa using get?_replace_ne m k k' v h

theorem get?_set [DecidableEq κ] [JsKey κ] (m : JsObj κ α) (k k' : κ) (v : α) :
    get? (set m k v) k' = if k = k' then some v else get? m k' := by
  by_cases h : k = k'
  · subst h
    simp [get?_set_self]
  · simp [h, get?_set_ne m k k' v h]

theorem get?_delete_self [DecidableEq κ] (m : JsObj κ α) (k : κ) :
    get? (delete m k) k = none := by
  induction m with
  | nil => simp [delete, get?]
  | cons e rest ih =>
    obtain ⟨k0, v0⟩ := e
    by_cases hk : k0 = k
    · simpa [delete, hk] using ih
    · have : get? (List.filter (fun e => !decide (e.1 = k)) rest) k = none := ih
      simp [delete, hk, get?, this]

theorem get?_delete_ne [DecidableEq κ] (m : JsObj κ α) (k k' : κ) (h : k ≠ k') :
    get? (delete m k) k' = get? m k' := by
  induction m with
  | nil => simp [delete, get?]
  | cons e rest ih =>
    obtain ⟨k0, v0⟩ := e
    have ih' : get? (List.filter (fun e => !decide (e.1 = k)) rest) k' = get? rest k' := ih
    by_cases hk : k0 = k
    · subst hk
      simp [delete, get?, h, ih']
    · simp [delete, hk, get?, ih']

theorem get?_delete [DecidableEq κ] (m : JsObj κ α) (k k' : κ) :
    get? (delete m k) k' = if k = k' then none else get? m k' := by
  by_cases h : k = k'
  · subst h
    simp [get?_delete_self]
  · simp [h, get?_delete_ne m k k' h]

theorem delete_of_absent [DecidableEq κ] (m : JsObj κ α) (k : κ) (h : get? m k = none) :
    delete m k = m := by
  induction m with
  | nil => simp [delete]
  | cons e rest ih =>
    obtain ⟨k0, v0⟩ := e
    by_cases hk : k0 = k
    · simp [get?, hk] at h
    · have hr : get? rest k = none := by simpa [get?, hk] using h
      have : List.filter (fun e => !decide (e.1 = k)) rest = rest := ih hr
      simp [delete, hk, this]

theorem delete_insertNew [DecidableEq κ] [JsKey κ] (m : JsObj κ α) (k : κ) (v : α) :
    delete (insertNew k v m) k = delete m k := by
  induction m with
  | nil => simp [delete, insertNew]
  | cons e rest ih =>
    obtain ⟨k0, v0⟩ := e
    have ih' : List.filter (fun e => !decide (e.1 = k)) (insertNew k v rest)
        = List.filter (fun e => !decide (e.1 = k)) rest := ih
    by_cases hp : precedes k k0 = true
    · simp [insertNew, hp, delete]
    · by_cases hk : k0 = k
      · subst hk
        simp [insertNew, hp, delete, ih']
      · simp [insertNew, hp, delete, hk, ih']

theorem delete_replace [DecidableEq κ] (m : JsObj κ α) (k : κ) (v : α) :
    delete (replace k v m) k = delete m k := by
  induction m with
  | nil => simp [delete, replace]
  | cons e rest ih =>
    obtain ⟨k0, v0⟩ := e
    have ih' : List.filter (fun e => !decide (e.1 = k)) (replace k v rest)
        = List.filter (fun e => !decide (e.1 = k)) rest := ih
    by_cases hk : k0 = k
    · simp [replace, delete, hk]
    · simp [replace, delete, hk, ih']

theorem delete_set [DecidableEq κ] [JsKey κ] (m : JsObj κ α) (k : κ) (v : α) :
    delete (set m k v) k = delete m k := by
  unfold set
  cases h : get? m k with
  | none => simpa using delete_insertNew m k v
  | some w => simpa using delete_replace m k v

theorem replace_same [DecidableEq κ] (m : JsObj κ α) (k : κ) (v : α)
    (h : get? m k = some v) : replace k v m = m := by
  induction m with
  | nil => simp [replace]
  | cons e rest ih =>
    obtain ⟨k0, v0⟩ := e
    by_cases hk : k0 = k
    · subst hk
      have : v0 = v := by simpa [get?] using h
      simp [replace, this]
    · have hr : get? rest k = some v := by simpa [get?, hk] using h
      simp [replace, hk, ih hr]

theorem set_same [DecidableEq κ] [JsKey κ] (m : JsObj κ α) (k : κ) (v : α)
    (h : get? m k = some v) : set m k v = m := by
  unfold set
  rw [h]
  exact replace_same m k v h

theorem getD0_set [DecidableEq κ] [JsKey κ] (m : JsObj κ Int) (k k' : κ) (v : Int) :
    getD0 (set m k v) k' = if k = k' then v else getD0 m k' := by
  unfold getD0
  rw [get?_set]
  split <;> simp

theorem getD0_delete [DecidableEq κ] (m : JsObj κ Int) (k k' : κ) :
    getD0 (delete m k) k' = if k = k' then 0 else getD0 m k' := by
  unfold getD0
  rw [get?_delete]
  split <;> simp

end JsObj

/-! ## Lemmas on `find` and in-place updates -/

theorem find?_updateFirst_same {α : Type} (pred : α → Bool) (f : α → α) (l : List α)
    (hf : ∀ x, pred x = true → pred (f x) = true) :
    (updateFirst pred f l).find? pred = (l.find? pred).map f := by
  induction l with
  | nil => simp [updateFirst]
  | cons x xs ih =>
    by_cases hx : pred x = true
    · simp [updateFirst, hx, List.find?, hf x hx]
    · simp [updateFirst, hx, List.find?, ih]

theorem find?_updateFirst_other {α : Type} (pred q : α → Bool) (f : α → α) (l : List α)
    (hq : ∀ x, pred x = true → q x = false ∧ q (f x) = false) :
    (updateFirst pred f l).find? q = l.find? q := by
  induction l with
  | nil => simp [updateFirst]
  | cons x xs ih =>
    by_cases hx : pred x = true
    · simp [updateFirst, hx, List.find?, (hq x hx).1, (hq x hx).2]
    · simp [updateFirst, hx, List.find?, ih]

theorem updateFirst_length {α : Type} (pred : α → Bool) (f : α → α) (l : List α) :
    (updateFirst pred f l).length = l.length := by
  induction l with
  | nil => simp [updateFirst]
  | cons x xs ih =>
    by_cases hx : pred x = true
    · simp [updateFirst, hx]
    · simp [updateFirst, hx, ih]

theorem updateFirst_map_of_preserved {α β : Type} (pred : α → Bool) (f : α → α) (g : α → β)
    (l : List α) (hg : ∀ x, g (f x) = g x) : (updateFirst pred f l).map g = l.map g := by
  induction l with
  | nil => simp [updateFirst]
  | cons x xs ih =>
    by_cases hx : pred x = true
    · simp [updateFirst, hx, hg]
    · simp [updateFirst, hx, ih]

theorem findProcess_id {s : Simulator} {processId : Nat} {p : Process}
    (h : findProcess s processId = some p) : p.id = processId := by
  have := List.find?_some h
  simpa using this

theorem findResource_id {s : Simulator} {resourceId : Nat} {r : Resource}
    (h : findResource s resourceId = some r) : r.id = resourceId := by
  have := List.find?_some h
  simpa using this

/-! ## requestResource and releaseResource: rejected and waiting calls -/

/-- The guard of `requestResource`: when the process has at least one instance recorded under
the name of the resource, the call returns `false` and leaves the whole state as it was. -/
theorem requestResource_of_held (s : Simulator) (processId resourceId : Nat) (count : Int)
    (p : Process) (r : Resource)
    (hp : findProcess s processId = some p) (hr : findResource s resourceId = some r)
    (hheld : 1 ≤ JsObj.getD0 p.allocated r.name) :
    requestResource s processId resourceId count = (false, s) := by
  unfold requestResource
  rw [hp, hr]
  have : JsObj.getD0 p.allocated r.name > 0 := by omega
  simp [this]

/-- The guard of `releaseResource`: when the count exceeds what the process has recorded
under the name of the resource, the call returns `false` and leaves the whole state as it
was. -/
theorem releaseResource_of_short (s : Simulator) (processId resourceId : Nat) (count : Int)
    (p : Process) (r : Resource)
    (hp : findProcess s processId = some p) (hr : findResource s resourceId = some r)
    (hcount : JsObj.getD0 p.allocated r.name < count) :
    releaseResource s processId resourceId count = (false, s) := by
  unfold releaseResource
  rw [hp, hr]
  simp [hcount]

/-- C5: a request for more instances than are available, by a process holding none, returns
at once: no resource changes, no allocation map changes, the amount is added to
`p.requested[r]` and the process is left flagged and in state `waiting`. -/
theorem requestResource_waits (s : Simulator) (processId resourceId : Nat) (count : Int)
    (p : Process) (r : Resource)
    (hp : findProcess s processId = some p) (hr : findResource s resourceId = some r)
    (hheld : JsObj.getD0 p.allocated r.name = 0)
    (hcount : r.availableInstances < count) :
    (requestResource s processId resourceId count).1 = true ∧
    (requestResource s processId resourceId count).2.resources = s.resources ∧
    (requestResource s processId resourceId count).2.processes.map Process.allocated
      = s.processes.map Process.allocated ∧
    ∃ p', findProcess (requestResource s processId resourceId count).2 processId = some p' ∧
      JsObj.getD0 p'.requested r.name = JsObj.getD0 p.requested r.name + count ∧
      p'.waiting = true ∧ p'.state = ProcState.waiting := by
  have hnot : ¬ (r.availableInstances ≥ count) := by omega
  have hreq : requestResource s processId resourceId count =
      (true, requestLedger s processId r count) := by
    unfold requestResource
    rw [hp, hr]
    simp [hheld, hnot]
  rw [hreq]
  refine ⟨rfl, rfl, ?_, requestProcessEntry p r.name count, ?_, ?_, rfl, rfl⟩
  · exact updateFirst_map_of_preserved _ _ _ _ (fun x => rfl)
  · unfold findProcess at hp ⊢
    simp only [requestLedger]
    rw [find?_updateFirst_same _ _ _ (fun x hx => by simpa [requestProcessEntry] using hx), hp]
    rfl
  · simp [requestProcessEntry, JsObj.getD0_set]

/-! ## requestResource: the immediate grant -/

theorem findProcess_requestLedger (s : Simulator) (processId : Nat) (r : Resource) (count : Int)
    (p : Process) (hp : findProcess s processId = some p) :
    findProcess (requestLedger s processId r count) processId
      = some (requestProcessEntry p r.name count) := by
  unfold findProcess at hp ⊢
  simp only [requestLedger]
  rw [find?_updateFirst_same _ _ _ (fun x hx => by simpa [requestProcessEntry] using hx), hp]
  rfl

theorem assignProcessEntry_id (p : Process) (n : String) (count : Int) :
    (assignProcessEntry p n count).id = p.id := by
  unfold assignProcessEntry
  simp only []
  split <;> split <;> (try split) <;> (try split) <;> rfl

theorem assignProcessEntry_allocated (p : Process) (n : String) (count : Int) :
    (assignProcessEntry p n count).allocated
      = JsObj.set p.allocated n (JsObj.getD0 p.allocated n + count) := by
  unfold assignProcessEntry
  simp only []
  split <;> split <;> (try split) <;> (try split) <;> rfl

theorem assignResource_of_found (s : Simulator) (processId resourceId : Nat) (count : Int)
    (p : Process) (r : Resource)
    (hp : findProcess s processId = some p) (hr : findResource s resourceId = some r)
    (hcount : count ≤ r.availableInstances) :
    assignResource s processId resourceId count =
      (true, { s with
        resources := updateFirst (fun r => r.id == resourceId)
          (fun r => assignResourceEntry r p.id count) s.resources
        processes := updateFirst (fun q => q.id == processId)
          (fun q => assignProcessEntry q r.name count) s.processes }) := by
  unfold assignResource
  rw [hp, hr]
  have : ¬ (r.availableInstances < count) := by omega
  simp [this]

theorem findProcess_assignResource (s : Simulator) (processId resourceId : Nat) (count : Int)
    (p : Process) (r : Resource)
    (hp : findProcess s processId = some p) (hr : findResource s resourceId = some r)
    (hcount : count ≤ r.availableInstances) :
    findProcess (assignResource s processId resourceId count).2 processId
      = some (assignProcessEntry p r.name count) := by
  rw [assignResource_of_found s processId resourceId count p r hp hr hcount]
  unfold findProcess at hp ⊢
  simp only []
  rw [find?_updateFirst_same _ _ _
    (fun x hx => by simpa [assignProcessEntry_id] using hx), hp]
  rfl

theorem findResource_assignResource (s : Simulator) (processId resourceId : Nat) (count : Int)
    (p : Process) (r : Resource)
    (hp : findProcess s processId = some p) (hr : findResource s resourceId = some r)
    (hcount : count ≤ r.availableInstances) :
    findResource (assignResource s processId resourceId count).2 resourceId
      = some (assignResourceEntry r p.id count) := by
  rw [assignResource_of_found s processId resourceId count p r hp hr hcount]
  unfold findResource at hr ⊢
  simp only []
  rw [find?_updateFirst_same _ _ _
    (fun x hx => by simpa [assignResourceEntry] using hx), hr]
  rfl

theorem requestResource_of_available (s : Simulator) (processId resourceId : Nat) (count : Int)
    (p : Process) (r : Resource)
    (hp : findProcess s processId = some p) (hr : findResource s resourceId = some r)
    (hheld : JsObj.getD0 p.allocated r.name ≤ 0)
    (hcount : count ≤ r.availableInstances) :
    requestResource s processId resourceId count =
      (true, (assignResource (requestLedger s processId r count) processId resourceId count).2)
    := by
  unfold requestResource
  rw [hp, hr]
  have h1 : ¬ (JsObj.getD0 p.allocated r.name > 0) := by omega
  have h2 : r.availableInstances ≥ count := hcount
  simp [h1, h2]

/-- C4, amended: for a resource whose name is not inherited from `Object.prototype`, a
request for an integer count with `0 < count <= r.availableInstances <= 2^53`, by a process
for which neither `p.allocated[r.name]` nor `r.allocated[p.id]` records an instance and which
has no request outstanding under the name of `r`, is granted at once: afterwards
`p.allocated[r.name]` and `r.allocated[p.id]` are `count`, the available count is lower by
`count` and `p.requested` has no entry for `r.name`. -/
theorem requestResource_grants (s : Simulator) (processId resourceId : Nat) (count : Int)
    (p : Process) (r : Resource)
    (hp : findProcess s processId = some p) (hr : findResource s resourceId = some r)
    (hname : ordinaryName r.name = true)
    (hexact : r.availableInstances ≤ 9007199254740992)
    (hheld : JsObj.getD0 p.allocated r.name = 0)
    (hheld' : JsObj.getD0 r.allocated p.id = 0)
    (hnoreq : JsObj.getD0 p.requested r.name = 0)
    (hpos : 0 < count) (hcount : count ≤ r.availableInstances) :
    (requestResource s processId resourceId count).1 = true ∧
    ∃ p' r', findProcess (requestResource s processId resourceId count).2 processId = some p' ∧
      findResource (requestResource s processId resourceId count).2 resourceId = some r' ∧
      JsObj.get? p'.allocated r.name = some count ∧
      JsObj.get? r'.allocated p.id = some count ∧
      r'.availableInstances = r.availableInstances - count ∧
      JsObj.get? p'.requested r.name = none := by
  rw [requestResource_of_available s processId resourceId count p r hp hr (by omega) hcount]
  have hp1 := findProcess_requestLedger s processId r count p hp
  have hr1 : findResource (requestLedger s processId r count) resourceId = some r := hr
  refine ⟨rfl, assignProcessEntry (requestProcessEntry p r.name count) r.name count,
    assignResourceEntry r (requestProcessEntry p r.name count).id count,
    findProcess_assignResource _ processId resourceId count _ r hp1 hr1 hcount,
    findResource_assignResource _ processId resourceId count _ r hp1 hr1 hcount, ?_, ?_, ?_, ?_⟩
  · rw [assignProcessEntry_allocated]
    simp [requestProcessEntry, JsObj.get?_set, hheld]
  · simp [assignResourceEntry, requestProcessEntry, JsObj.get?_set, hheld']
  · simp [assignResourceEntry]
  · have hq : JsObj.get? (JsObj.set p.requested r.name (JsObj.getD0 p.requested r.name + count))
        r.name = some count := by
      rw [JsObj.get?_set_self, hnoreq]
      simp
    unfold assignProcessEntry
    simp only [requestProcessEntry, hq]
    have h1 : count > 0 := hpos
    simp [h1, JsObj.get?_delete_self]

/-! ## The wake-up scan as a sequence of grants -/

theorem foldl_preserves {σ β : Type} (P : σ → Prop) (f : σ → β → σ) (l : List β)
    (hf : ∀ t, ∀ x ∈ l, P t → P (f t x)) (s : σ) (h : P s) : P (l.foldl f s) := by
  induction l generalizing s with
  | nil => simpa using h
  | cons x xs ih =>
    simp only [List.foldl_cons]
    exact ih (fun t y hy => hf t y (List.mem_cons_of_mem _ hy)) _
      (hf s x (List.mem_cons_self _ _) h)

theorem autoAssignKey_cases (i : Nat) (s : Simulator) (k : String) :
    autoAssignKey i s k = s ∨
    ∃ process q resource, s.processes[i]? = some process ∧
      JsObj.get? process.requested k = some q ∧ 0 < q ∧
      findResourceByName s k = some resource ∧ q ≤ resource.availableInstances ∧
      autoAssignKey i s k = (assignResource s process.id resource.id q).2 := by
  cases hp : s.processes[i]? with
  | none => simp [autoAssignKey, hp]
  | some process =>
    cases hq : JsObj.get? process.requested k with
    | none => simp [autoAssignKey, hp, hq]
    | some q =>
      by_cases hpos : q > 0
      · cases hr : findResourceByName s k with
        | none => simp [autoAssignKey, hp, hq, hr]
        | some resource =>
          by_cases hav : resource.availableInstances ≥ q
          · right
            exact ⟨process, q, resource, rfl, hq, hpos, rfl, hav,
              by simp [autoAssignKey, hp, hq, hr, hpos, hav]⟩
          · simp [autoAssignKey, hp, hq, hr, hav]
      · simp [autoAssignKey, hp, hq, hpos]

/-- Invariance rule for part of the scan: a property kept by every grant that the scan can
make for the positions in `l` holds after the scan of these positions. -/
theorem scan_preserves (P : Simulator → Prop) (l : List Nat)
    (hstep : ∀ t, ∀ i ∈ l, ∀ process k q resource, P t →
      t.processes[i]? = some process → JsObj.get? process.requested k = some q → 0 < q →
      findResourceByName t k = some resource → q ≤ resource.availableInstances →
      P (assignResource t process.id resource.id q).2)
    (s : Simulator) (h : P s) : P (l.foldl autoAssignProcess s) := by
  refine foldl_preserves P autoAssignProcess l ?_ s h
  intro t i hi ht
  unfold autoAssignProcess
  cases hp : t.processes[i]? with
  | none => simpa using ht
  | some process =>
    by_cases hw : process.waiting = true
    · simp only [hw, if_true]
      refine foldl_preserves P (autoAssignKey i) _ ?_ t ht
      intro u k _ hu
      rcases autoAssignKey_cases i u k with h1 | ⟨pr, q, res, h1, h2, h3, h4, h5, h6⟩
      · rw [h1]; exact hu
      · rw [h6]; exact hstep u i hi pr k q res hu h1 h2 h3 h4 h5
    · simpa [hw] using ht

/-- Invariance rule for the whole scan. -/
theorem autoAssignResources_preserves (P : Simulator → Prop)
    (hstep : ∀ t a b c, 0 < c → P t → P (assignResource t a b c).2)
    (s : Simulator) (h : P s) : P (autoAssignResources s) := by
  unfold autoAssignResources
  exact scan_preserves P _ (fun t i _ process k q resource ht _ _ hq _ _ =>
    hstep t process.id resource.id q hq ht) s h

theorem wakeUp_preserves (P : Simulator → Prop)
    (hstep : ∀ t a b c, 0 < c → P t → P (assignResource t a b c).2)
    (s : Simulator) (h : P s) : P (wakeUp s) := by
  unfold wakeUp
  split
  · exact autoAssignResources_preserves P hstep s h
  · exact h

/-! ## The available pool is never negative when no count is -/

theorem mem_updateFirst {α : Type} (pred : α → Bool) (f : α → α) (l : List α) (x : α)
    (hx : x ∈ updateFirst pred f l) : x ∈ l ∨ ∃ y, l.find? pred = some y ∧ x = f y := by
  induction l with
  | nil => simp [updateFirst] at hx
  | cons a as ih =>
    by_cases ha : pred a = true
    · simp only [updateFirst, ha, if_true, List.mem_cons] at hx
      rcases hx with hx | hx
      · right; exact ⟨a, by simp [List.find?, ha], hx⟩
      · left; exact List.mem_cons_of_mem _ hx
    · simp only [updateFirst, ha, Bool.false_eq_true, if_false, List.mem_cons] at hx
      rcases hx with rfl | hx
      · left; exact List.mem_cons_self _ _
      · rcases ih hx with h | ⟨y, hy, hxy⟩
        · left; exact List.mem_cons_of_mem _ h
        · right; exact ⟨y, by simpa [List.find?, ha] using hy, hxy⟩

theorem assignResource_noDebt (t : Simulator) (a b : Nat) (c : Int) (hc : 0 ≤ c)
    (h : NoDebt t) : NoDebt (assignResource t a b c).2 := by
  unfold assignResource
  cases hp : findProcess t a with
  | none => simpa using h
  | some p =>
    cases hr : findResource t b with
    | none => simpa using h
    | some r =>
      by_cases hav : r.availableInstances < c
      · simpa [hav] using h
      · simp only [hav, if_false]
        constructor
        · intro x hx k
          rcases mem_updateFirst _ _ _ x hx with hx | ⟨y, hy, hxy⟩
          · exact h.1 x hx k
          · have hy' := h.1 y (List.mem_of_find?_eq_some hy)
            rw [hxy, assignProcessEntry_allocated, JsObj.getD0_set]
            split
            · have := hy' r.name; omega
            · exact hy' k
        · intro x hx
          rcases mem_updateFirst _ _ _ x hx with hx | ⟨y, hy, hxy⟩
          · exact h.2 x hx
          · have hyr : y = r := by
              have : findResource t b = some y := hy
              rw [hr] at this
              exact (Option.some.inj this).symm
            rw [hxy, hyr]
            simp only [assignResourceEntry]
            omega

theorem wakeUp_noDebt (s : Simulator) (h : NoDebt s) : NoDebt (wakeUp s) :=
  wakeUp_preserves NoDebt (fun t a b c hc ht => assignResource_noDebt t a b c (by omega) ht) s h

theorem requestLedger_noDebt (s : Simulator) (a : Nat) (r : Resource) (c : Int)
    (h : NoDebt s) : NoDebt (requestLedger s a r c) := by
  constructor
  · intro x hx k
    rcases mem_updateFirst _ _ _ x hx with hx | ⟨y, hy, hxy⟩
    · exact h.1 x hx k
    · rw [hxy]
      exact h.1 y (List.mem_of_find?_eq_some hy) k
  · exact h.2

theorem requestResource_noDebt (s : Simulator) (a b : Nat) (c : Int) (hc : 0 ≤ c)
    (h : NoDebt s) : NoDebt (requestResource s a b c).2 := by
  unfold requestResource
  cases hp : findProcess s a with
  | none => simpa using h
  | some p =>
    cases hr : findResource s b with
    | none => simpa using h
    | some r =>
      simp only []
      split
      · exact h
      · split
        · exact assignResource_noDebt _ a b c hc (requestLedger_noDebt s a r c h)
        · exact requestLedger_noDebt s a r c h

theorem releaseProcessEntry_getD0 (p : Process) (n : String) (c : Int) (k : String) :
    JsObj.getD0 (releaseProcessEntry p n c).allocated k =
      if n = k then (if JsObj.getD0 p.allocated n - c ≤ 0 then 0 else JsObj.getD0 p.allocated n - c)
      else JsObj.getD0 p.allocated k := by
  unfold releaseProcessEntry
  simp only []
  by_cases hle : JsObj.getD0 p.allocated n - c ≤ 0
  · simp only [hle, if_true, JsObj.getD0_delete, JsObj.getD0_set]
    split <;> simp_all
  · simp only [hle, if_false, JsObj.getD0_set]

theorem releaseResource_noDebt (s : Simulator) (a b : Nat) (c : Int) (hc : 0 ≤ c)
    (h : NoDebt s) : NoDebt (releaseResource s a b c).2 := by
  unfold releaseResource
  cases hp : findProcess s a with
  | none => simpa using h
  | some p =>
    cases hr : findResource s b with
    | none => simpa using h
    | some r =>
      simp only []
      split
      · exact h
      · apply wakeUp_noDebt
        constructor
        · intro x hx k
          rcases mem_updateFirst _ _ _ x hx with hx | ⟨y, hy, hxy⟩
          · exact h.1 x hx k
          · have hy' := h.1 y (List.mem_of_find?_eq_some hy)
            rw [hxy, releaseProcessEntry_getD0]
            split
            · split <;> omega
            · exact hy' k
        · intro x hx
          rcases mem_updateFirst _ _ _ x hx with hx | ⟨y, hy, hxy⟩
          · exact h.2 x hx
          · have := h.2 y (List.mem_of_find?_eq_some hy)
            rw [hxy]
            simp only [releaseResourceEntry]
            omega

theorem releaseAllResources_noDebt (s : Simulator) (a : Nat) (h : NoDebt s) :
    NoDebt (releaseAllResources s a).2 := by
  unfold releaseAllResources
  cases hp : findProcess s a with
  | none => simpa using h
  | some p =>
    simp only []
    apply wakeUp_noDebt
    have hpm : p ∈ s.processes := List.mem_of_find?_eq_some hp
    constructor
    · intro x hx k
      rcases mem_updateFirst _ _ _ x hx with hx | ⟨y, _, hxy⟩
      · exact h.1 x hx k
      · rw [hxy]
        simp [JsObj.getD0, JsObj.get?]
    · show ∀ r ∈ (JsObj.keys p.allocated).foldl (releaseAllStep p) s.resources,
        0 ≤ r.availableInstances
      refine foldl_preserves (fun rs : List Resource => ∀ r ∈ rs, 0 ≤ r.availableInstances)
        (releaseAllStep p) _ ?_ s.resources h.2
      intro rs k _ hrs x hx
      unfold releaseAllStep at hx
      cases hk : JsObj.get? p.allocated k with
      | none =>
        rw [hk] at hx
        exact hrs x hx
      | some count =>
        rw [hk] at hx
        have hcount : 0 ≤ count := by
          have := h.1 p hpm k
          simpa [JsObj.getD0, hk] using this
        rcases mem_updateFirst _ _ _ x hx with hx | ⟨y, hy, hxy⟩
        · exact hrs x hx
        · have := hrs y (List.mem_of_find?_eq_some hy)
          rw [hxy]
          simp only [releaseResourceEntry]
          omega

theorem addProcess_noDebt (s : Simulator) (name : String) (h : NoDebt s) :
    NoDebt (addProcess s name) := by
  unfold addProcess
  apply wakeUp_noDebt
  constructor
  · intro x hx k
    simp only [List.mem_append, List.mem_singleton] at hx
    rcases hx with hx | hx
    · exact h.1 x hx k
    · rw [hx]
      simp [JsObj.getD0, JsObj.get?]
  · exact h.2

theorem addResource_noDebt (s : Simulator) (name : String) (n : Int) (hn : 0 ≤ n)
    (h : NoDebt s) : NoDebt (addResource s name n) := by
  unfold addResource
  apply wakeUp_noDebt
  constructor
  · exact h.1
  · intro x hx
    simp only [List.mem_append, List.mem_singleton] at hx
    rcases hx with hx | hx
    · exact h.2 x hx
    · rw [hx]
      exact hn

theorem detectDeadlock_noDebt (s : Simulator) (h : NoDebt s) : NoDebt (detectDeadlock s).2 := by
  unfold detectDeadlock
  simp only []
  split
  · constructor
    · intro x hx k
      simp only [List.mem_map] at hx
      obtain ⟨y, hy, hxy⟩ := hx
      have := h.1 y hy k
      rw [← hxy]
      split <;> exact this
    · exact h.2
  · constructor
    · intro x hx k
      simp only [List.mem_map] at hx
      obtain ⟨y, hy, hxy⟩ := hx
      have := h.1 y hy k
      rw [← hxy]
      split <;> exact this
    · exact h.2

theorem step_noDebt (s : Simulator) (op : Op) (hop : op.nonneg = true) (h : NoDebt s) :
    NoDebt (step s op) := by
  cases op with
  | addProcess name => exact addProcess_noDebt s name h
  | addResource name n => exact addResource_noDebt s name n (by simpa [Op.nonneg] using hop) h
  | requestResource a b c =>
    exact requestResource_noDebt s a b c (by simpa [Op.nonneg] using hop) h
  | assignResource a b c =>
    exact assignResource_noDebt s a b c (by simpa [Op.nonneg] using hop) h
  | releaseResource a b c =>
    exact releaseResource_noDebt s a b c (by simpa [Op.nonneg] using hop) h
  | releaseAllResources a => exact releaseAllResources_noDebt s a h
  | detectDeadlock => exact detectDeadlock_noDebt s h

theorem run_noDebt (ops : List Op) (hops : ∀ op ∈ ops, op.nonneg = true) (s : Simulator)
    (h : NoDebt s) : NoDebt (run s ops) := by
  unfold run
  exact foldl_preserves NoDebt step ops (fun t op hop ht => step_noDebt t op (hops op hop) ht) s h

/-- C2, amended: when no call passes a negative count (to request, assign, release, or as
the number of instances of a new resource), every resource of every state reached has a
non-negative number of available instances. -/
theorem available_nonneg_of_nonneg_counts (ops : List Op) (hops : ∀ op ∈ ops, op.nonneg = true)
    (r : Resource) (hr : r ∈ (run Simulator.fresh ops).resources) :
    0 ≤ r.availableInstances := by
  have h0 : NoDebt Simulator.fresh := by
    constructor
    · intro p hp; simp [Simulator.fresh] at hp
    · intro r hr; simp [Simulator.fresh] at hr
  exact (run_noDebt ops hops Simulator.fresh h0).2 r hr

/-- C2, as stated, fails: a release with a negative count takes instances out of the pool;
after `addProcess`, `addResource("R1", 1)` and `releaseResource(1, 1, -2)` the resource has
`-1` available instances. -/
theorem available_negative_counterexample :
    (run Simulator.fresh [Op.addProcess "P1", Op.addResource "R1" 1,
      Op.releaseResource 1 1 (-2)]).resources.map Resource.availableInstances = [-1] := by
  decide

/-! ## Lists with pairwise distinct keys -/

theorem updateFirst_eq_map {α κ : Type} [DecidableEq κ] (key : α → κ) (a : κ) (f : α → α)
    (l : List α) (hnd : (l.map key).Nodup) :
    updateFirst (fun x => key x == a) f l = l.map (fun x => if key x = a then f x else x) := by
  induction l with
  | nil => simp [updateFirst]
  | cons x xs ih =>
    have hnd' : (xs.map key).Nodup := (List.nodup_cons.mp (by simpa using hnd)).2
    have hx : key x ∉ xs.map key := (List.nodup_cons.mp (by simpa using hnd)).1
    by_cases hk : key x = a
    · have hrest : xs.map (fun y => if key y = a then f y else y) = xs := by
        conv_rhs => rw [← List.map_id xs]
        apply List.map_congr_left
        intro y hy
        have : key y ≠ a := by
          intro h
          apply hx
          rw [hk, ← h]
          exact List.mem_map_of_mem key hy
        simp [this]
      simp [updateFirst, hk, hrest]
    · simp [updateFirst, hk, ih hnd']

theorem sum_map_update {κ : Type} [DecidableEq κ] (l : List κ) (a : κ) (f : κ → Int) (v : Int)
    (hnd : l.Nodup) (ha : a ∈ l) :
    (l.map (fun x => if a = x then v else f x)).sum = (l.map f).sum + (v - f a) := by
  induction l with
  | nil => simp at ha
  | cons x xs ih =>
    have hnd' : xs.Nodup := (List.nodup_cons.mp hnd).2
    have hx : x ∉ xs := (List.nodup_cons.mp hnd).1
    by_cases hax : a = x
    · subst hax
      have hrest : xs.map (fun x => if a = x then v else f x) = xs.map f := by
        apply List.map_congr_left
        intro y hy
        have : a ≠ y := fun h => hx (h ▸ hy)
        simp [this]
      simp only [List.map_cons, List.sum_cons, if_true, hrest]
      omega
    · have ha' : a ∈ xs := by
        rcases List.mem_cons.mp ha with h | h
        · exact absurd h hax
        · exact h
      simp only [List.map_cons, List.sum_cons, hax, if_false, ih hnd' ha']
      omega

theorem sum_map_update_absent {κ : Type} [DecidableEq κ] (l : List κ) (a : κ) (f : κ → Int)
    (v : Int) (ha : a ∉ l) :
    (l.map (fun x => if a = x then v else f x)).sum = (l.map f).sum := by
  congr 1
  apply List.map_congr_left
  intro y hy
  have : a ≠ y := fun h => ha (h ▸ hy)
  simp [this]

theorem eq_of_mem_of_key_eq {α κ : Type} (key : α → κ) (l : List α)
    (hnd : (l.map key).Nodup) (x y : α) (hx : x ∈ l) (hy : y ∈ l) (h : key x = key y) :
    x = y := by
  induction l with
  | nil => simp at hx
  | cons a as ih =>
    have hnd' : (as.map key).Nodup := (List.nodup_cons.mp (by simpa using hnd)).2
    have ha : key a ∉ as.map key := (List.nodup_cons.mp (by simpa using hnd)).1
    rcases List.mem_cons.mp hx with rfl | hx'
    · rcases List.mem_cons.mp hy with rfl | hy'
      · rfl
      · exact absurd (h ▸ List.mem_map_of_mem key hy') ha
    · rcases List.mem_cons.mp hy with rfl | hy'
      · exact absurd (h ▸ List.mem_map_of_mem key hx') ha
      · exact ih hnd' hx' hy'

namespace JsObj

variable {κ α : Type}

theorem get?_eq_none_iff [DecidableEq κ] (m : JsObj κ α) (k : κ) :
    get? m k = none ↔ k ∉ keys m := by
  induction m with
  | nil => simp [get?, keys]
  | cons e rest ih =>
    obtain ⟨k0, v0⟩ := e
    by_cases hk : k0 = k
    · simp [get?, keys, hk]
    · have : ¬ k = k0 := fun h => hk h.symm
      simp only [get?, hk, if_false, ih]
      simp [keys, this]

theorem keys_replace [DecidableEq κ] (m : JsObj κ α) (k : κ) (v : α) :
    keys (replace k v m) = keys m := by
  induction m with
  | nil => simp [replace]
  | cons e rest ih =>
    obtain ⟨k0, v0⟩ := e
    by_cases hk : k0 = k
    · simp [replace, keys, hk]
    · have ih' : List.map Prod.fst (replace k v rest) = List.map Prod.fst rest := ih
      simp [replace, keys, hk, ih']

theorem keys_insertNew_perm [JsKey κ] (m : JsObj κ α) (k : κ) (v : α) :
    (keys (insertNew k v m)).Perm (k :: keys m) := by
  induction m with
  | nil => simp [insertNew, keys]
  | cons e rest ih =>
    by_cases hp : precedes k e.1 = true
    · simp [insertNew, hp, keys]
    · have ih' : (List.map Prod.fst (insertNew k v rest)).Perm (k :: List.map Prod.fst rest) := ih
      simp only [insertNew, hp, Bool.false_eq_true, if_false, keys, List.map_cons]
      exact (List.Perm.cons _ ih').trans (List.Perm.swap _ _ _)

theorem keys_set_nodup [DecidableEq κ] [JsKey κ] (m : JsObj κ α) (k : κ) (v : α)
    (h : (keys m).Nodup) : (keys (set m k v)).Nodup := by
  unfold set
  cases hk : get? m k with
  | some w =>
    simp only []
    rw [keys_replace]
    exact h
  | none =>
    simp only []
    refine (keys_insertNew_perm m k v).nodup_iff.mpr ?_
    exact List.nodup_cons.mpr ⟨(get?_eq_none_iff m k).mp hk, h⟩

theorem keys_delete_nodup [DecidableEq κ] (m : JsObj κ α) (k : κ)
    (h : (keys m).Nodup) : (keys (delete m k)).Nodup := by
  unfold delete keys
  exact (List.Nodup.sublist (List.Sublist.map _ (List.filter_sublist _)) h)

end JsObj

/-! ## The ledger invariant under a change of one holding -/

theorem ledgerInv_update (ps : List (Nat × JsObj String Int)) (rs : List Resource)
    (h : LedgerInv ps rs) (pid : Nat) (r0 : Resource) (hr0 : r0 ∈ rs)
    (hpid : pid ∈ ps.map Prod.fst)
    (A : JsObj String Int → JsObj String Int) (R : Resource → Resource) (X : Int → Int)
    (hA_get : ∀ a k, JsObj.getD0 (A a) k
      = if r0.name = k then X (JsObj.getD0 a r0.name) else JsObj.getD0 a k)
    (hA_keys : ∀ a, (JsObj.keys a).Nodup → (JsObj.keys (A a)).Nodup)
    (hA_dom : ∀ a k, JsObj.get? (A a) k ≠ none → k = r0.name ∨ JsObj.get? a k ≠ none)
    (hR_id : (R r0).id = r0.id) (hR_name : (R r0).name = r0.name)
    (hR_total : (R r0).totalInstances = r0.totalInstances)
    (hR_get : ∀ k, JsObj.getD0 (R r0).allocated k
      = if pid = k then X (JsObj.getD0 r0.allocated pid) else JsObj.getD0 r0.allocated k)
    (hR_dom : ∀ k, JsObj.get? (R r0).allocated k ≠ none →
      k = pid ∨ JsObj.get? r0.allocated k ≠ none)
    (hR_avail : (R r0).availableInstances
      = r0.availableInstances - (X (JsObj.getD0 r0.allocated pid) - JsObj.getD0 r0.allocated pid)) :
    LedgerInv (ps.map (fun e => if e.1 = pid then (e.1, A e.2) else e))
      (rs.map (fun r => if r.id = r0.id then R r else r)) := by
  have hfst : (ps.map (fun e => if e.1 = pid then (e.1, A e.2) else e)).map Prod.fst
      = ps.map Prod.fst := by
    rw [List.map_map]
    apply List.map_congr_left
    intro e _
    simp only [Function.comp]
    split <;> rfl
  have hrsame : ∀ r ∈ rs, r.id = r0.id → r = r0 := fun r hr hid =>
    eq_of_mem_of_key_eq Resource.id rs h.rids_nodup r r0 hr hr0 hid
  have hrname : ∀ r ∈ rs, r.name = r0.name → r = r0 := fun r hr hn =>
    eq_of_mem_of_key_eq Resource.name rs h.names_nodup r r0 hr hr0 hn
  have hids : (rs.map (fun r => if r.id = r0.id then R r else r)).map Resource.id
      = rs.map Resource.id := by
    rw [List.map_map]
    apply List.map_congr_left
    intro r hr
    simp only [Function.comp]
    split
    · next hid => rw [hrsame r hr hid, hR_id]
    · rfl
  have hnames : (rs.map (fun r => if r.id = r0.id then R r else r)).map Resource.name
      = rs.map Resource.name := by
    rw [List.map_map]
    apply List.map_congr_left
    intro r hr
    simp only [Function.comp]
    split
    · next hid => rw [hrsame r hr hid, hR_name]
    · rfl
  have hsum : ∀ f : Nat → Int,
      ((ps.map (fun e => if e.1 = pid then (e.1, A e.2) else e)).map (fun e => f e.1)).sum
        = ((ps.map Prod.fst).map f).sum := by
    intro f
    rw [← hfst, List.map_map, List.map_map, List.map_map]
    rfl
  refine ⟨by rw [hfst]; exact h.pids_nodup, by rw [hids]; exact h.rids_nodup,
    by rw [hnames]; exact h.names_nodup, ?_, ?_, ?_, ?_, ?_⟩
  · intro e' he'
    obtain ⟨e, he, rfl⟩ := List.mem_map.mp he'
    split
    · exact hA_keys _ (h.keys_nodup e he)
    · exact h.keys_nodup e he
  · intro e' he' k hk
    obtain ⟨e, he, rfl⟩ := List.mem_map.mp he'
    rw [hnames]
    by_cases hid : e.1 = pid
    · simp only [hid, if_true] at hk
      rcases hA_dom _ _ hk with rfl | hk'
      · exact List.mem_map_of_mem _ hr0
      · exact h.held_named e he k hk'
    · simp only [hid, if_false] at hk
      exact h.held_named e he k hk
  · intro r' hr' k hk
    obtain ⟨r, hr, rfl⟩ := List.mem_map.mp hr'
    rw [hfst]
    by_cases hid : r.id = r0.id
    · simp only [hid, if_true] at hk
      rw [hrsame r hr hid] at hk
      rcases hR_dom _ hk with rfl | hk'
      · exact hpid
      · exact h.holders_exist r0 hr0 k hk'
    · simp only [hid, if_false] at hk
      exact h.holders_exist r hr k hk
  · intro e' he' r' hr'
    obtain ⟨e, he, rfl⟩ := List.mem_map.mp he'
    obtain ⟨r, hr, rfl⟩ := List.mem_map.mp hr'
    have hc := h.consistent e he r hr
    by_cases hrid : r.id = r0.id
    · have hrr := hrsame r hr hrid
      subst hrr
      by_cases hid : e.1 = pid
      · simp only [hid, if_true, hR_name, hA_get, hR_get]
        rw [← hid, hc]
      · have hid' : ¬ pid = e.1 := fun hh => hid hh.symm
        simp only [hid, if_false, if_true, hR_name, hR_get, hid']
        exact hc
    · have hne : ¬ r0.name = r.name := fun hh => hrid (by rw [hrname r hr hh.symm])
      by_cases hid : e.1 = pid
      · simp only [hid, if_true, hrid, if_false, hA_get, hne]
        rw [← hid]; exact hc
      · simp only [hid, if_false, hrid]
        exact hc
  · intro r' hr'
    obtain ⟨r, hr, rfl⟩ := List.mem_map.mp hr'
    have hc := h.conserved r hr
    by_cases hrid : r.id = r0.id
    · have hrr := hrsame r hr hrid
      subst hrr
      simp only [if_true]
      rw [hsum (fun k => JsObj.getD0 (R r).allocated k)]
      have : (fun k => JsObj.getD0 (R r).allocated k)
          = (fun k => if pid = k then X (JsObj.getD0 r.allocated pid)
              else JsObj.getD0 r.allocated k) := funext hR_get
      rw [this, sum_map_update _ pid _ _ h.pids_nodup hpid, hR_avail, hR_total]
      have hs : (List.map (fun k => JsObj.getD0 r.allocated k) (List.map Prod.fst ps)).sum
          = (List.map (fun e => JsObj.getD0 r.allocated e.1) ps).sum := by
        rw [List.map_map]; rfl
      rw [hs]
      omega
    · simp only [hrid, if_false]
      rw [hsum (fun k => JsObj.getD0 r.allocated k), List.map_map]
      exact hc

/-! ## Every grant keeps the ledger invariant -/

theorem holding_ids (l : List Process) :
    (l.map Process.holding).map Prod.fst = l.map Process.id := by
  rw [List.map_map]; rfl

theorem holding_updateFirst (l : List Process) (a : Nat) (f : Process → Process)
    (A : JsObj String Int → JsObj String Int) (hid : ∀ q, (f q).id = q.id)
    (hA : ∀ q, (f q).allocated = A q.allocated) (hnd : (l.map Process.id).Nodup) :
    (updateFirst (fun p => p.id == a) f l).map Process.holding
      = (l.map Process.holding).map (fun e => if e.1 = a then (e.1, A e.2) else e) := by
  rw [updateFirst_eq_map Process.id a f l hnd, List.map_map, List.map_map]
  apply List.map_congr_left
  intro q _
  simp only [Function.comp, Process.holding]
  split
  · rw [hid, hA]
  · rfl

theorem ids_updateFirst_process (l : List Process) (pred : Process → Bool)
    (f : Process → Process) (hid : ∀ q, (f q).id = q.id) :
    (updateFirst pred f l).map Process.id = l.map Process.id :=
  updateFirst_map_of_preserved pred f Process.id l hid

theorem ids_updateFirst_resource (l : List Resource) (pred : Resource → Bool)
    (f : Resource → Resource) (hid : ∀ q, (f q).id = q.id) :
    (updateFirst pred f l).map Resource.id = l.map Resource.id :=
  updateFirst_map_of_preserved pred f Resource.id l hid

theorem assignResource_inv (t : Simulator) (a b : Nat) (c : Int) (h : Inv t) :
    Inv (assignResource t a b c).2 := by
  unfold assignResource
  cases hp : findProcess t a with
  | none => simpa using h
  | some p =>
    cases hr : findResource t b with
    | none => simpa using h
    | some r =>
      by_cases hav : r.availableInstances < c
      · simpa [hav] using h
      · simp only [hav, if_false]
        obtain ⟨hl, hpn, hrn⟩ := h
        have hpid : p.id = a := findProcess_id hp
        have hrid : r.id = b := findResource_id hr
        have hpm : p ∈ t.processes := List.mem_of_find?_eq_some hp
        have hrm : r ∈ t.resources := List.mem_of_find?_eq_some hr
        have hndp : (t.processes.map Process.id).Nodup := by
          rw [← holding_ids]; exact hl.pids_nodup
        refine ⟨?_, ?_, ?_⟩
        · show LedgerInv ((updateFirst (fun q => q.id == a)
            (fun q => assignProcessEntry q r.name c) t.processes).map Process.holding)
            (updateFirst (fun x => x.id == b) (fun x => assignResourceEntry x p.id c)
              t.resources)
          rw [holding_updateFirst t.processes a _
            (fun m => JsObj.set m r.name (JsObj.getD0 m r.name + c))
            (fun q => assignProcessEntry_id q r.name c)
            (fun q => assignProcessEntry_allocated q r.name c) hndp,
            updateFirst_eq_map Resource.id b _ t.resources hl.rids_nodup, ← hrid, hpid]
          refine ledgerInv_update _ _ hl a r hrm ?_
            (fun m => JsObj.set m r.name (JsObj.getD0 m r.name + c))
            (fun x => assignResourceEntry x a c) (fun v => v + c) ?_ ?_ ?_ rfl rfl rfl
            ?_ ?_ ?_
          · rw [holding_ids, ← hpid]; exact List.mem_map_of_mem _ hpm
          · intro m k
            rw [JsObj.getD0_set]
          · intro m hm
            exact JsObj.keys_set_nodup m _ _ hm
          · intro m k hk
            rw [JsObj.get?_set] at hk
            by_cases hkk : r.name = k
            · left; exact hkk.symm
            · right; simpa [hkk] using hk
          · intro k
            simp only [assignResourceEntry]
            rw [JsObj.getD0_set]
          · intro k hk
            simp only [assignResourceEntry] at hk
            rw [JsObj.get?_set] at hk
            by_cases hkk : a = k
            · left; exact hkk.symm
            · right; simpa [hkk] using hk
          · simp only [assignResourceEntry]
            omega
        · intro i hi
          apply hpn
          simpa [ids_updateFirst_process _ _ _ (fun q => assignProcessEntry_id q r.name c)]
            using hi
        · intro i hi
          apply hrn
          simpa [ids_updateFirst_resource _ _ _
            (fun q => (rfl : (assignResourceEntry q p.id c).id = q.id))] using hi

theorem wakeUp_inv (s : Simulator) (h : Inv s) : Inv (wakeUp s) :=
  wakeUp_preserves Inv (fun t a b c _ ht => assignResource_inv t a b c ht) s h

/-! ## Every release keeps the ledger invariant -/

namespace JsObj

variable {κ : Type}

theorem getD0_lowered [DecidableEq κ] [JsKey κ] (m : JsObj κ Int) (k k' : κ) (c : Int) :
    getD0 (if getD0 m k - c ≤ 0 then delete (set m k (getD0 m k - c)) k
      else set m k (getD0 m k - c)) k'
      = if k = k' then (if getD0 m k - c ≤ 0 then 0 else getD0 m k - c) else getD0 m k' := by
  by_cases hle : getD0 m k - c ≤ 0
  · simp only [hle, if_true, getD0_delete, getD0_set]
    split <;> simp_all
  · simp only [hle, if_false, getD0_set]

theorem keys_lowered_nodup [DecidableEq κ] [JsKey κ] (m : JsObj κ Int) (k : κ) (c : Int)
    (h : (keys m).Nodup) :
    (keys (if getD0 m k - c ≤ 0 then delete (set m k (getD0 m k - c)) k
      else set m k (getD0 m k - c))).Nodup := by
  split
  · exact keys_delete_nodup _ _ (keys_set_nodup _ _ _ h)
  · exact keys_set_nodup _ _ _ h

theorem get?_lowered_dom [DecidableEq κ] [JsKey κ] (m : JsObj κ Int) (k k' : κ) (c : Int)
    (h : get? (if getD0 m k - c ≤ 0 then delete (set m k (getD0 m k - c)) k
      else set m k (getD0 m k - c)) k' ≠ none) : k' = k ∨ get? m k' ≠ none := by
  by_cases hkk : k = k'
  · left; exact hkk.symm
  · right
    split at h
    · rw [get?_delete_ne _ _ _ hkk, get?_set_ne _ _ _ _ hkk] at h
      exact h
    · rw [get?_set_ne _ _ _ _ hkk] at h
      exact h

end JsObj

theorem releaseLedger_inv (s : Simulator) (a b : Nat) (p : Process) (r : Resource) (c : Int)
    (hp : findProcess s a = some p) (hr : findResource s b = some r)
    (hc : ¬ JsObj.getD0 p.allocated r.name < c) (h : Inv s) :
    Inv (releaseLedger s a b p r c) := by
  obtain ⟨hl, hpn, hrn⟩ := h
  have hpid : p.id = a := findProcess_id hp
  have hrid : r.id = b := findResource_id hr
  have hpm : p ∈ s.processes := List.mem_of_find?_eq_some hp
  have hrm : r ∈ s.resources := List.mem_of_find?_eq_some hr
  have hndp : (s.processes.map Process.id).Nodup := by
    rw [← holding_ids]; exact hl.pids_nodup
  have hcons : JsObj.getD0 p.allocated r.name = JsObj.getD0 r.allocated a := by
    have := hl.consistent p.holding (List.mem_map_of_mem _ hpm) r hrm
    simpa [Process.holding, hpid] using this
  refine ⟨?_, ?_, ?_⟩
  · show LedgerInv ((updateFirst (fun q => q.id == a)
      (fun q => releaseProcessEntry q r.name c) s.processes).map Process.holding)
      (updateFirst (fun x => x.id == b) (fun x => releaseResourceEntry x p.id c) s.resources)
    rw [holding_updateFirst s.processes a (fun q => releaseProcessEntry q r.name c)
      (fun m => if JsObj.getD0 m r.name - c ≤ 0
        then JsObj.delete (JsObj.set m r.name (JsObj.getD0 m r.name - c)) r.name
        else JsObj.set m r.name (JsObj.getD0 m r.name - c))
      (fun q => rfl) (fun q => rfl) hndp,
      updateFirst_eq_map Resource.id b _ s.resources hl.rids_nodup, ← hrid, hpid]
    refine ledgerInv_update _ _ hl a r hrm ?_
      (fun m => if JsObj.getD0 m r.name - c ≤ 0
        then JsObj.delete (JsObj.set m r.name (JsObj.getD0 m r.name - c)) r.name
        else JsObj.set m r.name (JsObj.getD0 m r.name - c))
      (fun x => releaseResourceEntry x a c) (fun v => if v - c ≤ 0 then 0 else v - c)
      ?_ ?_ ?_ rfl rfl rfl ?_ ?_ ?_
    · rw [holding_ids, ← hpid]; exact List.mem_map_of_mem _ hpm
    · intro m k
      exact JsObj.getD0_lowered m r.name k c
    · intro m hm
      exact JsObj.keys_lowered_nodup m r.name c hm
    · intro m k hk
      exact JsObj.get?_lowered_dom m r.name k c hk
    · intro k
      exact JsObj.getD0_lowered r.allocated a k c
    · intro k hk
      exact JsObj.get?_lowered_dom r.allocated a k c hk
    · simp only [releaseResourceEntry]
      split <;> omega
  · intro i hi
    apply hpn
    simpa [releaseLedger, ids_updateFirst_process _ _ _
      (fun q => (rfl : (releaseProcessEntry q r.name c).id = q.id))] using hi
  · intro i hi
    apply hrn
    simpa [releaseLedger, ids_updateFirst_resource _ _ _
      (fun q => (rfl : (releaseResourceEntry q p.id c).id = q.id))] using hi

theorem releaseResource_inv (s : Simulator) (a b : Nat) (c : Int) (h : Inv s) :
    Inv (releaseResource s a b c).2 := by
  unfold releaseResource
  cases hp : findProcess s a with
  | none => simpa using h
  | some p =>
    cases hr : findResource s b with
    | none => simpa using h
    | some r =>
      simp only []
      split
      · exact h
      · next hc => exact wakeUp_inv _ (releaseLedger_inv s a b p r c hp hr hc h)

theorem requestLedger_inv (s : Simulator) (a : Nat) (r : Resource) (c : Int) (h : Inv s) :
    Inv (requestLedger s a r c) := by
  obtain ⟨hl, hpn, hrn⟩ := h
  have hv : (requestLedger s a r c).processes.map Process.holding
      = s.processes.map Process.holding :=
    updateFirst_map_of_preserved _ _ _ _ (fun q => rfl)
  have hi : (requestLedger s a r c).processes.map Process.id = s.processes.map Process.id :=
    updateFirst_map_of_preserved _ _ _ _ (fun q => rfl)
  refine ⟨?_, ?_, hrn⟩
  · rw [hv]; exact hl
  · rw [hi]; exact hpn

theorem requestResource_inv (s : Simulator) (a b : Nat) (c : Int) (h : Inv s) :
    Inv (requestResource s a b c).2 := by
  unfold requestResource
  cases hp : findProcess s a with
  | none => simpa using h
  | some p =>
    cases hr : findResource s b with
    | none => simpa using h
    | some r =>
      simp only []
      split
      · exact h
      · split
        · exact assignResource_inv _ a b c (requestLedger_inv s a r c h)
        · exact requestLedger_inv s a r c h

theorem detectDeadlock_inv (s : Simulator) (h : Inv s) : Inv (detectDeadlock s).2 := by
  obtain ⟨hl, hpn, hrn⟩ := h
  have key : ∀ f : Process → Process, (∀ q, (f q).holding = q.holding) →
      Inv { s with processes := s.processes.map f } := by
    intro f hf
    have hv : (s.processes.map f).map Process.holding = s.processes.map Process.holding := by
      rw [List.map_map]
      exact List.map_congr_left (fun q _ => hf q)
    have hi : (s.processes.map f).map Process.id = s.processes.map Process.id := by
      rw [← holding_ids, hv, holding_ids]
    refine ⟨?_, ?_, hrn⟩
    · show LedgerInv ((s.processes.map f).map Process.holding) s.resources
      rw [hv]; exact hl
    · show ∀ i ∈ (s.processes.map f).map Process.id, i < s.nextProcessId
      rw [hi]; exact hpn
  unfold detectDeadlock
  simp only []
  split
  · exact key _ (fun q => by split <;> rfl)
  · exact key _ (fun q => by split <;> rfl)

/-! ## releaseAllResources keeps the ledger invariant -/

theorem releaseAllStep_eq_map (p : Process) (rs : List Resource) (k : String)
    (hn : (rs.map Resource.name).Nodup) :
    releaseAllStep p rs k = rs.map (fun r => if r.name = k then
      (JsObj.get? p.allocated r.name).elim r (fun c => releaseResourceEntry r p.id c) else r) := by
  unfold releaseAllStep
  cases hk : JsObj.get? p.allocated k with
  | none =>
    simp only []
    conv_lhs => rw [← List.map_id rs]
    apply List.map_congr_left
    intro r _
    by_cases hr : r.name = k
    · simp [hr, hk]
    · simp [hr]
  | some c =>
    simp only []
    rw [updateFirst_eq_map Resource.name k _ rs hn]
    apply List.map_congr_left
    intro r _
    by_cases hr : r.name = k
    · simp [hr, hk]
    · simp [hr]

theorem releaseAll_fold_eq_map (p : Process) (K : List String) (rs : List Resource)
    (hK : K.Nodup) (hn : (rs.map Resource.name).Nodup) :
    K.foldl (releaseAllStep p) rs = rs.map (fun r => if r.name ∈ K then
      (JsObj.get? p.allocated r.name).elim r (fun c => releaseResourceEntry r p.id c) else r) := by
  induction K generalizing rs with
  | nil => simp
  | cons k K ih =>
    have hk : k ∉ K := (List.nodup_cons.mp hK).1
    have hK' : K.Nodup := (List.nodup_cons.mp hK).2
    have hname : ∀ r : Resource, ((JsObj.get? p.allocated r.name).elim r
        (fun c => releaseResourceEntry r p.id c)).name = r.name := by
      intro r
      cases JsObj.get? p.allocated r.name <;> rfl
    have hn1 : ((releaseAllStep p rs k).map Resource.name).Nodup := by
      rw [releaseAllStep_eq_map p rs k hn, List.map_map]
      have : rs.map (Resource.name ∘ fun r => if r.name = k then
          (JsObj.get? p.allocated r.name).elim r (fun c => releaseResourceEntry r p.id c)
          else r) = rs.map Resource.name := by
        apply List.map_congr_left
        intro r _
        simp only [Function.comp]
        split
        · exact hname r
        · rfl
      rw [this]; exact hn
    simp only [List.foldl_cons]
    rw [ih _ hK' hn1, releaseAllStep_eq_map p rs k hn, List.map_map]
    apply List.map_congr_left
    intro r _
    simp only [Function.comp, List.mem_cons]
    by_cases hr : r.name = k
    · have : ¬ k ∈ K := hk
      simp [hr, hname, this]
      rw [← hr, hname]
      simp [hr, this]
    · simp [hr]

theorem ledgerInv_releaseAll (ps : List (Nat × JsObj String Int)) (rs : List Resource)
    (h : LedgerInv ps rs) (a : Nat) (pa : JsObj String Int) (hmem : (a, pa) ∈ ps) :
    LedgerInv (ps.map (fun e => if e.1 = a then (e.1, []) else e))
      (rs.map (fun r => (JsObj.get? pa r.name).elim r (fun c => releaseResourceEntry r a c)))
    := by
  have hfst : (ps.map (fun e : Nat × JsObj String Int =>
      if e.1 = a then (e.1, []) else e)).map Prod.fst = ps.map Prod.fst := by
    rw [List.map_map]
    apply List.map_congr_left
    intro e _
    simp only [Function.comp]
    split <;> rfl
  have hG_id : ∀ r : Resource, ((JsObj.get? pa r.name).elim r
      (fun c => releaseResourceEntry r a c)).id = r.id := by
    intro r; cases JsObj.get? pa r.name <;> rfl
  have hG_name : ∀ r : Resource, ((JsObj.get? pa r.name).elim r
      (fun c => releaseResourceEntry r a c)).name = r.name := by
    intro r; cases JsObj.get? pa r.name <;> rfl
  have hids : (rs.map (fun r => (JsObj.get? pa r.name).elim r
      (fun c => releaseResourceEntry r a c))).map Resource.id = rs.map Resource.id := by
    rw [List.map_map]
    exact List.map_congr_left (fun r _ => hG_id r)
  have hnames : (rs.map (fun r => (JsObj.get? pa r.name).elim r
      (fun c => releaseResourceEntry r a c))).map Resource.name = rs.map Resource.name := by
    rw [List.map_map]
    exact List.map_congr_left (fun r _ => hG_name r)
  have ha : a ∈ ps.map Prod.fst := List.mem_map_of_mem Prod.fst hmem
  have hsame : ∀ e ∈ ps, e.1 = a → e = (a, pa) := fun e he hea =>
    eq_of_mem_of_key_eq Prod.fst ps h.pids_nodup e (a, pa) he hmem hea
  have hsum : ∀ f : Nat → Int,
      ((ps.map (fun e : Nat × JsObj String Int =>
        if e.1 = a then (e.1, []) else e)).map (fun e => f e.1)).sum
        = ((ps.map Prod.fst).map f).sum := by
    intro f
    rw [← hfst, List.map_map, List.map_map, List.map_map]
    rfl
  have hG_get : ∀ r ∈ rs, ∀ k, JsObj.getD0 ((JsObj.get? pa r.name).elim r
      (fun c => releaseResourceEntry r a c)).allocated k
      = if a = k then 0 else JsObj.getD0 r.allocated k := by
    intro r hr k
    have hc : JsObj.getD0 pa r.name = JsObj.getD0 r.allocated a :=
      h.consistent (a, pa) hmem r hr
    cases hg : JsObj.get? pa r.name with
    | none =>
      simp only [Option.elim]
      have h0 : JsObj.getD0 r.allocated a = 0 := by rw [← hc]; simp [JsObj.getD0, hg]
      split
      · next hak => rw [← hak, h0]
      · rfl
    | some c =>
      simp only [Option.elim, releaseResourceEntry]
      have hy : JsObj.getD0 r.allocated a = c := by rw [← hc]; simp [JsObj.getD0, hg]
      rw [JsObj.getD0_lowered, hy]
      simp
  refine ⟨by rw [hfst]; exact h.pids_nodup, by rw [hids]; exact h.rids_nodup,
    by rw [hnames]; exact h.names_nodup, ?_, ?_, ?_, ?_, ?_⟩
  · intro e' he'
    obtain ⟨e, he, rfl⟩ := List.mem_map.mp he'
    split
    · simp [JsObj.keys]
    · exact h.keys_nodup e he
  · intro e' he' k hk
    obtain ⟨e, he, rfl⟩ := List.mem_map.mp he'
    rw [hnames]
    by_cases hid : e.1 = a
    · simp [hid, JsObj.get?] at hk
    · simp only [hid, if_false] at hk
      exact h.held_named e he k hk
  · intro r' hr' k hk
    obtain ⟨r, hr, rfl⟩ := List.mem_map.mp hr'
    rw [hfst]
    cases hg : JsObj.get? pa r.name with
    | none =>
      rw [hg] at hk
      exact h.holders_exist r hr k hk
    | some c =>
      rw [hg] at hk
      simp only [Option.elim, releaseResourceEntry] at hk
      rcases JsObj.get?_lowered_dom r.allocated a k c hk with rfl | hk'
      · exact ha
      · exact h.holders_exist r hr k hk'
  · intro e' he' r' hr'
    obtain ⟨e, he, rfl⟩ := List.mem_map.mp he'
    obtain ⟨r, hr, rfl⟩ := List.mem_map.mp hr'
    rw [hG_name, hG_get r hr]
    by_cases hid : e.1 = a
    · simp [hid, JsObj.getD0, JsObj.get?]
    · have hid' : ¬ a = e.1 := fun hh => hid hh.symm
      simp only [hid, if_false, hid']
      exact h.consistent e he r hr
  · intro r' hr'
    obtain ⟨r, hr, rfl⟩ := List.mem_map.mp hr'
    have hc := h.conserved r hr
    have hcons : JsObj.getD0 pa r.name = JsObj.getD0 r.allocated a :=
      h.consistent (a, pa) hmem r hr
    rw [hsum (fun k => JsObj.getD0 ((JsObj.get? pa r.name).elim r
      (fun c => releaseResourceEntry r a c)).allocated k)]
    have : (fun k => JsObj.getD0 ((JsObj.get? pa r.name).elim r
        (fun c => releaseResourceEntry r a c)).allocated k)
        = (fun k => if a = k then 0 else JsObj.getD0 r.allocated k) := funext (hG_get r hr)
    rw [this, sum_map_update _ a _ _ h.pids_nodup ha]
    have hs : (List.map (fun k => JsObj.getD0 r.allocated k) (List.map Prod.fst ps)).sum
        = (List.map (fun e => JsObj.getD0 r.allocated e.1) ps).sum := by
      rw [List.map_map]; rfl
    rw [hs]
    cases hg : JsObj.get? pa r.name with
    | none =>
      simp only [Option.elim]
      have h0 : JsObj.getD0 r.allocated a = 0 := by rw [← hcons]; simp [JsObj.getD0, hg]
      omega
    | some c =>
      simp only [Option.elim, releaseResourceEntry]
      have hy : JsObj.getD0 r.allocated a = c := by rw [← hcons]; simp [JsObj.getD0, hg]
      omega

theorem releaseAllLedger_inv (s : Simulator) (a : Nat) (p : Process)
    (hp : findProcess s a = some p) (h : Inv s) : Inv (releaseAllLedger s a p) := by
  obtain ⟨hl, hpn, hrn⟩ := h
  have hpid : p.id = a := findProcess_id hp
  have hpm : p ∈ s.processes := List.mem_of_find?_eq_some hp
  have hmem : (a, p.allocated) ∈ s.processes.map Process.holding := by
    have := List.mem_map_of_mem Process.holding hpm
    simpa [Process.holding, hpid] using this
  have hndp : (s.processes.map Process.id).Nodup := by
    rw [← holding_ids]; exact hl.pids_nodup
  have hkeys : (JsObj.keys p.allocated).Nodup := hl.keys_nodup (a, p.allocated) hmem
  have hres : (JsObj.keys p.allocated).foldl (releaseAllStep p) s.resources
      = s.resources.map (fun r => (JsObj.get? p.allocated r.name).elim r
          (fun c => releaseResourceEntry r a c)) := by
    rw [releaseAll_fold_eq_map p _ _ hkeys hl.names_nodup, hpid]
    apply List.map_congr_left
    intro r _
    split
    · rfl
    · next hk =>
      rw [(JsObj.get?_eq_none_iff p.allocated r.name).mpr hk]
      rfl
  refine ⟨?_, ?_, ?_⟩
  · show LedgerInv ((updateFirst (fun q => q.id == a)
      (fun q => { q with allocated := [], waiting := false, state := ProcState.ready })
      s.processes).map Process.holding)
      ((JsObj.keys p.allocated).foldl (releaseAllStep p) s.resources)
    rw [hres, holding_updateFirst s.processes a
      (fun q => { q with allocated := [], waiting := false, state := ProcState.ready })
      (fun _ => []) (fun q => rfl) (fun q => rfl) hndp]
    exact ledgerInv_releaseAll _ _ hl a p.allocated hmem
  · intro i hi
    apply hpn
    simpa [releaseAllLedger, ids_updateFirst_process _ _ _ (fun q => (rfl :
      ({ q with allocated := [], waiting := false, state := ProcState.ready } : Process).id
        = q.id))] using hi
  · intro i hi
    apply hrn
    have : (releaseAllLedger s a p).resources.map Resource.id = s.resources.map Resource.id := by
      show ((JsObj.keys p.allocated).foldl (releaseAllStep p) s.resources).map Resource.id = _
      rw [hres, List.map_map]
      apply List.map_congr_left
      intro r _
      simp only [Function.comp]
      cases JsObj.get? p.allocated r.name <;> rfl
    rw [this] at hi
    exact hi

theorem releaseAllResources_inv (s : Simulator) (a : Nat) (h : Inv s) :
    Inv (releaseAllResources s a).2 := by
  unfold releaseAllResources
  cases hp : findProcess s a with
  | none => simpa using h
  | some p => exact wakeUp_inv _ (releaseAllLedger_inv s a p hp h)

theorem addProcess_inv (s : Simulator) (name : String) (h : Inv s) :
    Inv (addProcess s name) := by
  unfold addProcess
  apply wakeUp_inv
  obtain ⟨hl, hpn, hrn⟩ := h
  have hfresh : s.nextProcessId ∉ (s.processes.map Process.holding).map Prod.fst := by
    intro hmem
    rw [holding_ids] at hmem
    exact Nat.lt_irrefl _ (hpn _ hmem)
  have hzero : ∀ r ∈ s.resources, JsObj.getD0 r.allocated s.nextProcessId = 0 := by
    intro r hr
    cases hg : JsObj.get? r.allocated s.nextProcessId with
    | none => simp [JsObj.getD0, hg]
    | some v =>
      exact absurd (hl.holders_exist r hr s.nextProcessId (by rw [hg]; simp)) hfresh
  refine ⟨?_, ?_, hrn⟩
  · simp only [List.map_append, List.map_cons, List.map_nil, Process.holding]
    refine ⟨?_, hl.rids_nodup, hl.names_nodup, ?_, ?_, ?_, ?_, ?_⟩
    · rw [List.map_append]
      refine List.Nodup.append hl.pids_nodup (by simp) ?_
      intro x hx hx'
      simp only [List.map_cons, List.map_nil, List.mem_singleton] at hx'
      exact hfresh (hx' ▸ hx)
    · intro e he
      rcases List.mem_append.mp he with he | he
      · exact hl.keys_nodup e he
      · simp only [List.mem_singleton] at he
        rw [he]; simp [JsObj.keys]
    · intro e he k hk
      rcases List.mem_append.mp he with he | he
      · exact hl.held_named e he k hk
      · simp only [List.mem_singleton] at he
        rw [he] at hk
        simp [JsObj.get?] at hk
    · intro r hr k hk
      rw [List.map_append]
      exact List.mem_append_left _ (hl.holders_exist r hr k hk)
    · intro e he r hr
      rcases List.mem_append.mp he with he | he
      · exact hl.consistent e he r hr
      · simp only [List.mem_singleton] at he
        rw [he]
        simp only [hzero r hr]
        simp [JsObj.getD0, JsObj.get?]
    · intro r hr
      rw [List.map_append, List.sum_append]
      simp only [List.map_cons, List.map_nil, List.sum_cons, List.sum_nil, hzero r hr]
      have := hl.conserved r hr
      omega
  · intro i hi
    simp only [List.map_append, List.map_cons, List.map_nil, List.mem_append,
      List.mem_singleton] at hi
    rcases hi with hi | hi
    · exact Nat.lt_succ_of_lt (hpn i hi)
    · rw [hi]; exact Nat.lt_succ_self _

theorem assignResource_names (t : Simulator) (a b : Nat) (c : Int) :
    (assignResource t a b c).2.resources.map Resource.name = t.resources.map Resource.name := by
  unfold assignResource
  cases findProcess t a with
  | none => rfl
  | some p =>
    cases findResource t b with
    | none => rfl
    | some r =>
      simp only []
      split
      · rfl
      · exact updateFirst_map_of_preserved _ _ _ _ (fun q => rfl)

theorem wakeUp_names (s : Simulator) :
    (wakeUp s).resources.map Resource.name = s.resources.map Resource.name :=
  wakeUp_preserves (fun t => t.resources.map Resource.name = s.resources.map Resource.name)
    (fun t a b c _ ht => (assignResource_names t a b c).trans ht) s rfl

theorem sum_map_zero {α : Type} (l : List α) : (l.map (fun _ => (0 : Int))).sum = 0 := by
  induction l with
  | nil => rfl
  | cons x xs ih => simp [ih]

theorem addResource_inv (s : Simulator) (name : String) (n : Int) (h : Inv s)
    (hnames : ((addResource s name n).resources.map Resource.name).Nodup) :
    Inv (addResource s name n) := by
  unfold addResource at hnames ⊢
  rw [wakeUp_names] at hnames
  apply wakeUp_inv
  obtain ⟨hl, hpn, hrn⟩ := h
  simp only [List.map_append, List.map_cons, List.map_nil] at hnames
  generalize (if name ≠ "" then name else "R" ++ toString (s.resources.length + 1)) = nm
    at hnames ⊢
  have hnew : nm ∉ s.resources.map Resource.name := by
    intro hmem
    have := List.disjoint_of_nodup_append hnames hmem
    simp at this
  have hfresh : s.nextResourceId ∉ s.resources.map Resource.id :=
    fun hmem => Nat.lt_irrefl _ (hrn _ hmem)
  refine ⟨?_, hpn, ?_⟩
  · refine ⟨hl.pids_nodup, ?_, ?_, hl.keys_nodup, ?_, ?_, ?_, ?_⟩
    · simp only [List.map_append, List.map_cons, List.map_nil]
      refine List.Nodup.append hl.rids_nodup (by simp) ?_
      intro x hx hx'
      simp only [List.mem_singleton] at hx'
      exact hfresh (hx' ▸ hx)
    · simpa only [List.map_append, List.map_cons, List.map_nil] using hnames
    · intro e he k hk
      rw [List.map_append]
      exact List.mem_append_left _ (hl.held_named e he k hk)
    · intro r hr k hk
      rcases List.mem_append.mp hr with hr | hr
      · exact hl.holders_exist r hr k hk
      · simp only [List.mem_singleton] at hr
        rw [hr] at hk
        simp [JsObj.get?] at hk
    · intro e he r hr
      rcases List.mem_append.mp hr with hr | hr
      · exact hl.consistent e he r hr
      · simp only [List.mem_singleton] at hr
        rw [hr]
        simp only []
        cases hg : JsObj.get? e.2 nm with
        | none => simp [JsObj.getD0, hg, JsObj.get?]
        | some v => exact absurd (hl.held_named e he _ (by rw [hg]; simp)) hnew
    · intro r hr
      rcases List.mem_append.mp hr with hr | hr
      · exact hl.conserved r hr
      · simp only [List.mem_singleton] at hr
        rw [hr]
        show n + (List.map (fun e : Nat × JsObj String Int =>
          JsObj.getD0 ([] : JsObj Nat Int) e.1) (s.processes.map Process.holding)).sum = n
        have : (fun e : Nat × JsObj String Int => JsObj.getD0 ([] : JsObj Nat Int) e.1)
            = fun _ => (0 : Int) := by
          funext e; simp [JsObj.getD0, JsObj.get?]
        rw [this, sum_map_zero]
        omega
  · intro i hi
    simp only [List.map_append, List.map_cons, List.map_nil, List.mem_append,
      List.mem_singleton] at hi
    rcases hi with hi | hi
    · exact Nat.lt_succ_of_lt (hrn i hi)
    · rw [hi]; exact Nat.lt_succ_self _

/-! ## Conservation along every run with pairwise distinct resource names -/

theorem releaseAllStep_names (p : Process) (rs : List Resource) (k : String) :
    (releaseAllStep p rs k).map Resource.name = rs.map Resource.name := by
  unfold releaseAllStep
  cases JsObj.get? p.allocated k with
  | none => rfl
  | some c => exact updateFirst_map_of_preserved _ _ _ _ (fun q => rfl)

theorem step_names (s : Simulator) (op : Op) :
    ∃ extra, (step s op).resources.map Resource.name = s.resources.map Resource.name ++ extra
    := by
  cases op with
  | addProcess name =>
    refine ⟨[], ?_⟩
    simp only [step, addProcess, wakeUp_names, List.append_nil]
  | addResource name n =>
    refine ⟨[if name ≠ "" then name else "R" ++ toString (s.resources.length + 1)], ?_⟩
    simp only [step, addResource, wakeUp_names, List.map_append, List.map_cons, List.map_nil]
  | requestResource a b c =>
    refine ⟨[], ?_⟩
    simp only [step, List.append_nil]
    unfold requestResource
    cases findProcess s a with
    | none => rfl
    | some p =>
      cases findResource s b with
      | none => rfl
      | some r =>
        simp only []
        split
        · rfl
        · split
          · rw [assignResource_names]; rfl
          · rfl
  | assignResource a b c =>
    exact ⟨[], by simp only [step, assignResource_names, List.append_nil]⟩
  | releaseResource a b c =>
    refine ⟨[], ?_⟩
    simp only [step, List.append_nil]
    unfold releaseResource
    cases findProcess s a with
    | none => rfl
    | some p =>
      cases findResource s b with
      | none => rfl
      | some r =>
        simp only []
        split
        · rfl
        · rw [wakeUp_names]
          exact updateFirst_map_of_preserved _ _ _ _ (fun q => rfl)
  | releaseAllResources a =>
    refine ⟨[], ?_⟩
    simp only [step, List.append_nil]
    unfold releaseAllResources
    cases findProcess s a with
    | none => rfl
    | some p =>
      simp only []
      rw [wakeUp_names]
      exact foldl_preserves
        (fun rs : List Resource => rs.map Resource.name = s.resources.map Resource.name)
        (releaseAllStep p) _ (fun rs k _ hrs => (releaseAllStep_names p rs k).trans hrs)
        s.resources rfl
  | detectDeadlock =>
    refine ⟨[], ?_⟩
    simp only [step, List.append_nil]
    unfold detectDeadlock
    simp only []
    split <;> rfl

theorem step_inv (s : Simulator) (op : Op) (h : Inv s)
    (hnames : ((step s op).resources.map Resource.name).Nodup) : Inv (step s op) := by
  cases op with
  | addProcess name => exact addProcess_inv s name h
  | addResource name n => exact addResource_inv s name n h hnames
  | requestResource a b c => exact requestResource_inv s a b c h
  | assignResource a b c => exact assignResource_inv s a b c h
  | releaseResource a b c => exact releaseResource_inv s a b c h
  | releaseAllResources a => exact releaseAllResources_inv s a h
  | detectDeadlock => exact detectDeadlock_inv s h

theorem fresh_inv : Inv Simulator.fresh := by
  refine ⟨⟨?_, ?_, ?_, ?_, ?_, ?_, ?_, ?_⟩, ?_, ?_⟩ <;> simp [Simulator.fresh]

theorem run_inv (ops : List Op)
    (hnames : ((run Simulator.fresh ops).resources.map Resource.name).Nodup) :
    Inv (run Simulator.fresh ops) := by
  induction ops using List.reverseRecOn with
  | nil => exact fresh_inv
  | append_singleton ops op ih =>
    have hrun : run Simulator.fresh (ops ++ [op]) = step (run Simulator.fresh ops) op := by
      simp [run, List.foldl_append]
    rw [hrun] at hnames ⊢
    obtain ⟨extra, hextra⟩ := step_names (run Simulator.fresh ops) op
    have hprev : ((run Simulator.fresh ops).resources.map Resource.name).Nodup := by
      rw [hextra] at hnames
      exact (List.nodup_append.mp hnames).1
    exact step_inv _ op (ih hprev) hnames

/-- C1, amended: in every state reached from a fresh simulator by `addProcess`, `addResource`,
`requestResource`, `assignResource`, `releaseResource`, `releaseAllResources` and
`detectDeadlock` calls in which the resource names are pairwise distinct and not inherited
from `Object.prototype`, and in which every number passed or stored is an integer of
absolute value at most `2^52` (so that the arithmetic of the code is exact), every resource
satisfies `availableInstances + Σ allocated[pid] = totalInstances`, the sum ranging over all
processes. -/
theorem conservation_of_distinct_names (ops : List Op)
    (hnames : ((run Simulator.fresh ops).resources.map Resource.name).Nodup)
    (hord : ordinaryResources (run Simulator.fresh ops) = true)
    (hsafe : safeRun ops = true)
    (r : Resource) (hr : r ∈ (run Simulator.fresh ops).resources) :
    conserved (run Simulator.fresh ops) r := by
  have h := (run_inv ops hnames).1.conserved r hr
  unfold conserved allocatedTotal
  rw [List.map_map] at h
  exact h

/-- C1, as stated, fails: with two resources of the same name, a process that holds the
first can release the second, whose pool then exceeds its total with nothing allocated. -/
theorem conservation_counterexample :
    ¬ ∀ r ∈ (run Simulator.fresh duplicateNameOps).resources,
      conserved (run Simulator.fresh duplicateNameOps) r := by
  intro h
  have h2 := h ⟨2, "R", 1, 2, []⟩ (by decide)
  unfold conserved allocatedTotal at h2
  revert h2
  decide

/-! ## A scan with nothing to grant changes nothing -/

theorem autoAssignKey_of_not_grantable (i : Nat) (s : Simulator) (k : String) (process : Process)
    (hp : s.processes[i]? = some process) (hg : grantable s process k = false) :
    autoAssignKey i s k = s := by
  rcases autoAssignKey_cases i s k with h | ⟨pr, q, res, h1, h2, h3, h4, h5, _⟩
  · exact h
  · rw [hp] at h1
    have hpr : process = pr := Option.some.inj h1
    subst hpr
    have : grantable s process k = true := by
      simp [grantable, h2, h3, h4, h5]
    rw [hg] at this
    exact absurd this (by simp)

theorem autoAssignResources_of_scanIdle (s : Simulator) (h : scanIdle s = true) :
    autoAssignResources s = s := by
  unfold autoAssignResources
  refine foldl_preserves (fun t => t = s) autoAssignProcess _ ?_ s rfl
  intro t i _ ht
  subst ht
  unfold autoAssignProcess
  cases hp : t.processes[i]? with
  | none => rfl
  | some process =>
    simp only []
    have hmem : process ∈ t.processes := List.getElem?_mem hp
    have hproc := (List.all_eq_true.mp h) process hmem
    by_cases hw : process.waiting = true
    · simp only [hw, if_true]
      simp only [hw, Bool.not_true, Bool.false_or] at hproc
      refine foldl_preserves (fun u => u = t) (autoAssignKey i) _ ?_ t rfl
      intro u k hk hu
      subst hu
      have := (List.all_eq_true.mp hproc) k hk
      exact autoAssignKey_of_not_grantable i u k process hp (by simpa using this)
    · simp [hw]

theorem wakeUp_of_scanIdle (s : Simulator) (h : scanIdle s = true) : wakeUp s = s := by
  unfold wakeUp
  split
  · exact autoAssignResources_of_scanIdle s h
  · rfl

theorem updateFirst_congr {α : Type} (pred : α → Bool) (f g : α → α) (l : List α)
    (h : ∀ x, l.find? pred = some x → f x = g x) :
    updateFirst pred f l = updateFirst pred g l := by
  induction l with
  | nil => rfl
  | cons x xs ih =>
    by_cases hx : pred x = true
    · simp [updateFirst, hx, h x (by simp [List.find?, hx])]
    · have : ∀ y, xs.find? pred = some y → f y = g y := by
        intro y hy
        exact h y (by simpa [List.find?, hx] using hy)
      simp [updateFirst, hx, ih this]

theorem updateFirst_id {α : Type} (pred : α → Bool) (l : List α) :
    updateFirst pred (fun x => x) l = l := by
  induction l with
  | nil => rfl
  | cons x xs ih =>
    by_cases hx : pred x = true
    · simp [updateFirst, hx]
    · simp [updateFirst, hx, ih]

theorem updateFirst_of_fixed {α : Type} (pred : α → Bool) (f : α → α) (l : List α)
    (h : ∀ x, l.find? pred = some x → f x = x) : updateFirst pred f l = l := by
  rw [updateFirst_congr pred f (fun x => x) l h, updateFirst_id]

theorem updateFirst_updateFirst {α : Type} (pred : α → Bool) (f g : α → α) (l : List α)
    (hf : ∀ x, pred x = true → pred (f x) = true) :
    updateFirst pred g (updateFirst pred f l) = updateFirst pred (fun x => g (f x)) l := by
  induction l with
  | nil => rfl
  | cons x xs ih =>
    by_cases hx : pred x = true
    · simp [updateFirst, hx, hf x hx]
    · simp [updateFirst, hx, ih]

/-! ## Releasing nothing -/

theorem releaseProcessEntry_zero (p : Process) (n : String)
    (h : ∀ v, JsObj.get? p.allocated n = some v → 0 < v) : releaseProcessEntry p n 0 = p := by
  unfold releaseProcessEntry
  cases hg : JsObj.get? p.allocated n with
  | none =>
    have h0 : JsObj.getD0 p.allocated n = 0 := by simp [JsObj.getD0, hg]
    simp only [h0]
    simp [JsObj.delete_set, JsObj.delete_of_absent _ _ hg]
  | some v =>
    have hv := h v hg
    have h0 : JsObj.getD0 p.allocated n = v := by simp [JsObj.getD0, hg]
    have hle : ¬ (v ≤ 0) := by omega
    simp only [h0]
    simp [hle, JsObj.set_same _ _ _ hg]

theorem releaseResourceEntry_zero (r : Resource) (a : Nat)
    (h : ∀ v, JsObj.get? r.allocated a = some v → 0 < v) : releaseResourceEntry r a 0 = r := by
  unfold releaseResourceEntry
  cases hg : JsObj.get? r.allocated a with
  | none =>
    have h0 : JsObj.getD0 r.allocated a = 0 := by simp [JsObj.getD0, hg]
    simp only [h0]
    simp [JsObj.delete_set, JsObj.delete_of_absent _ _ hg]
  | some v =>
    have hv := h v hg
    have h0 : JsObj.getD0 r.allocated a = v := by simp [JsObj.getD0, hg]
    have hle : ¬ (v ≤ 0) := by omega
    simp only [h0]
    simp [hle, JsObj.set_same _ _ _ hg]

/-- C8, amended: when neither `p.allocated[r]` nor `r.allocated[p]` is a stored entry that
is zero or negative, `releaseResource(p, r, 0)` returns `true` and does nothing but run the
wake-up scan: the state it leaves is the one that `autoAssignResources` leaves from the
unchanged state. It is a no-op whenever that scan has nothing to grant (no flagged process
has an outstanding amount that the named resource can cover). -/
theorem releaseResource_zero (s : Simulator) (processId resourceId : Nat)
    (p : Process) (r : Resource)
    (hp : findProcess s processId = some p) (hr : findResource s resourceId = some r)
    (hpe : ∀ v, JsObj.get? p.allocated r.name = some v → 0 < v)
    (hre : ∀ v, JsObj.get? r.allocated p.id = some v → 0 < v) :
    releaseResource s processId resourceId 0 = (true, wakeUp s) ∧
    (scanIdle s = true → releaseResource s processId resourceId 0 = (true, s)) := by
  have hnn : ¬ JsObj.getD0 p.allocated r.name < 0 := by
    unfold JsObj.getD0
    cases hg : JsObj.get? p.allocated r.name with
    | none => simp
    | some v => have := hpe v hg; simp; omega
  have hled : releaseLedger s processId resourceId p r 0 = s := by
    unfold releaseLedger
    have h1 : updateFirst (fun q => q.id == processId)
        (fun q => releaseProcessEntry q r.name 0) s.processes = s.processes := by
      apply updateFirst_of_fixed
      intro x hx
      have : x = p := by
        have hx' : findProcess s processId = some x := hx
        rw [hp] at hx'
        exact (Option.some.inj hx').symm
      rw [this]
      exact releaseProcessEntry_zero p r.name hpe
    have h2 : updateFirst (fun q => q.id == resourceId)
        (fun q => releaseResourceEntry q p.id 0) s.resources = s.resources := by
      apply updateFirst_of_fixed
      intro x hx
      have : x = r := by
        have hx' : findResource s resourceId = some x := hx
        rw [hr] at hx'
        exact (Option.some.inj hx').symm
      rw [this]
      exact releaseResourceEntry_zero r p.id hre
    rw [h1, h2]
  have hmain : releaseResource s processId resourceId 0 = (true, wakeUp s) := by
    unfold releaseResource
    rw [hp, hr]
    simp only [hnn, if_false, hled]
  refine ⟨hmain, fun hidle => ?_⟩
  rw [hmain, wakeUp_of_scanIdle s hidle]

/-! ## Request followed by release -/

theorem grantable_congr (s t : Simulator) (hres : t.resources = s.resources) (q : Process)
    (k : String) : grantable t q k = grantable s q k := by
  unfold grantable findResourceByName
  rw [hres]

theorem scanIdle_markRunning (s : Simulator) (a : Nat) (h : scanIdle s = true) :
    scanIdle (markRunning s a) = true := by
  unfold scanIdle at h ⊢
  rw [List.all_eq_true] at h ⊢
  intro x hx
  rcases mem_updateFirst _ _ _ x hx with hx | ⟨y, _, hxy⟩
  · have := h x hx
    simpa [grantable_congr s (markRunning s a) rfl] using this
  · rw [hxy]
    simp

theorem requestThenRelease_process (p : Process) (n : String) (c : Int) (hc : 0 < c)
    (ha : JsObj.get? p.allocated n = none) (hq : JsObj.get? p.requested n = none) :
    releaseProcessEntry (assignProcessEntry (requestProcessEntry p n c) n c) n c
      = { p with waiting := false, state := ProcState.running } := by
  have ha0 : JsObj.getD0 p.allocated n = 0 := by simp [JsObj.getD0, ha]
  have hq0 : JsObj.getD0 p.requested n = 0 := by simp [JsObj.getD0, hq]
  have hget : JsObj.get? (JsObj.set p.requested n (JsObj.getD0 p.requested n + c)) n
      = some c := by
    rw [JsObj.get?_set_self, hq0]; simp
  have hasg : assignProcessEntry (requestProcessEntry p n c) n c
      = { p with allocated := JsObj.set p.allocated n c, waiting := false,
                 state := ProcState.running } := by
    unfold assignProcessEntry
    simp only [requestProcessEntry, hget]
    have h1 : c > 0 := hc
    simp [h1, ha0, JsObj.delete_set, JsObj.delete_of_absent _ _ hq]
  rw [hasg]
  unfold releaseProcessEntry
  simp [JsObj.getD0, JsObj.get?_set_self, JsObj.delete_set, JsObj.delete_of_absent _ _ ha]

theorem requestThenRelease_resource (r : Resource) (a : Nat) (c : Int)
    (ha : JsObj.get? r.allocated a = none) :
    releaseResourceEntry (assignResourceEntry r a c) a c = r := by
  have ha0 : JsObj.getD0 r.allocated a = 0 := by simp [JsObj.getD0, ha]
  unfold releaseResourceEntry assignResourceEntry
  simp [JsObj.getD0, JsObj.get?_set_self, JsObj.delete_set, JsObj.delete_of_absent _ _ ha, ha]

/-- C9, amended: when `p` has no entry for `r` in `allocated` and `requested`, `r` has none
for `p` and `0 < count <= r.availableInstances`, a request followed at once by the release
of the same count succeeds twice and undoes the grant: every allocated and requested map and
every resource is restored, and `p` is left not flagged and in state `running`, whatever its
flag and state were; on that state the release runs its wake-up scan. The state left is
exactly the state before the request with `p` running and not flagged whenever the scan has
nothing to grant. -/
theorem request_then_release (s : Simulator) (processId resourceId : Nat) (count : Int)
    (p : Process) (r : Resource)
    (hp : findProcess s processId = some p) (hr : findResource s resourceId = some r)
    (hpa : JsObj.get? p.allocated r.name = none)
    (hra : JsObj.get? r.allocated p.id = none)
    (hpq : JsObj.get? p.requested r.name = none)
    (hpos : 0 < count) (hcount : count ≤ r.availableInstances) :
    (requestResource s processId resourceId count).1 = true ∧
    releaseResource (requestResource s processId resourceId count).2 processId resourceId count
      = (true, wakeUp (markRunning s processId)) ∧
    (scanIdle s = true →
      releaseResource (requestResource s processId resourceId count).2 processId resourceId
        count = (true, markRunning s processId)) := by
  have hheld : JsObj.getD0 p.allocated r.name ≤ 0 := by simp [JsObj.getD0, hpa]
  rw [requestResource_of_available s processId resourceId count p r hp hr hheld hcount]
  suffices hmain : releaseResource (assignResource (requestLedger s processId r count)
      processId resourceId count).2 processId resourceId count
      = (true, wakeUp (markRunning s processId)) by
    refine ⟨rfl, hmain, fun hidle => ?_⟩
    rw [hmain, wakeUp_of_scanIdle _ (scanIdle_markRunning s processId hidle)]
  have hp1 := findProcess_requestLedger s processId r count p hp
  have hr1 : findResource (requestLedger s processId r count) resourceId = some r := hr
  have hp2 := findProcess_assignResource _ processId resourceId count _ r hp1 hr1 hcount
  have hr2 := findResource_assignResource _ processId resourceId count _ r hp1 hr1 hcount
  have hguard : ¬ JsObj.getD0 (assignProcessEntry (requestProcessEntry p r.name count)
      r.name count).allocated (assignResourceEntry r
        (requestProcessEntry p r.name count).id count).name < count := by
    rw [assignProcessEntry_allocated]
    simp [assignResourceEntry, requestProcessEntry, JsObj.getD0, JsObj.get?_set_self, hpa]
  unfold releaseResource
  rw [hp2, hr2]
  simp only [hguard, if_false]
  have hled : releaseLedger (assignResource (requestLedger s processId r count)
      processId resourceId count).2 processId resourceId
      (assignProcessEntry (requestProcessEntry p r.name count) r.name count)
      (assignResourceEntry r (requestProcessEntry p r.name count).id count) count
      = markRunning s processId := by
    rw [assignResource_of_found _ processId resourceId count _ r hp1 hr1 hcount]
    unfold releaseLedger markRunning requestLedger
    simp only []
    rw [updateFirst_updateFirst _ _ _ _
        (fun x hx => by simpa [assignProcessEntry_id] using hx),
      updateFirst_updateFirst _ _ _ _ (fun x hx => by simpa [requestProcessEntry] using hx),
      updateFirst_updateFirst _ _ _ _ (fun x hx => by simpa [assignResourceEntry] using hx)]
    have h1 : updateFirst (fun q => q.id == processId)
        (fun x => releaseProcessEntry (assignProcessEntry (requestProcessEntry x r.name count)
          r.name count) (assignResourceEntry r (requestProcessEntry p r.name count).id count).name
          count) s.processes
        = updateFirst (fun q => q.id == processId)
          (fun q => { q with waiting := false, state := ProcState.running }) s.processes := by
      apply updateFirst_congr
      intro x hx
      have : x = p := by
        have hx' : findProcess s processId = some x := hx
        rw [hp] at hx'
        exact (Option.some.inj hx').symm
      rw [this]
      exact requestThenRelease_process p r.name count hpos hpa hpq
    have h2 : updateFirst (fun q => q.id == resourceId)
        (fun x => releaseResourceEntry (assignResourceEntry x
          (requestProcessEntry p r.name count).id count)
          (assignProcessEntry (requestProcessEntry p r.name count) r.name count).id count)
          s.resources = s.resources := by
      apply updateFirst_of_fixed
      intro x hx
      have : x = r := by
        have hx' : findResource s resourceId = some x := hx
        rw [hr] at hx'
        exact (Option.some.inj hx').symm
      rw [this, assignProcessEntry_id]
      exact requestThenRelease_resource r p.id count hra
    rw [h1, h2]
  rw [hled]

/-! ## What a grant leaves alone -/

theorem find?_of_mem_nodup {α κ : Type} [DecidableEq κ] (key : α → κ) (l : List α)
    (hnd : (l.map key).Nodup) (x : α) (hx : x ∈ l) :
    l.find? (fun y => key y == key x) = some x := by
  induction l with
  | nil => simp at hx
  | cons a as ih =>
    have hnd' : (as.map key).Nodup := (List.nodup_cons.mp (by simpa using hnd)).2
    have ha : key a ∉ as.map key := (List.nodup_cons.mp (by simpa using hnd)).1
    rcases List.mem_cons.mp hx with rfl | hx'
    · simp [List.find?]
    · have hne : key a ≠ key x := fun h => ha (h ▸ List.mem_map_of_mem key hx')
      have hb : (key a == key x) = false := by simpa using hne
      simp only [List.find?, hb]
      exact ih hnd' hx'

theorem findProcess_of_mem (s : Simulator) (hnd : (s.processes.map Process.id).Nodup)
    (p : Process) (hp : p ∈ s.processes) : findProcess s p.id = some p :=
  find?_of_mem_nodup Process.id s.processes hnd p hp

theorem findResource_of_mem (s : Simulator) (hnd : (s.resources.map Resource.id).Nodup)
    (r : Resource) (hr : r ∈ s.resources) : findResource s r.id = some r :=
  find?_of_mem_nodup Resource.id s.resources hnd r hr

theorem findResourceByName_name {s : Simulator} {k : String} {r : Resource}
    (h : findResourceByName s k = some r) : r.name = k := by
  have := List.find?_some h
  simpa using this

theorem assignResource_processIds (t : Simulator) (a b : Nat) (c : Int) :
    (assignResource t a b c).2.processes.map Process.id = t.processes.map Process.id := by
  unfold assignResource
  cases findProcess t a with
  | none => rfl
  | some p =>
    cases findResource t b with
    | none => rfl
    | some r =>
      simp only []
      split
      · rfl
      · exact updateFirst_map_of_preserved _ _ _ _ (fun q => assignProcessEntry_id q r.name c)

theorem assignResource_resourceIds (t : Simulator) (a b : Nat) (c : Int) :
    (assignResource t a b c).2.resources.map Resource.id = t.resources.map Resource.id := by
  unfold assignResource
  cases findProcess t a with
  | none => rfl
  | some p =>
    cases findResource t b with
    | none => rfl
    | some r =>
      simp only []
      split
      · rfl
      · exact updateFirst_map_of_preserved _ _ _ _ (fun q => rfl)

theorem findProcess_assignResource_ne (t : Simulator) (a b : Nat) (c : Int) (pid : Nat)
    (hne : a ≠ pid) : findProcess (assignResource t a b c).2 pid = findProcess t pid := by
  unfold assignResource
  cases findProcess t a with
  | none => rfl
  | some p =>
    cases findResource t b with
    | none => rfl
    | some r =>
      simp only []
      split
      · rfl
      · unfold findProcess
        simp only []
        apply find?_updateFirst_other
        intro x hx
        have hxa : x.id = a := by simpa using hx
        constructor
        · simp [hxa, hne]
        · simp [assignProcessEntry_id, hxa, hne]

theorem findResource_assignResource_ne (t : Simulator) (a b : Nat) (c : Int) (rid : Nat)
    (hne : b ≠ rid) : findResource (assignResource t a b c).2 rid = findResource t rid := by
  unfold assignResource
  cases findProcess t a with
  | none => rfl
  | some p =>
    cases findResource t b with
    | none => rfl
    | some r =>
      simp only []
      split
      · rfl
      · unfold findResource
        simp only []
        apply find?_updateFirst_other
        intro x hx
        have hxa : x.id = b := by simpa using hx
        constructor
        · simp [hxa, hne]
        · simp [assignResourceEntry, hxa, hne]

theorem assignProcessEntry_requested_ne (p : Process) (k n : String) (c : Int) (hne : k ≠ n) :
    JsObj.get? (assignProcessEntry p k c).requested n = JsObj.get? p.requested n := by
  unfold assignProcessEntry
  simp only []
  cases hq : JsObj.get? p.requested k with
  | none => simp only []; split <;> rfl
  | some q =>
    simp only []
    by_cases h1 : q > 0
    · by_cases h2 : q - c ≤ 0
      · simp only [h1, h2, if_true]
        split <;> simp [JsObj.get?_delete_ne _ _ _ hne, JsObj.get?_set_ne _ _ _ _ hne]
      · simp only [h1, h2, if_true, if_false]
        split <;> simp [JsObj.get?_set_ne _ _ _ _ hne]
    · simp only [h1, if_false]
      split <;> rfl

theorem assignProcessEntry_allocated_ne (p : Process) (k n : String) (c : Int) (hne : k ≠ n) :
    JsObj.get? (assignProcessEntry p k c).allocated n = JsObj.get? p.allocated n := by
  rw [assignProcessEntry_allocated, JsObj.get?_set_ne _ _ _ _ hne]

/-! ## releaseResource: the released amount -/

theorem releaseProcessEntry_get? (p : Process) (n : String) (c h : Int)
    (hpa : JsObj.get? p.allocated n = some h) (hc : c ≤ h) :
    JsObj.get? (releaseProcessEntry p n c).allocated n
      = if h - c = 0 then none else some (h - c) := by
  have h0 : JsObj.getD0 p.allocated n = h := by simp [JsObj.getD0, hpa]
  unfold releaseProcessEntry
  simp only [h0]
  by_cases hz : h - c = 0
  · have : h - c ≤ 0 := by omega
    simp [this, hz, JsObj.get?_delete_self]
  · have : ¬ h - c ≤ 0 := by omega
    simp [this, hz, JsObj.get?_set_self]

theorem releaseResourceEntry_get? (r : Resource) (a : Nat) (c h : Int)
    (hra : JsObj.get? r.allocated a = some h) (hc : c ≤ h) :
    JsObj.get? (releaseResourceEntry r a c).allocated a
      = if h - c = 0 then none else some (h - c) := by
  have h0 : JsObj.getD0 r.allocated a = h := by simp [JsObj.getD0, hra]
  unfold releaseResourceEntry
  simp only [h0]
  by_cases hz : h - c = 0
  · have : h - c ≤ 0 := by omega
    simp [this, hz, JsObj.get?_delete_self]
  · have : ¬ h - c ≤ 0 := by omega
    simp [this, hz, JsObj.get?_set_self]

theorem uniqueIds_assignResource (t : Simulator) (a b : Nat) (c : Int) (h : UniqueIds t) :
    UniqueIds (assignResource t a b c).2 := by
  unfold UniqueIds
  rw [assignResource_processIds, assignResource_resourceIds]
  exact h

/-- The scan leaves the holding of `r` by the process `pid` alone when that process has no
positive amount outstanding on `r`. -/
theorem scan_keeps_holding (pid rid : Nat) (n : String) (X : Option Int) (l : List Nat)
    (mid : Simulator) (hu : UniqueIds mid)
    (hmid : ∃ p' r', findProcess mid pid = some p' ∧ findResource mid rid = some r' ∧
      JsObj.get? p'.allocated n = X ∧ JsObj.getD0 p'.requested n ≤ 0 ∧
      JsObj.get? r'.allocated pid = X ∧ r'.name = n) :
    ∃ p' r', findProcess (l.foldl autoAssignProcess mid) pid = some p' ∧
      findResource (l.foldl autoAssignProcess mid) rid = some r' ∧
      JsObj.get? p'.allocated n = X ∧ JsObj.get? r'.allocated pid = X := by
  have key := scan_preserves (fun t => UniqueIds t ∧
      ∃ p' r', findProcess t pid = some p' ∧ findResource t rid = some r' ∧
        JsObj.get? p'.allocated n = X ∧ JsObj.getD0 p'.requested n ≤ 0 ∧
        JsObj.get? r'.allocated pid = X ∧ r'.name = n) l ?_ mid ⟨hu, hmid⟩
  · obtain ⟨_, p', r', h1, h2, h3, _, h5, _⟩ := key
    exact ⟨p', r', h1, h2, h3, h5⟩
  · intro t i _ process k q resource ht hproc hq hqpos hres hav
    obtain ⟨htu, p', r', hp', hr', hpa, hpq, hra, hrn⟩ := ht
    refine ⟨uniqueIds_assignResource t _ _ _ htu, ?_⟩
    have hfp : findProcess t process.id = some process :=
      findProcess_of_mem t htu.1 process (List.getElem?_mem hproc)
    have hfr : findResource t resource.id = some resource :=
      findResource_of_mem t htu.2 resource (List.mem_of_find?_eq_some hres)
    have hname : resource.name = k := findResourceByName_name hres
    by_cases hpid : process.id = pid
    · have hpp : process = p' := by
        rw [hpid, hp'] at hfp
        exact (Option.some.inj hfp).symm
      have hk : k ≠ n := by
        intro hkn
        rw [hpp, hkn] at hq
        simp [JsObj.getD0, hq] at hpq
        omega
      have hrid : resource.id ≠ rid := by
        intro hrr
        rw [hrr, hr'] at hfr
        have : r' = resource := Option.some.inj hfr
        rw [← this, hrn] at hname
        exact hk hname.symm
      refine ⟨assignProcessEntry p' resource.name q, r', ?_, ?_, ?_, ?_, hra, hrn⟩
      · rw [hpid] at hfp ⊢
        rw [← hpp]
        exact findProcess_assignResource t pid resource.id q process resource hfp hfr hav
      · rw [findResource_assignResource_ne t _ _ q rid hrid]
        exact hr'
      · rw [hname, assignProcessEntry_allocated_ne _ _ _ _ hk]
        exact hpa
      · unfold JsObj.getD0
        rw [hname, assignProcessEntry_requested_ne _ _ _ _ hk]
        exact hpq
    · have hp'' : findProcess (assignResource t process.id resource.id q).2 pid = some p' := by
        rw [findProcess_assignResource_ne t _ _ q pid hpid]
        exact hp'
      by_cases hrid : resource.id = rid
      · have hrr : resource = r' := by
          rw [hrid, hr'] at hfr
          exact (Option.some.inj hfr).symm
        refine ⟨p', assignResourceEntry r' process.id q, hp'', ?_, hpa, hpq, ?_, hrn⟩
        · rw [hrid] at hfr ⊢
          rw [← hrr]
          exact findResource_assignResource t process.id rid q process resource hfp hfr hav
        · simp only [assignResourceEntry]
          rw [JsObj.get?_set_ne _ _ _ _ hpid]
          exact hra
      · refine ⟨p', r', hp'', ?_, hpa, hpq, hra, hrn⟩
        rw [findResource_assignResource_ne t _ _ q rid hrid]
        exact hr'

/-- C7: when `p` holds `h` instances of `r` (in both allocation maps) and has nothing
outstanding on `r`, a release of `count` instances with `1 <= count <= h` succeeds; the
released instances are in the pool of `r` in the state on which the wake-up scan then runs,
and in the state left `p.allocated[r]` and `r.allocated[p]` are both `h - count`, the entry
being absent from both maps when `h - count` is `0`. -/
theorem releaseResource_lowers (s : Simulator) (processId resourceId : Nat) (count h : Int)
    (p : Process) (r : Resource) (hu : UniqueIds s)
    (hp : findProcess s processId = some p) (hr : findResource s resourceId = some r)
    (hpa : JsObj.get? p.allocated r.name = some h)
    (hra : JsObj.get? r.allocated p.id = some h)
    (hnoreq : JsObj.getD0 p.requested r.name ≤ 0)
    (_h1 : 1 ≤ count) (h2 : count ≤ h) :
    releaseResource s processId resourceId count
      = (true, wakeUp (releaseLedger s processId resourceId p r count)) ∧
    (findResource (releaseLedger s processId resourceId p r count) resourceId).map
      Resource.availableInstances = some (r.availableInstances + count) ∧
    ∃ p' r', findProcess (releaseResource s processId resourceId count).2 processId = some p' ∧
      findResource (releaseResource s processId resourceId count).2 resourceId = some r' ∧
      JsObj.get? p'.allocated r.name = (if h - count = 0 then none else some (h - count)) ∧
      JsObj.get? r'.allocated p.id = (if h - count = 0 then none else some (h - count)) := by
  have hpid : p.id = processId := findProcess_id hp
  have hguard : ¬ JsObj.getD0 p.allocated r.name < count := by
    simp [JsObj.getD0, hpa]; omega
  have hrel : releaseResource s processId resourceId count
      = (true, wakeUp (releaseLedger s processId resourceId p r count)) := by
    unfold releaseResource
    rw [hp, hr]
    simp only [hguard, if_false]
  have hpm : findProcess (releaseLedger s processId resourceId p r count) processId
      = some (releaseProcessEntry p r.name count) := by
    unfold findProcess at hp ⊢
    simp only [releaseLedger]
    rw [find?_updateFirst_same _ _ _ (fun x hx => by simpa [releaseProcessEntry] using hx), hp]
    rfl
  have hrm : findResource (releaseLedger s processId resourceId p r count) resourceId
      = some (releaseResourceEntry r p.id count) := by
    unfold findResource at hr ⊢
    simp only [releaseLedger]
    rw [find?_updateFirst_same _ _ _ (fun x hx => by simpa [releaseResourceEntry] using hx), hr]
    rfl
  have hum : UniqueIds (releaseLedger s processId resourceId p r count) := by
    unfold UniqueIds releaseLedger
    simp only []
    rw [ids_updateFirst_process _ _ (fun q => releaseProcessEntry q r.name count)
        (fun q => rfl),
      ids_updateFirst_resource _ _ (fun q => releaseResourceEntry q p.id count) (fun q => rfl)]
    exact hu
  have hmid : ∃ p' r', findProcess (releaseLedger s processId resourceId p r count) processId
        = some p' ∧
      findResource (releaseLedger s processId resourceId p r count) resourceId = some r' ∧
      JsObj.get? p'.allocated r.name = (if h - count = 0 then none else some (h - count)) ∧
      JsObj.getD0 p'.requested r.name ≤ 0 ∧
      JsObj.get? r'.allocated processId = (if h - count = 0 then none else some (h - count)) ∧
      r'.name = r.name := by
    refine ⟨_, _, hpm, hrm, releaseProcessEntry_get? p r.name count h hpa h2, hnoreq, ?_, rfl⟩
    rw [hpid]
    rw [hpid] at hra
    exact releaseResourceEntry_get? r processId count h hra h2
  refine ⟨hrel, ?_, ?_⟩
  · rw [hrm]
    rfl
  · rw [hrel, hpid]
    simp only []
    unfold wakeUp
    split
    · exact scan_keeps_holding processId resourceId r.name _ _ _ hum hmid
    · obtain ⟨p', r', a1, a2, a3, _, a5, _⟩ := hmid
      exact ⟨p', r', a1, a2, a3, a5⟩

/-! ## Positions in the process list -/

theorem index_eq_of_key_eq {α κ : Type} (key : α → κ) (l : List α)
    (hnd : (l.map key).Nodup) (m m' : Nat) (x y : α)
    (hx : l[m]? = some x) (hy : l[m']? = some y) (h : key x = key y) : m = m' := by
  induction l generalizing m m' with
  | nil => simp at hx
  | cons a as ih =>
    have hnd' : (as.map key).Nodup := (List.nodup_cons.mp (by simpa using hnd)).2
    have ha : key a ∉ as.map key := (List.nodup_cons.mp (by simpa using hnd)).1
    cases m with
    | zero =>
      cases m' with
      | zero => rfl
      | succ m' =>
        simp only [List.getElem?_cons_zero, Option.some.injEq] at hx
        simp only [List.getElem?_cons_succ] at hy
        exact absurd (hx ▸ h ▸ List.mem_map_of_mem key (List.getElem?_mem hy)) ha
    | succ m =>
      cases m' with
      | zero =>
        simp only [List.getElem?_cons_zero, Option.some.injEq] at hy
        simp only [List.getElem?_cons_succ] at hx
        exact absurd (hy ▸ h.symm ▸ List.mem_map_of_mem key (List.getElem?_mem hx)) ha
      | succ m' =>
        simp only [List.getElem?_cons_succ] at hx hy
        rw [ih hnd' m m' hx hy]

theorem assignResource_getElem?_other (t : Simulator) (hu : UniqueIds t) (m m' : Nat)
    (x : Process) (hx : t.processes[m']? = some x) (hne : m ≠ m') (b : Nat) (c : Int) :
    (assignResource t x.id b c).2.processes[m]? = t.processes[m]? := by
  unfold assignResource
  cases findProcess t x.id with
  | none => rfl
  | some p =>
    cases findResource t b with
    | none => rfl
    | some r =>
      simp only []
      split
      · rfl
      · simp only []
        rw [updateFirst_eq_map Process.id x.id _ t.processes hu.1, List.getElem?_map]
        cases hy : t.processes[m]? with
        | none => rfl
        | some y =>
          have : y.id ≠ x.id := fun h =>
            hne (index_eq_of_key_eq Process.id t.processes hu.1 m m' y x hy hx h)
          simp [this]

theorem assignResource_getElem?_self (t : Simulator) (hu : UniqueIds t) (m : Nat)
    (x : Process) (hx : t.processes[m]? = some x) (b : Nat) (c : Int) (res : Resource)
    (hres : findResource t b = some res) (hc : c ≤ res.availableInstances) :
    (assignResource t x.id b c).2.processes[m]?
      = some (assignProcessEntry x res.name c) := by
  have hfp : findProcess t x.id = some x := findProcess_of_mem t hu.1 x (List.getElem?_mem hx)
  rw [assignResource_of_found t x.id b c x res hfp hres hc]
  simp only []
  rw [updateFirst_eq_map Process.id x.id _ t.processes hu.1, List.getElem?_map, hx]
  simp

theorem range_split (n i : Nat) (h : i < n) :
    List.range n = List.range i ++ i :: List.range' (i + 1) (n - i - 1) := by
  have h1 : n = ((n - i - 1) + 1) + i := by omega
  conv_lhs => rw [h1]
  rw [List.range_eq_range', List.range_eq_range', ← List.range'_append_1 0 i ((n - i - 1) + 1)]
  simp [List.range'_succ]

/-! ## The scan serves the waiting processes in creation order -/

theorem findResourceByName_of_mem (t : Simulator) (hn : (t.resources.map Resource.name).Nodup)
    (r : Resource) (hr : r ∈ t.resources) : findResourceByName t r.name = some r :=
  find?_of_mem_nodup Resource.name t.resources hn r hr

theorem assignProcessEntry_requested_only (A : Process) (n : String)
    (hAr : JsObj.get? A.requested n = some 1)
    (hAonly : ∀ k q, JsObj.get? A.requested k = some q → 0 < q → k = n)
    (k : String) (q : Int) (h : JsObj.get? (assignProcessEntry A n 1).requested k = some q) :
    ¬ 0 < q := by
  by_cases hk : n = k
  · subst hk
    unfold assignProcessEntry at h
    simp only [hAr] at h
    simp [JsObj.get?_delete_self] at h
  · rw [assignProcessEntry_requested_ne _ _ _ _ hk] at h
    intro hq
    exact hk (hAonly k q h hq).symm

/-- First part of the scan: the processes created before the position `i` request nothing
of the resource, which keeps its one available instance. -/
theorem scan_before (t0 : Simulator) (rid : Nat) (n : String) (i : Nat)
    (hu : UniqueIds t0) (hn : (t0.resources.map Resource.name).Nodup)
    (hr : ∃ r1, findResource t0 rid = some r1 ∧ r1.name = n ∧ r1.availableInstances = 1)
    (hfirst : ∀ m < i, ∀ x, t0.processes[m]? = some x → JsObj.getD0 x.requested n ≤ 0) :
    UniqueIds ((List.range i).foldl autoAssignProcess t0) ∧
    (((List.range i).foldl autoAssignProcess t0).resources.map Resource.name).Nodup ∧
    (∃ r1, findResource ((List.range i).foldl autoAssignProcess t0) rid = some r1 ∧
      r1.name = n ∧ r1.availableInstances = 1) ∧
    ∀ m, i ≤ m → ((List.range i).foldl autoAssignProcess t0).processes[m]? = t0.processes[m]?
    := by
  have key := scan_preserves (fun t => UniqueIds t ∧ (t.resources.map Resource.name).Nodup ∧
      (∃ r1, findResource t rid = some r1 ∧ r1.name = n ∧ r1.availableInstances = 1) ∧
      (∀ m, i ≤ m → t.processes[m]? = t0.processes[m]?) ∧
      (∀ m < i, ∀ x, t.processes[m]? = some x → JsObj.getD0 x.requested n ≤ 0))
    (List.range i) ?_ t0 ⟨hu, hn, hr, fun _ _ => rfl, hfirst⟩
  · exact ⟨key.1, key.2.1, key.2.2.1, key.2.2.2.1⟩
  · intro t m' hm' x k q res ht hx hq hqpos hres hav
    obtain ⟨htu, htn, ⟨r1, hr1, hr1n, hr1a⟩, hrest, hbefore⟩ := ht
    have hm'i : m' < i := List.mem_range.mp hm'
    have hk : k ≠ n := by
      intro hkn
      have := hbefore m' hm'i x hx
      rw [hkn] at hq
      simp [JsObj.getD0, hq] at this
      omega
    have hresm : res ∈ t.resources := List.mem_of_find?_eq_some hres
    have hfr : findResource t res.id = some res := findResource_of_mem t htu.2 res hresm
    have hname : res.name = k := findResourceByName_name hres
    have hrid : res.id ≠ rid := by
      intro hrr
      rw [hrr, hr1] at hfr
      have : r1 = res := Option.some.inj hfr
      rw [← this, hr1n] at hname
      exact hk hname.symm
    refine ⟨uniqueIds_assignResource t _ _ _ htu, ?_, ⟨r1, ?_, hr1n, hr1a⟩, ?_, ?_⟩
    · rw [assignResource_names]; exact htn
    · rw [findResource_assignResource_ne t _ _ q rid hrid]; exact hr1
    · intro m hm
      rw [assignResource_getElem?_other t htu m m' x hx (by omega)]
      exact hrest m hm
    · intro m hm y hy
      by_cases hmm : m = m'
      · subst hmm
        rw [assignResource_getElem?_self t htu m x hx res.id q res hfr hav] at hy
        have hy' : y = assignProcessEntry x res.name q := (Option.some.inj hy).symm
        rw [hy']
        unfold JsObj.getD0
        rw [hname, assignProcessEntry_requested_ne _ _ _ _ hk]
        exact hbefore m hm x hx
      · rw [assignResource_getElem?_other t htu m m' x hx hmm] at hy
        exact hbefore m hm y hy

/-- Last part of the scan: once the pool of the resource is empty, a process that waits for
this resource only is left as it is, and so is the process at position `i`. -/
theorem scan_after (t2 : Simulator) (rid : Nat) (n : String) (i j : Nat) (l : List Nat)
    (hl : ∀ m ∈ l, m ≠ i) (A2 B : Process)
    (hu : UniqueIds t2) (hn : (t2.resources.map Resource.name).Nodup)
    (hr : ∃ r1, findResource t2 rid = some r1 ∧ r1.name = n ∧ r1.availableInstances = 0)
    (hA : t2.processes[i]? = some A2) (hB : t2.processes[j]? = some B)
    (hBonly : ∀ k q, JsObj.get? B.requested k = some q → 0 < q → k = n) :
    (∃ r1, findResource (l.foldl autoAssignProcess t2) rid = some r1 ∧
      r1.availableInstances = 0) ∧
    (l.foldl autoAssignProcess t2).processes[i]? = some A2 ∧
    (l.foldl autoAssignProcess t2).processes[j]? = some B := by
  have key := scan_preserves (fun t => UniqueIds t ∧ (t.resources.map Resource.name).Nodup ∧
      (∃ r1, findResource t rid = some r1 ∧ r1.name = n ∧ r1.availableInstances = 0) ∧
      t.processes[i]? = some A2 ∧ t.processes[j]? = some B) l ?_ t2 ⟨hu, hn, hr, hA, hB⟩
  · obtain ⟨_, _, ⟨r1, h1, _, h3⟩, h4, h5⟩ := key
    exact ⟨⟨r1, h1, h3⟩, h4, h5⟩
  · intro t m' hm' x k q res ht hx hq hqpos hres hav
    obtain ⟨htu, htn, ⟨r1, hr1, hr1n, hr1a⟩, htA, htB⟩ := ht
    have hresm : res ∈ t.resources := List.mem_of_find?_eq_some hres
    have hfr : findResource t res.id = some res := findResource_of_mem t htu.2 res hresm
    have hname : res.name = k := findResourceByName_name hres
    have hrid : res.id ≠ rid := by
      intro hrr
      rw [hrr, hr1] at hfr
      have : r1 = res := Option.some.inj hfr
      rw [← this, hr1a] at hav
      omega
    have hmj : m' ≠ j := by
      intro hmj
      rw [hmj, htB] at hx
      have hxB : B = x := Option.some.inj hx
      rw [← hxB] at hq
      have hkn : k = n := hBonly k q hq hqpos
      have hr1m : r1 ∈ t.resources := List.mem_of_find?_eq_some hr1
      have : res = r1 := eq_of_mem_of_key_eq Resource.name t.resources htn res r1 hresm hr1m
        (by rw [hname, hr1n, hkn])
      apply hrid
      rw [this]
      exact findResource_id hr1
    refine ⟨uniqueIds_assignResource t _ _ _ htu, ?_, ⟨r1, ?_, hr1n, hr1a⟩, ?_, ?_⟩
    · rw [assignResource_names]; exact htn
    · rw [findResource_assignResource_ne t _ _ q rid hrid]; exact hr1
    · rw [assignResource_getElem?_other t htu i m' x hx (fun h => hl m' hm' h.symm)]
      exact htA
    · rw [assignResource_getElem?_other t htu j m' x hx (fun h => hmj h.symm)]
      exact htB

/-- Visit of the first waiting process: it is granted the one available instance. -/
theorem scan_visit (t1 : Simulator) (rid : Nat) (n : String) (i : Nat) (A : Process)
    (hu : UniqueIds t1) (hn : (t1.resources.map Resource.name).Nodup)
    (hr : ∃ r1, findResource t1 rid = some r1 ∧ r1.name = n ∧ r1.availableInstances = 1)
    (hA : t1.processes[i]? = some A) (hAw : A.waiting = true)
    (hAr : JsObj.get? A.requested n = some 1)
    (hAonly : ∀ k q, JsObj.get? A.requested k = some q → 0 < q → k = n) :
    UniqueIds (autoAssignProcess t1 i) ∧
    ((autoAssignProcess t1 i).resources.map Resource.name).Nodup ∧
    (∃ r1, findResource (autoAssignProcess t1 i) rid = some r1 ∧ r1.name = n ∧
      r1.availableInstances = 0) ∧
    (autoAssignProcess t1 i).processes[i]? = some (assignProcessEntry A n 1) ∧
    ∀ m, m ≠ i → (autoAssignProcess t1 i).processes[m]? = t1.processes[m]? := by
  -- the two states of the loop over the keys of `A.requested`
  let Q1 : Simulator → Prop := fun t => UniqueIds t ∧ (t.resources.map Resource.name).Nodup ∧
    (∃ r1, findResource t rid = some r1 ∧ r1.name = n ∧ r1.availableInstances = 1) ∧
    t.processes[i]? = some A ∧ ∀ m, m ≠ i → t.processes[m]? = t1.processes[m]?
  let Q2 : Simulator → Prop := fun t => UniqueIds t ∧ (t.resources.map Resource.name).Nodup ∧
    (∃ r1, findResource t rid = some r1 ∧ r1.name = n ∧ r1.availableInstances = 0) ∧
    t.processes[i]? = some (assignProcessEntry A n 1) ∧
    ∀ m, m ≠ i → t.processes[m]? = t1.processes[m]?
  have hidle1 : ∀ t k, Q1 t → k ≠ n → autoAssignKey i t k = t := by
    intro t k ht hk
    rcases autoAssignKey_cases i t k with h | ⟨x, q, res, h1, h2, h3, _, _, _⟩
    · exact h
    · rw [ht.2.2.2.1] at h1
      have hx : A = x := Option.some.inj h1
      rw [← hx] at h2
      exact absurd (hAonly k q h2 h3) hk
  have hidle2 : ∀ t k, Q2 t → autoAssignKey i t k = t := by
    intro t k ht
    rcases autoAssignKey_cases i t k with h | ⟨x, q, res, h1, h2, h3, _, _, _⟩
    · exact h
    · rw [ht.2.2.2.1] at h1
      have hx : assignProcessEntry A n 1 = x := Option.some.inj h1
      rw [← hx] at h2
      exact absurd h3 (assignProcessEntry_requested_only A n hAr hAonly k q h2)
  have hgrant : ∀ t, Q1 t → Q2 (autoAssignKey i t n) := by
    intro t ht
    obtain ⟨htu, htn, ⟨r1, hr1, hr1n, hr1a⟩, htA, hrest⟩ := ht
    have hr1m : r1 ∈ t.resources := List.mem_of_find?_eq_some hr1
    have hbyname : findResourceByName t n = some r1 := by
      rw [← hr1n]; exact findResourceByName_of_mem t htn r1 hr1m
    have hr1id : r1.id = rid := findResource_id hr1
    have hav : (1 : Int) ≤ r1.availableInstances := by omega
    have hge : r1.availableInstances ≥ 1 := hav
    have hstep : autoAssignKey i t n = (assignResource t A.id r1.id 1).2 := by
      simp [autoAssignKey, htA, hAr, hbyname, hge]
    have hfr : findResource t r1.id = some r1 := by rw [hr1id]; exact hr1
    have hfp : findProcess t A.id = some A :=
      findProcess_of_mem t htu.1 A (List.getElem?_mem htA)
    rw [hstep]
    refine ⟨uniqueIds_assignResource t _ _ _ htu, ?_, ⟨assignResourceEntry r1 A.id 1, ?_, ?_, ?_⟩,
      ?_, ?_⟩
    · rw [assignResource_names]; exact htn
    · rw [← hr1id]
      exact findResource_assignResource t A.id r1.id 1 A r1 hfp hfr hav
    · exact hr1n
    · simp only [assignResourceEntry]; omega
    · rw [assignResource_getElem?_self t htu i A htA r1.id 1 r1 hfr hav, hr1n]
    · intro m hm
      rw [assignResource_getElem?_other t htu m i A htA hm]
      exact hrest m hm
  have hloop2 : ∀ (K : List String) (t : Simulator), Q2 t → Q2 (K.foldl (autoAssignKey i) t) := by
    intro K
    induction K with
    | nil => intro t ht; exact ht
    | cons k K ih =>
      intro t ht
      simp only [List.foldl_cons]
      rw [hidle2 t k ht]
      exact ih t ht
  have hloop1 : ∀ (K : List String) (t : Simulator), Q1 t → n ∈ K →
      Q2 (K.foldl (autoAssignKey i) t) := by
    intro K
    induction K with
    | nil => intro t _ hmem; simp at hmem
    | cons k K ih =>
      intro t ht hmem
      simp only [List.foldl_cons]
      by_cases hk : k = n
      · rw [hk]
        exact hloop2 K _ (hgrant t ht)
      · rw [hidle1 t k ht hk]
        have : n ∈ K := by
          rcases List.mem_cons.mp hmem with h | h
          · exact absurd h.symm hk
          · exact h
        exact ih t ht this
  have hmem : n ∈ JsObj.keys A.requested := by
    by_contra hcon
    rw [(JsObj.get?_eq_none_iff A.requested n).mpr hcon] at hAr
    simp at hAr
  have hQ1 : Q1 t1 := ⟨hu, hn, hr, hA, fun _ _ => rfl⟩
  have hfinal : autoAssignProcess t1 i = (JsObj.keys A.requested).foldl (autoAssignKey i) t1 := by
    simp [autoAssignProcess, hA, hAw]
  rw [hfinal]
  exact hloop1 _ t1 hQ1 hmem

theorem scan_serves_first (t0 : Simulator) (rid : Nat) (r0 : Resource) (i j : Nat)
    (A B : Process) (hu : UniqueIds t0) (hn : (t0.resources.map Resource.name).Nodup)
    (hr : findResource t0 rid = some r0) (havail : r0.availableInstances = 1)
    (hA : t0.processes[i]? = some A) (hB : t0.processes[j]? = some B) (hij : i < j)
    (hAw : A.waiting = true) (hAr : JsObj.get? A.requested r0.name = some 1)
    (hAonly : ∀ k q, JsObj.get? A.requested k = some q → 0 < q → k = r0.name)
    (hBonly : ∀ k q, JsObj.get? B.requested k = some q → 0 < q → k = r0.name)
    (hfirst : ∀ m < i, ∀ x, t0.processes[m]? = some x → JsObj.getD0 x.requested r0.name ≤ 0) :
    (∃ r', findResource (autoAssignResources t0) rid = some r' ∧ r'.availableInstances = 0) ∧
    (autoAssignResources t0).processes[i]? = some (assignProcessEntry A r0.name 1) ∧
    (autoAssignResources t0).processes[j]? = some B := by
  have hilt : i < t0.processes.length := by
    by_contra hcon
    rw [List.getElem?_eq_none (by omega)] at hA
    simp at hA
  unfold autoAssignResources
  rw [range_split _ i hilt, List.foldl_append, List.foldl_cons]
  obtain ⟨hu1, hn1, hr1, hrest1⟩ := scan_before t0 rid r0.name i hu hn ⟨r0, hr, rfl, havail⟩ hfirst
  have hA1 := (hrest1 i (Nat.le_refl i)).trans hA
  have hB1 := (hrest1 j (by omega)).trans hB
  obtain ⟨hu2, hn2, hr2, hA2, hrest2⟩ := scan_visit _ rid r0.name i A hu1 hn1 hr1 hA1 hAw hAr hAonly
  have hB2 := (hrest2 j (by omega)).trans hB1
  refine scan_after _ rid r0.name i j _ ?_ _ B hu2 hn2 hr2 hA2 hB2 hBonly
  intro m hm
  have := (List.mem_range'_1.mp hm).1
  omega

/-- C10, amended: two processes `A` and `B` wait, flagged, for one instance of `r` and for
nothing else, `r` has no instance available, and no process created before `A` has an
amount outstanding on `r`. When a third process releases one instance of `r`, the instance
goes to the one of the two that was created first (`A`, at the lower position of the process
list), whichever request was made first: `A` ends holding one more instance of `r`, with no
request on `r`, running and not flagged; `B` is left exactly as it was, still waiting; the
pool of `r` is empty again. -/
theorem release_serves_creation_order (s : Simulator) (holderId resourceId : Nat)
    (holder : Process) (r : Resource) (i j : Nat) (A B : Process)
    (hu : UniqueIds s) (hn : (s.resources.map Resource.name).Nodup)
    (hauto : s.autoAssignEnabled = true)
    (hh : findProcess s holderId = some holder) (hr : findResource s resourceId = some r)
    (hheld : 1 ≤ JsObj.getD0 holder.allocated r.name) (havail : r.availableInstances = 0)
    (hA : s.processes[i]? = some A) (hB : s.processes[j]? = some B) (hij : i < j)
    (hAh : A.id ≠ holderId) (hBh : B.id ≠ holderId)
    (hAw : A.waiting = true) (hAr : JsObj.get? A.requested r.name = some 1)
    (hAonly : ∀ k q, JsObj.get? A.requested k = some q → 0 < q → k = r.name)
    (_hBw : B.waiting = true) (_hBr : JsObj.get? B.requested r.name = some 1)
    (hBonly : ∀ k q, JsObj.get? B.requested k = some q → 0 < q → k = r.name)
    (hfirst : ∀ m < i, ∀ x, s.processes[m]? = some x → JsObj.getD0 x.requested r.name ≤ 0) :
    (releaseResource s holderId resourceId 1).1 = true ∧
    (∃ r', findResource (releaseResource s holderId resourceId 1).2 resourceId = some r' ∧
      r'.availableInstances = 0) ∧
    (∃ A', (releaseResource s holderId resourceId 1).2.processes[i]? = some A' ∧
      JsObj.getD0 A'.allocated r.name = JsObj.getD0 A.allocated r.name + 1 ∧
      JsObj.get? A'.requested r.name = none ∧ A'.waiting = false ∧
      A'.state = ProcState.running) ∧
    (releaseResource s holderId resourceId 1).2.processes[j]? = some B := by
  have hguard : ¬ JsObj.getD0 holder.allocated r.name < 1 := by omega
  have hrel : releaseResource s holderId resourceId 1
      = (true, autoAssignResources (releaseLedger s holderId resourceId holder r 1)) := by
    unfold releaseResource
    rw [hh, hr]
    simp only [hguard, if_false, wakeUp]
    have : (releaseLedger s holderId resourceId holder r 1).autoAssignEnabled = true := hauto
    simp [this]
  have hprocs : (releaseLedger s holderId resourceId holder r 1).processes
      = s.processes.map (fun y => if y.id = holderId then releaseProcessEntry y r.name 1 else y)
      := updateFirst_eq_map Process.id holderId _ s.processes hu.1
  have hum : UniqueIds (releaseLedger s holderId resourceId holder r 1) := by
    unfold UniqueIds releaseLedger
    simp only []
    rw [ids_updateFirst_process _ _ (fun q => releaseProcessEntry q r.name 1) (fun q => rfl),
      ids_updateFirst_resource _ _ (fun q => releaseResourceEntry q holder.id 1)
        (fun q => rfl)]
    exact hu
  have hnm : ((releaseLedger s holderId resourceId holder r 1).resources.map
      Resource.name).Nodup := by
    unfold releaseLedger
    simp only []
    rw [updateFirst_map_of_preserved _ (fun q => releaseResourceEntry q holder.id 1)
      Resource.name _ (fun q => rfl)]
    exact hn
  have hrm : findResource (releaseLedger s holderId resourceId holder r 1) resourceId
      = some (releaseResourceEntry r holder.id 1) := by
    unfold findResource at hr ⊢
    simp only [releaseLedger]
    rw [find?_updateFirst_same _ _ _ (fun x hx => by simpa [releaseResourceEntry] using hx), hr]
    rfl
  have hAm : (releaseLedger s holderId resourceId holder r 1).processes[i]? = some A := by
    rw [hprocs, List.getElem?_map, hA]
    simp [hAh]
  have hBm : (releaseLedger s holderId resourceId holder r 1).processes[j]? = some B := by
    rw [hprocs, List.getElem?_map, hB]
    simp [hBh]
  have hfirstm : ∀ m < i, ∀ x,
      (releaseLedger s holderId resourceId holder r 1).processes[m]? = some x →
      JsObj.getD0 x.requested (releaseResourceEntry r holder.id 1).name ≤ 0 := by
    intro m hm x hx
    rw [hprocs, List.getElem?_map] at hx
    cases hy : s.processes[m]? with
    | none => rw [hy] at hx; simp at hx
    | some y =>
      rw [hy] at hx
      simp only [Option.map_some', Option.some.injEq] at hx
      have hreq : x.requested = y.requested := by
        rw [← hx]
        split <;> rfl
      rw [hreq]
      exact hfirst m hm y hy
  obtain ⟨hres, hAf, hBf⟩ := scan_serves_first
    (releaseLedger s holderId resourceId holder r 1) resourceId
    (releaseResourceEntry r holder.id 1) i j A B hum hnm hrm
    (by simp only [releaseResourceEntry]; omega) hAm hBm hij hAw hAr hAonly hBonly hfirstm
  rw [hrel]
  refine ⟨rfl, hres, ⟨assignProcessEntry A r.name 1, hAf, ?_, ?_, ?_, ?_⟩, hBf⟩
  · rw [assignProcessEntry_allocated, JsObj.getD0_set]
    simp
  · unfold assignProcessEntry
    simp only [hAr]
    simp [JsObj.get?_delete_self]
  · unfold assignProcessEntry
    simp only [hAr]
    simp
  · unfold assignProcessEntry
    simp only [hAr]
    simp

/-! ## Identifiers are pairwise distinct in every state reached -/

theorem assignResource_idShape (t : Simulator) (a b : Nat) (c : Int) :
    idShape (assignResource t a b c).2 = idShape t := by
  have h1 := assignResource_processIds t a b c
  have h2 := assignResource_resourceIds t a b c
  have h3 : (assignResource t a b c).2.nextProcessId = t.nextProcessId ∧
      (assignResource t a b c).2.nextResourceId = t.nextResourceId := by
    unfold assignResource
    cases findProcess t a with
    | none => exact ⟨rfl, rfl⟩
    | some p =>
      cases findResource t b with
      | none => exact ⟨rfl, rfl⟩
      | some r =>
        simp only []
        split <;> exact ⟨rfl, rfl⟩
  unfold idShape
  rw [h1, h2, h3.1, h3.2]

theorem wakeUp_idShape (s : Simulator) : idShape (wakeUp s) = idShape s :=
  wakeUp_preserves (fun t => idShape t = idShape s)
    (fun t a b c _ ht => (assignResource_idShape t a b c).trans ht) s rfl

theorem releaseAllStep_ids (p : Process) (rs : List Resource) (k : String) :
    (releaseAllStep p rs k).map Resource.id = rs.map Resource.id := by
  unfold releaseAllStep
  cases JsObj.get? p.allocated k with
  | none => rfl
  | some c => exact updateFirst_map_of_preserved _ _ _ _ (fun q => rfl)

theorem step_idShape_exact (s : Simulator) (op : Op) :
    idShape (step s op) =
      match op with
      | Op.addProcess _ => (s.processes.map Process.id ++ [s.nextProcessId],
          s.resources.map Resource.id, s.nextProcessId + 1, s.nextResourceId)
      | Op.addResource _ _ => (s.processes.map Process.id,
          s.resources.map Resource.id ++ [s.nextResourceId], s.nextProcessId,
          s.nextResourceId + 1)
      | _ => idShape s := by
  cases op with
  | addProcess name =>
    simp only [step, addProcess, wakeUp_idShape]
    simp [idShape]
  | addResource name n =>
    simp only [step, addResource, wakeUp_idShape]
    simp [idShape]
  | requestResource a b c =>
    simp only [step]
    unfold requestResource
    cases findProcess s a with
    | none => rfl
    | some p =>
      cases findResource s b with
      | none => rfl
      | some r =>
        have hled : idShape (requestLedger s a r c) = idShape s := by
          unfold idShape requestLedger
          simp only []
          rw [ids_updateFirst_process _ _ (fun q => requestProcessEntry q r.name c)
            (fun q => rfl)]
        simp only []
        split
        · rfl
        · split
          · rw [assignResource_idShape]; exact hled
          · exact hled
  | assignResource a b c =>
    exact assignResource_idShape s a b c
  | releaseResource a b c =>
    simp only [step]
    unfold releaseResource
    cases findProcess s a with
    | none => rfl
    | some p =>
      cases findResource s b with
      | none => rfl
      | some r =>
        simp only []
        split
        · rfl
        · rw [wakeUp_idShape]
          unfold idShape releaseLedger
          simp only []
          rw [ids_updateFirst_process _ _ (fun q => releaseProcessEntry q r.name c)
              (fun q => rfl),
            ids_updateFirst_resource _ _ (fun q => releaseResourceEntry q p.id c)
              (fun q => rfl)]
  | releaseAllResources a =>
    simp only [step]
    unfold releaseAllResources
    cases findProcess s a with
    | none => rfl
    | some p =>
      simp only []
      rw [wakeUp_idShape]
      have hres : ((JsObj.keys p.allocated).foldl (releaseAllStep p) s.resources).map
          Resource.id = s.resources.map Resource.id :=
        foldl_preserves
          (fun rs : List Resource => rs.map Resource.id = s.resources.map Resource.id)
          (releaseAllStep p) _ (fun rs k _ hrs => (releaseAllStep_ids p rs k).trans hrs)
          s.resources rfl
      unfold idShape releaseAllLedger
      simp only []
      rw [hres, ids_updateFirst_process _ _
        (fun q => { q with allocated := [], waiting := false, state := ProcState.ready })
        (fun q => rfl)]
  | detectDeadlock =>
    simp only [step]
    unfold detectDeadlock idShape
    simp only []
    split
    · simp only [List.map_map]
      congr 1
      apply List.map_congr_left
      intro q _
      simp only [Function.comp]
      split <;> rfl
    · simp only [List.map_map]
      congr 1
      apply List.map_congr_left
      intro q _
      simp only [Function.comp]
      split <;> rfl

theorem step_idShape (s : Simulator) (op : Op) :
    idShape (step s op) = idShape s ∨
    idShape (step s op) = (s.processes.map Process.id ++ [s.nextProcessId],
      s.resources.map Resource.id, s.nextProcessId + 1, s.nextResourceId) ∨
    idShape (step s op) = (s.processes.map Process.id,
      s.resources.map Resource.id ++ [s.nextResourceId], s.nextProcessId,
      s.nextResourceId + 1) := by
  have h := step_idShape_exact s op
  cases op with
  | addProcess name => exact Or.inr (Or.inl h)
  | addResource name n => exact Or.inr (Or.inr h)
  | requestResource a b c => exact Or.inl h
  | assignResource a b c => exact Or.inl h
  | releaseResource a b c => exact Or.inl h
  | releaseAllResources a => exact Or.inl h
  | detectDeadlock => exact Or.inl h

/-- Every state reached from a fresh simulator has pairwise distinct process identifiers
and pairwise distinct resource identifiers, all below the counters. -/
theorem uniqueIds_of_run (ops : List Op) :
    UniqueIds (run Simulator.fresh ops) ∧
    (∀ i ∈ (run Simulator.fresh ops).processes.map Process.id,
      i < (run Simulator.fresh ops).nextProcessId) ∧
    (∀ i ∈ (run Simulator.fresh ops).resources.map Resource.id,
      i < (run Simulator.fresh ops).nextResourceId) := by
  induction ops using List.reverseRecOn with
  | nil =>
    refine ⟨⟨?_, ?_⟩, ?_, ?_⟩ <;> simp [run, Simulator.fresh]
  | append_singleton ops op ih =>
    have hrun : run Simulator.fresh (ops ++ [op]) = step (run Simulator.fresh ops) op := by
      simp [run, List.foldl_append]
    rw [hrun]
    generalize run Simulator.fresh ops = s at ih
    obtain ⟨⟨hp, hr⟩, hpn, hrn⟩ := ih
    have key : ∀ t : Simulator, ∀ sh : List Nat × List Nat × Nat × Nat, idShape t = sh →
        sh.1.Nodup → sh.2.1.Nodup → (∀ i ∈ sh.1, i < sh.2.2.1) → (∀ i ∈ sh.2.1, i < sh.2.2.2) →
        UniqueIds t ∧ (∀ i ∈ t.processes.map Process.id, i < t.nextProcessId) ∧
        (∀ i ∈ t.resources.map Resource.id, i < t.nextResourceId) := by
      intro t sh hsh h1 h2 h3 h4
      subst hsh
      exact ⟨⟨h1, h2⟩, h3, h4⟩
    rcases step_idShape s op with h | h | h
    · exact key _ _ h hp hr hpn hrn
    · refine key _ _ h ?_ hr ?_ hrn
      · refine List.Nodup.append hp (by simp) ?_
        intro x hx hx'
        simp only [List.mem_singleton] at hx'
        exact Nat.lt_irrefl _ (hx' ▸ hpn x hx)
      · intro i hi
        rcases List.mem_append.mp hi with hi | hi
        · exact Nat.lt_succ_of_lt (hpn i hi)
        · simp only [List.mem_singleton] at hi
          rw [hi]; exact Nat.lt_succ_self _
    · refine key _ _ h hp ?_ hpn ?_
      · refine List.Nodup.append hr (by simp) ?_
        intro x hx hx'
        simp only [List.mem_singleton] at hx'
        exact Nat.lt_irrefl _ (hx' ▸ hrn x hx)
      · intro i hi
        rcases List.mem_append.mp hi with hi | hi
        · exact Nat.lt_succ_of_lt (hrn i hi)
        · simp only [List.mem_singleton] at hi
          rw [hi]; exact Nat.lt_succ_self _

/-! ## The claims at concrete inputs -/

theorem conservation_of_distinct_names_witness :
    ((run Simulator.fresh twoByTwoOps).resources.map Resource.name).Nodup ∧
    ordinaryResources (run Simulator.fresh twoByTwoOps) = true ∧
    safeRun twoByTwoOps = true ∧
    conserved (run Simulator.fresh twoByTwoOps) ⟨1, "R1", 1, 0, [(1, 1)]⟩ :=
  ⟨by decide, by decide, by decide,
    conservation_of_distinct_names twoByTwoOps (by decide) (by decide) (by decide) _
      (by decide)⟩

theorem available_nonneg_of_nonneg_counts_witness :
    (∀ op ∈ twoByTwoOps, op.nonneg = true) ∧
    (0 : Int) ≤ (⟨2, "R2", 1, 0, [(2, 1)]⟩ : Resource).availableInstances :=
  ⟨by decide, available_nonneg_of_nonneg_counts twoByTwoOps (by decide) _ (by decide)⟩

theorem requestResource_grants_witness :
    ordinaryName "R1" = true ∧ (2 : Int) ≤ 9007199254740992 ∧
    (requestResource idleState 1 1 2).1 = true ∧
    ∃ p' r', findProcess (requestResource idleState 1 1 2).2 1 = some p' ∧
      findResource (requestResource idleState 1 1 2).2 1 = some r' ∧
      JsObj.get? p'.allocated "R1" = some 2 ∧ JsObj.get? r'.allocated 1 = some 2 ∧
      r'.availableInstances = 2 - 2 ∧ JsObj.get? p'.requested "R1" = none :=
  ⟨by decide, by decide,
    requestResource_grants idleState 1 1 2 ⟨1, "P1", ProcState.ready, [], [], false⟩
      ⟨1, "R1", 2, 2, []⟩ (by decide) (by decide) (by decide) (by decide) (by decide)
      (by decide) (by decide) (by decide) (by decide)⟩

/-- C4, as stated, fails: with two resources named R, of which process 1 holds the first,
process 1 holds no instance of the second and has no request outstanding, and the second has
its one instance available; yet `requestResource(1, 2, 1)` returns `false` and grants
nothing. -/
theorem request_not_granted_counterexample :
    findProcess (run Simulator.fresh duplicateNameHeldOps) 1
      = some ⟨1, "P1", ProcState.running, [("R", 1)], [], false⟩ ∧
    findResource (run Simulator.fresh duplicateNameHeldOps) 2 = some ⟨2, "R", 1, 1, []⟩ ∧
    requestResource (run Simulator.fresh duplicateNameHeldOps) 1 2 1
      = (false, run Simulator.fresh duplicateNameHeldOps) := by
  decide

theorem requestResource_waits_witness :
    (requestResource idleState 1 1 3).1 = true ∧
    (requestResource idleState 1 1 3).2.resources = idleState.resources ∧
    (requestResource idleState 1 1 3).2.processes.map Process.allocated
      = idleState.processes.map Process.allocated ∧
    ∃ p', findProcess (requestResource idleState 1 1 3).2 1 = some p' ∧
      JsObj.getD0 p'.requested "R1" = 0 + 3 ∧
      p'.waiting = true ∧ p'.state = ProcState.waiting :=
  requestResource_waits idleState 1 1 3 ⟨1, "P1", ProcState.ready, [], [], false⟩
    ⟨1, "R1", 2, 2, []⟩ (by decide) (by decide) (by decide) (by decide)

theorem releaseResource_lowers_witness :
    releaseResource holdingThreeState 1 1 2
      = (true, wakeUp (releaseLedger holdingThreeState 1 1
          ⟨1, "P1", ProcState.running, [("R1", 3)], [], false⟩ ⟨1, "R1", 3, 0, [(1, 3)]⟩ 2)) ∧
    (findResource (releaseLedger holdingThreeState 1 1
      ⟨1, "P1", ProcState.running, [("R1", 3)], [], false⟩ ⟨1, "R1", 3, 0, [(1, 3)]⟩ 2) 1).map
      Resource.availableInstances = some (0 + 2) ∧
    ∃ p' r', findProcess (releaseResource holdingThreeState 1 1 2).2 1 = some p' ∧
      findResource (releaseResource holdingThreeState 1 1 2).2 1 = some r' ∧
      JsObj.get? p'.allocated "R1" = (if (3 : Int) - 2 = 0 then none else some (3 - 2)) ∧
      JsObj.get? r'.allocated 1 = (if (3 : Int) - 2 = 0 then none else some (3 - 2)) :=
  releaseResource_lowers holdingThreeState 1 1 2 3
    ⟨1, "P1", ProcState.running, [("R1", 3)], [], false⟩ ⟨1, "R1", 3, 0, [(1, 3)]⟩
    ⟨by decide, by decide⟩ (by decide) (by decide) (by decide) (by decide) (by decide)
    (by decide) (by decide)

theorem releaseResource_zero_witness :
    releaseResource holdingState 1 1 0 = (true, wakeUp holdingState) ∧
    (scanIdle holdingState = true →
      releaseResource holdingState 1 1 0 = (true, holdingState)) :=
  releaseResource_zero holdingState 1 1
    ⟨1, "P1", ProcState.running, [("R1", 1)], [], false⟩ ⟨1, "R1", 2, 1, [(1, 1)]⟩
    (by decide) (by decide)
    (fun v hv => by
      have : v = 1 := by simpa [JsObj.get?] using hv.symm
      omega)
    (fun v hv => by
      have : v = 1 := by simpa [JsObj.get?] using hv.symm
      omega)

/-- C8, as stated, fails: in the state reached by `staleRequestOps` the flagged process 1 has
a request on the free resource `R1`; `releaseResource(2, 1, 0)` releases nothing, yet its
wake-up scan grants `R1` to process 1, whose allocation map and flag change. -/
theorem releaseResource_zero_counterexample :
    (run Simulator.fresh staleRequestOps).processes.map
        (fun p => (p.allocated, p.requested, p.waiting))
      = [([], [("R1", 1), ("R2", 1)], true), ([("R2", 1)], [], false)] ∧
    (releaseResource (run Simulator.fresh staleRequestOps) 2 1 0).2.processes.map
        (fun p => (p.allocated, p.requested, p.waiting))
      = [([("R1", 1)], [("R2", 1)], false), ([("R2", 1)], [], false)] := by
  decide

theorem request_then_release_witness :
    (requestResource idleState 1 1 1).1 = true ∧
    releaseResource (requestResource idleState 1 1 1).2 1 1 1
      = (true, wakeUp (markRunning idleState 1)) ∧
    (scanIdle idleState = true →
      releaseResource (requestResource idleState 1 1 1).2 1 1 1
        = (true, markRunning idleState 1)) :=
  request_then_release idleState 1 1 1 ⟨1, "P1", ProcState.ready, [], [], false⟩
    ⟨1, "R1", 2, 2, []⟩ (by decide) (by decide) (by decide) (by decide) (by decide)
    (by decide) (by decide)

/-- C9, as stated, fails: a fresh process is `ready`; after a granted request and the release
of the same count it is `running`, so the state before the request is not restored. -/
theorem request_then_release_counterexample :
    idleState.processes.map Process.state = [ProcState.ready] ∧
    (releaseResource (requestResource idleState 1 1 1).2 1 1 1).2.processes.map Process.state
      = [ProcState.running] ∧
    (releaseResource (requestResource idleState 1 1 1).2 1 1 1).2 ≠ idleState := by
  decide

theorem release_serves_creation_order_witness :
    (releaseResource (run Simulator.fresh lateComerOps) 1 1 1).1 = true ∧
    (∃ r', findResource (releaseResource (run Simulator.fresh lateComerOps) 1 1 1).2 1
        = some r' ∧ r'.availableInstances = 0) ∧
    (∃ A', (releaseResource (run Simulator.fresh lateComerOps) 1 1 1).2.processes[1]?
        = some A' ∧
      JsObj.getD0 A'.allocated "R" = 0 + 1 ∧
      JsObj.get? A'.requested "R" = none ∧ A'.waiting = false ∧
      A'.state = ProcState.running) ∧
    (releaseResource (run Simulator.fresh lateComerOps) 1 1 1).2.processes[2]?
      = some ⟨3, "P3", ProcState.waiting, [], [("R", 1)], true⟩ :=
  release_serves_creation_order (run Simulator.fresh lateComerOps) 1 1
    ⟨1, "H", ProcState.running, [("R", 1)], [], false⟩ ⟨1, "R", 1, 0, [(1, 1)]⟩ 1 2
    ⟨2, "P2", ProcState.waiting, [], [("R", 1)], true⟩
    ⟨3, "P3", ProcState.waiting, [], [("R", 1)], true⟩
    ⟨by decide, by decide⟩ (by decide) (by decide) (by decide) (by decide) (by decide)
    (by decide) (by decide) (by decide) (by decide) (by decide) (by decide) (by decide)
    (by decide)
    (fun k q hq _ => by
      by_cases hk : "R" = k
      · exact hk.symm
      · simp [JsObj.get?, hk] at hq)
    (by decide) (by decide)
    (fun k q hq _ => by
      by_cases hk : "R" = k
      · exact hk.symm
      · simp [JsObj.get?, hk] at hq)
    (fun m hm x hx => by
      have hm0 : m = 0 := by omega
      subst hm0
      have : x = ⟨1, "H", ProcState.running, [("R", 1)], [], false⟩ :=
        (Option.some.inj hx).symm
      rw [this]
      decide)

/-- C10, as stated, fails: process 3 asked for `R` before process 2 did, but process 2 was
created first; when the holder releases the instance, it is granted to process 2 and
process 3 stays waiting. -/
theorem fifo_counterexample :
    (run Simulator.fresh lateComerOps).processes.map
        (fun p => (p.allocated, p.requested, p.waiting))
      = [([("R", 1)], [], false), ([], [("R", 1)], true), ([], [("R", 1)], true)] ∧
    (run Simulator.fresh (lateComerOps ++ [Op.releaseResource 1 1 1])).processes.map
        (fun p => (p.allocated, p.requested, p.waiting))
      = [([], [], false), ([("R", 1)], [], false), ([], [("R", 1)], true)] := by
  decide

/-! ## Unknown identifiers -/

/-- C13: when the process id, or the resource id where one is taken, names no existing
entity, `requestResource`, `assignResource`, `releaseResource` and `releaseAllResources`
return `false` and leave the whole state as it was. -/
theorem unknown_ids_rejected (s : Simulator) (processId resourceId : Nat) (count : Int)
    (h : findProcess s processId = none ∨ findResource s resourceId = none) :
    requestResource s processId resourceId count = (false, s) ∧
    assignResource s processId resourceId count = (false, s) ∧
    releaseResource s processId resourceId count = (false, s) ∧
    (findProcess s processId = none → releaseAllResources s processId = (false, s)) := by
  refine ⟨?_, ?_, ?_, ?_⟩
  · unfold requestResource
    rcases h with h | h
    · rw [h]
    · rw [h]
      cases findProcess s processId <;> rfl
  · unfold assignResource
    rcases h with h | h
    · rw [h]
    · rw [h]
      cases findProcess s processId <;> rfl
  · unfold releaseResource
    rcases h with h | h
    · rw [h]
    · rw [h]
      cases findProcess s processId <;> rfl
  · intro hp
    unfold releaseAllResources
    rw [hp]

theorem unknown_ids_rejected_witness :
    requestResource idleState 7 1 1 = (false, idleState) ∧
    assignResource idleState 7 1 1 = (false, idleState) ∧
    releaseResource idleState 7 1 1 = (false, idleState) ∧
    (findProcess idleState 7 = none → releaseAllResources idleState 7 = (false, idleState)) :=
  unknown_ids_rejected idleState 7 1 1 (Or.inl (by decide))

/-! ## The two-by-two scenario -/

/-- C20: after the eight calls of `autoSimulate` on an empty simulator, P1 holds R1 and
requests R2, P2 holds R2 and requests R1; the search records the nodes of the single cycle
P1, R2, P2, R1, `detectDeadlock` reports exactly P1 and P2 and marks both `deadlocked`. -/
theorem twoByTwo_deadlock :
    (run Simulator.fresh twoByTwoOps).processes.map
        (fun p => (p.name, p.allocated, p.requested))
      = [("P1", [("R1", 1)], [("R2", 1)]), ("P2", [("R2", 1)], [("R1", 1)])] ∧
    (dfsAll (buildGraph (run Simulator.fresh twoByTwoOps))).deadlockNodes
      = ["P1", "R2", "P2", "R1"] ∧
    isCycle (buildGraph (run Simulator.fresh twoByTwoOps)) ["P1", "R2", "P2", "R1"] = true ∧
    (detectDeadlock (run Simulator.fresh twoByTwoOps)).1 = ["P1", "P2"] ∧
    (detectDeadlock (run Simulator.fresh twoByTwoOps)).2.processes.map Process.state
      = [ProcState.deadlocked, ProcState.deadlocked] := by
  decide

/-! ## Nodes that the search misses -/

/-- C18, the code at the failing input: in the state reached by `crossEdgeOps` the names are
pairwise distinct and P3 lies on the cycle P3, R1, P2, R3, P1, R2, yet the report is P1, P2:
the search reaches P3 from P1 after R1 has been left, and stops at the visited R1. -/
theorem detectDeadlock_misses_node :
    ((run Simulator.fresh crossEdgeOps).processes.map Process.name
      ++ (run Simulator.fresh crossEdgeOps).resources.map Resource.name).Nodup ∧
    isCycle (buildGraph (run Simulator.fresh crossEdgeOps))
      ["P3", "R1", "P2", "R3", "P1", "R2"] = true ∧
    Graph.detectDeadlock (buildGraph (run Simulator.fresh crossEdgeOps)) = ["P1", "P2"] := by
  decide

/-! ## Detection and the ledger -/

/-- C21: `detectDeadlock` changes nothing but the field `state` of processes: the resources
(totals, available counts, allocation maps), the list of processes with their identifiers,
names, allocated and requested maps and waiting flags, the counters and the switches are as
before. -/
theorem detectDeadlock_readonly (s : Simulator) :
    (detectDeadlock s).2.resources = s.resources ∧
    (detectDeadlock s).2.processes.map
        (fun p => (p.id, p.name, p.allocated, p.requested, p.waiting))
      = s.processes.map (fun p => (p.id, p.name, p.allocated, p.requested, p.waiting)) ∧
    (detectDeadlock s).2.nextProcessId = s.nextProcessId ∧
    (detectDeadlock s).2.nextResourceId = s.nextResourceId ∧
    (detectDeadlock s).2.autoAssignEnabled = s.autoAssignEnabled ∧
    (detectDeadlock s).2.autoDetectDeadlock = s.autoDetectDeadlock := by
  unfold detectDeadlock
  simp only []
  split
  · refine ⟨rfl, ?_, rfl, rfl, rfl, rfl⟩
    rw [List.map_map]
    apply List.map_congr_left
    intro q _
    simp only [Function.comp]
    split <;> rfl
  · refine ⟨rfl, ?_, rfl, rfl, rfl, rfl⟩
    rw [List.map_map]
    apply List.map_congr_left
    intro q _
    simp only [Function.comp]
    split <;> rfl

/-! ## The state transition of a grant -/

/-- C25: a successful `assignResource(p, r, count)` on a process with `p.requested[r] = q > 0`
leaves `q - count` outstanding, the entry being removed when `q - count <= 0`; and when the
requested map is empty after the grant, `p` is `running` and not flagged. -/
theorem grant_transition (s : Simulator) (processId resourceId : Nat) (count q : Int)
    (p : Process) (r : Resource)
    (hp : findProcess s processId = some p) (hr : findResource s resourceId = some r)
    (hcount : count ≤ r.availableInstances)
    (hq : JsObj.get? p.requested r.name = some q) (hpos : 0 < q) :
    (assignResource s processId resourceId count).1 = true ∧
    ∃ p', findProcess (assignResource s processId resourceId count).2 processId = some p' ∧
      JsObj.get? p'.requested r.name = (if q - count ≤ 0 then none else some (q - count)) ∧
      (p'.requested = [] → p'.state = ProcState.running ∧ p'.waiting = false) := by
  refine ⟨by rw [assignResource_of_found s processId resourceId count p r hp hr hcount],
    assignProcessEntry p r.name count,
    findProcess_assignResource s processId resourceId count p r hp hr hcount, ?_, ?_⟩
  · unfold assignProcessEntry
    simp only [hq]
    have h1 : q > 0 := hpos
    by_cases h2 : q - count ≤ 0
    · simp [h1, h2, JsObj.get?_delete_self]
    · simp only [h1, h2, if_true, if_false]
      split <;> simp [JsObj.get?_set_self]
  · intro hempty
    have hkey : JsObj.get? (assignProcessEntry p r.name count).requested r.name = none := by
      rw [hempty]; rfl
    unfold assignProcessEntry at hkey ⊢
    simp only [hq] at hkey ⊢
    have h1 : q > 0 := hpos
    by_cases h2 : q - count ≤ 0
    · simp [h1, h2]
    · simp only [h1, h2, if_true, if_false] at hkey
      split at hkey <;> simp [JsObj.get?_set_self] at hkey

theorem grant_transition_witness :
    (assignResource (requestResource idleState 1 1 3).2 1 1 2).1 = true ∧
    ∃ p', findProcess (assignResource (requestResource idleState 1 1 3).2 1 1 2).2 1 = some p' ∧
      JsObj.get? p'.requested "R1" = (if (3 : Int) - 2 ≤ 0 then none else some (3 - 2)) ∧
      (p'.requested = [] → p'.state = ProcState.running ∧ p'.waiting = false) :=
  grant_transition (requestResource idleState 1 1 3).2 1 1 2 3
    ⟨1, "P1", ProcState.waiting, [], [("R1", 3)], true⟩ ⟨1, "R1", 2, 2, []⟩
    (by decide) (by decide) (by decide) (by decide) (by decide)

/-! ## A cycle without deadlock -/

/-- C26: in the state reached by `multiInstanceOps`, where R1 has two instances,
`detectDeadlock` reports P1 and P2; P3, which is not reported, releases its instance of R1,
the wake-up scan grants it to P2, and `detectDeadlock` then reports nothing. -/
theorem cycle_not_sufficient :
    (run Simulator.fresh multiInstanceOps).resources.map Resource.totalInstances = [2, 1] ∧
    (detectDeadlock (run Simulator.fresh multiInstanceOps)).1 = ["P1", "P2"] ∧
    (run Simulator.fresh (multiInstanceOps ++
        [Op.detectDeadlock, Op.releaseResource 3 1 1])).processes.map
        (fun p => (p.name, p.allocated, p.requested))
      = [("P1", [("R1", 1)], [("R2", 1)]), ("P2", [("R2", 1), ("R1", 1)], []),
          ("P3", [], [])] ∧
    (detectDeadlock (run Simulator.fresh (multiInstanceOps ++
        [Op.detectDeadlock, Op.releaseResource 3 1 1]))).1 = [] := by
  decide

/-! ## Agreement of the two allocation maps -/

/-- C27: in every state reached with pairwise distinct resource names, for every process `p`
and resource `r`, `p.allocated[r.name]` equals `r.allocated[p.id]`, an absent entry counting
for zero. -/
theorem allocation_maps_agree (ops : List Op)
    (hnames : ((run Simulator.fresh ops).resources.map Resource.name).Nodup)
    (p : Process) (hp : p ∈ (run Simulator.fresh ops).processes)
    (r : Resource) (hr : r ∈ (run Simulator.fresh ops).resources) :
    JsObj.getD0 p.allocated r.name = JsObj.getD0 r.allocated p.id :=
  (run_inv ops hnames).1.consistent p.holding (List.mem_map_of_mem _ hp) r hr

theorem allocation_maps_agree_witness :
    JsObj.getD0 ([("R1", 1)] : JsObj String Int) "R1"
      = JsObj.getD0 ([(1, 1)] : JsObj Nat Int) 1 :=
  allocation_maps_agree twoByTwoOps (by decide)
    ⟨1, "P1", ProcState.waiting, [("R1", 1)], [("R2", 1)], true⟩ (by decide)
    ⟨1, "R1", 1, 0, [(1, 1)]⟩ (by decide)

/-! ## Stale marks -/

/-- C30, the code at the failing input: after a detection has marked P1 to P4, P3 releases
R3, which the scan grants to P4; the next detection reports P1 and P2 only, and P3, which is
not reported, is still `deadlocked`. -/
theorem stale_deadlocked_mark :
    (detectDeadlock (run Simulator.fresh (twoCyclesOps ++
        [Op.detectDeadlock, Op.releaseResource 3 3 1]))).1 = ["P1", "P2"] ∧
    (detectDeadlock (run Simulator.fresh (twoCyclesOps ++
        [Op.detectDeadlock, Op.releaseResource 3 3 1]))).2.processes.map
        (fun p => (p.name, p.state))
      = [("P1", ProcState.deadlocked), ("P2", ProcState.deadlocked),
          ("P3", ProcState.deadlocked), ("P4", ProcState.running)] := by
  decide

/-! ## Properties of every process, of every resource, along a run -/

/-- A property of processes that every mutation of a process keeps holds of every process
of every state reached; `C` is what is known of the counts passed to the grant path. -/
theorem run_processes_forall (Q : Process → Prop) (C : Int → Prop)
    (hC : ∀ c : Int, 0 < c → C c)
    (hnew : ∀ (i : Nat) (n : String), Q ⟨i, n, ProcState.ready, [], [], false⟩)
    (hreq : ∀ p n c, C c → Q p → Q (requestProcessEntry p n c))
    (hasg : ∀ p n c, C c → Q p → Q (assignProcessEntry p n c))
    (hrel : ∀ p n c, Q p → Q (releaseProcessEntry p n c))
    (hall : ∀ p : Process, Q p →
      Q { p with allocated := [], waiting := false, state := ProcState.ready })
    (hmark : ∀ p : Process, Q p → Q { p with state := ProcState.deadlocked })
    (hready : ∀ p : Process, Q p → Q { p with state := ProcState.ready })
    (ops : List Op) (hops : ∀ op ∈ ops, ∀ c, op.grantCount = some c → C c) :
    ∀ p ∈ (run Simulator.fresh ops).processes, Q p := by
  have hassign : ∀ t a b c, C c → (∀ p ∈ t.processes, Q p) →
      ∀ p ∈ (assignResource t a b c).2.processes, Q p := by
    intro t a b c hc ht
    unfold assignResource
    cases findProcess t a with
    | none => exact ht
    | some p0 =>
      cases findResource t b with
      | none => exact ht
      | some r0 =>
        simp only []
        split
        · exact ht
        · intro x hx
          rcases mem_updateFirst _ _ _ x hx with hx | ⟨y, hy, hxy⟩
          · exact ht x hx
          · rw [hxy]
            exact hasg y _ c hc (ht y (List.mem_of_find?_eq_some hy))
  have hwake : ∀ t, (∀ p ∈ t.processes, Q p) → ∀ p ∈ (wakeUp t).processes, Q p := fun t ht =>
    wakeUp_preserves (fun u => ∀ p ∈ u.processes, Q p)
      (fun u a b c hc hu => hassign u a b c (hC c hc) hu) t ht
  have hupd : ∀ (l : List Process) (pred : Process → Bool) (f : Process → Process),
      (∀ p, Q p → Q (f p)) → (∀ p ∈ l, Q p) → ∀ p ∈ updateFirst pred f l, Q p := by
    intro l pred f hf hl x hx
    rcases mem_updateFirst _ _ _ x hx with hx | ⟨y, hy, hxy⟩
    · exact hl x hx
    · rw [hxy]
      exact hf y (hl y (List.mem_of_find?_eq_some hy))
  have hstep : ∀ t op, (∀ c, op.grantCount = some c → C c) → (∀ p ∈ t.processes, Q p) →
      ∀ p ∈ (step t op).processes, Q p := by
    intro t op hop ht
    cases op with
    | addProcess name =>
      apply hwake
      intro x hx
      simp only [List.mem_append, List.mem_singleton] at hx
      rcases hx with hx | hx
      · exact ht x hx
      · rw [hx]; exact hnew _ _
    | addResource name n => exact hwake _ ht
    | requestResource a b c =>
      have hc : C c := hop c rfl
      simp only [step]
      unfold requestResource
      cases findProcess t a with
      | none => exact ht
      | some p0 =>
        cases findResource t b with
        | none => exact ht
        | some r0 =>
          simp only []
          have hled : ∀ p ∈ (requestLedger t a r0 c).processes, Q p :=
            hupd _ _ _ (fun p hp => hreq p r0.name c hc hp) ht
          split
          · exact ht
          · split
            · exact hassign _ a b c hc hled
            · exact hled
    | assignResource a b c => exact hassign t a b c (hop c rfl) ht
    | releaseResource a b c =>
      simp only [step]
      unfold releaseResource
      cases findProcess t a with
      | none => exact ht
      | some p0 =>
        cases findResource t b with
        | none => exact ht
        | some r0 =>
          simp only []
          split
          · exact ht
          · exact hwake _ (hupd _ _ _ (fun p hp => hrel p r0.name c hp) ht)
    | releaseAllResources a =>
      simp only [step]
      unfold releaseAllResources
      cases findProcess t a with
      | none => exact ht
      | some p0 => exact hwake _ (hupd _ _ _ (fun p hp => hall p hp) ht)
    | detectDeadlock =>
      simp only [step]
      unfold detectDeadlock
      simp only []
      split
      · intro x hx
        obtain ⟨y, hy, hxy⟩ := List.mem_map.mp hx
        rw [← hxy]
        split
        · exact hmark y (ht y hy)
        · exact ht y hy
      · intro x hx
        obtain ⟨y, hy, hxy⟩ := List.mem_map.mp hx
        rw [← hxy]
        split
        · exact hready y (ht y hy)
        · exact ht y hy
  unfold run
  exact foldl_preserves (fun u => ∀ p ∈ u.processes, Q p) step ops
    (fun t op hop ht => hstep t op (hops op hop) ht) Simulator.fresh
    (fun p hp => by simp [Simulator.fresh] at hp)

/-- A property of resources that every mutation of a resource keeps holds of every resource
of every state reached; `N` is what is known of the numbers of instances passed to
`addResource`. -/
theorem run_resources_forall (Q : Resource → Prop) (N : Int → Prop)
    (hnew : ∀ (i : Nat) (nm : String) (n : Int), N n → Q ⟨i, nm, n, n, []⟩)
    (hasg : ∀ r a c, Q r → Q (assignResourceEntry r a c))
    (hrel : ∀ r a c, Q r → Q (releaseResourceEntry r a c))
    (ops : List Op) (hops : ∀ op ∈ ops, ∀ nm n, op = Op.addResource nm n → N n) :
    ∀ r ∈ (run Simulator.fresh ops).resources, Q r := by
  have hupd : ∀ (l : List Resource) (pred : Resource → Bool) (f : Resource → Resource),
      (∀ r, Q r → Q (f r)) → (∀ r ∈ l, Q r) → ∀ r ∈ updateFirst pred f l, Q r := by
    intro l pred f hf hl x hx
    rcases mem_updateFirst _ _ _ x hx with hx | ⟨y, hy, hxy⟩
    · exact hl x hx
    · rw [hxy]
      exact hf y (hl y (List.mem_of_find?_eq_some hy))
  have hassign : ∀ t a b c, (∀ r ∈ t.resources, Q r) →
      ∀ r ∈ (assignResource t a b c).2.resources, Q r := by
    intro t a b c ht
    unfold assignResource
    cases findProcess t a with
    | none => exact ht
    | some p0 =>
      cases findResource t b with
      | none => exact ht
      | some r0 =>
        simp only []
        split
        · exact ht
        · exact hupd _ _ _ (fun r hr => hasg r _ c hr) ht
  have hwake : ∀ t, (∀ r ∈ t.resources, Q r) → ∀ r ∈ (wakeUp t).resources, Q r := fun t ht =>
    wakeUp_preserves (fun u => ∀ r ∈ u.resources, Q r)
      (fun u a b c _ hu => hassign u a b c hu) t ht
  have hstep : ∀ t op, (∀ nm n, op = Op.addResource nm n → N n) → (∀ r ∈ t.resources, Q r) →
      ∀ r ∈ (step t op).resources, Q r := by
    intro t op hop ht
    cases op with
    | addProcess name => exact hwake _ ht
    | addResource name n =>
      apply hwake
      intro x hx
      simp only [List.mem_append, List.mem_singleton] at hx
      rcases hx with hx | hx
      · exact ht x hx
      · rw [hx]; exact hnew _ _ n (hop name n rfl)
    | requestResource a b c =>
      simp only [step]
      unfold requestResource
      cases findProcess t a with
      | none => exact ht
      | some p0 =>
        cases findResource t b with
        | none => exact ht
        | some r0 =>
          simp only []
          split
          · exact ht
          · split
            · exact hassign _ a b c ht
            · exact ht
    | assignResource a b c => exact hassign t a b c ht
    | releaseResource a b c =>
      simp only [step]
      unfold releaseResource
      cases findProcess t a with
      | none => exact ht
      | some p0 =>
        cases findResource t b with
        | none => exact ht
        | some r0 =>
          simp only []
          split
          · exact ht
          · exact hwake _ (hupd _ _ _ (fun r hr => hrel r _ c hr) ht)
    | releaseAllResources a =>
      simp only [step]
      unfold releaseAllResources
      cases findProcess t a with
      | none => exact ht
      | some p0 =>
        apply hwake
        show ∀ r ∈ (JsObj.keys p0.allocated).foldl (releaseAllStep p0) t.resources, Q r
        refine foldl_preserves (fun rs : List Resource => ∀ r ∈ rs, Q r) (releaseAllStep p0) _
          ?_ t.resources ht
        intro rs k _ hrs
        unfold releaseAllStep
        cases JsObj.get? p0.allocated k with
        | none => exact hrs
        | some c => exact hupd _ _ _ (fun r hr => hrel r _ c hr) hrs
    | detectDeadlock =>
      simp only [step]
      unfold detectDeadlock
      simp only []
      split <;> exact ht
  unfold run
  exact foldl_preserves (fun u => ∀ r ∈ u.resources, Q r) step ops
    (fun t op hop ht => hstep t op (hops op hop) ht) Simulator.fresh
    (fun r hr => by simp [Simulator.fresh] at hr)

/-! ## Numbers of instances -/

theorem assignResource_totals (t : Simulator) (a b : Nat) (c : Int) :
    (assignResource t a b c).2.resources.map Resource.totalInstances
      = t.resources.map Resource.totalInstances := by
  unfold assignResource
  cases findProcess t a with
  | none => rfl
  | some p =>
    cases findResource t b with
    | none => rfl
    | some r =>
      simp only []
      split
      · rfl
      · exact updateFirst_map_of_preserved _ _ _ _ (fun q => rfl)

theorem wakeUp_totals (s : Simulator) :
    (wakeUp s).resources.map Resource.totalInstances
      = s.resources.map Resource.totalInstances :=
  wakeUp_preserves
    (fun t => t.resources.map Resource.totalInstances = s.resources.map Resource.totalInstances)
    (fun t a b c _ ht => (assignResource_totals t a b c).trans ht) s rfl

/-- C15, amended: `addResource(name, instances)` never fails: for every integer `instances`,
also below 1, it adds one resource whose total is `instances`. Every resource of the
registry has `totalInstances >= 1` provided that every `addResource` call was given at least
one instance. -/
theorem totalInstances_of_addResource (ops : List Op)
    (hops : ∀ op ∈ ops, op.instancesAtLeastOne = true) :
    (∀ r ∈ (run Simulator.fresh ops).resources, 1 ≤ r.totalInstances) ∧
    ∀ (name : String) (n : Int),
      (addResource (run Simulator.fresh ops) name n).resources.map Resource.totalInstances
        = (run Simulator.fresh ops).resources.map Resource.totalInstances ++ [n] := by
  constructor
  · refine run_resources_forall (fun r => 1 ≤ r.totalInstances) (fun n => 1 ≤ n)
      (fun _ _ n hn => hn) (fun r a c hr => hr) (fun r a c hr => hr) ops ?_
    intro op hop nm n hopn
    have := hops op hop
    rw [hopn] at this
    simpa [Op.instancesAtLeastOne] using this
  · intro name n
    unfold addResource
    rw [wakeUp_totals]
    simp

theorem totalInstances_of_addResource_witness :
    (∀ op ∈ twoByTwoOps, op.instancesAtLeastOne = true) ∧
    (∀ r ∈ (run Simulator.fresh twoByTwoOps).resources, 1 ≤ r.totalInstances) ∧
    ∀ (name : String) (n : Int),
      (addResource (run Simulator.fresh twoByTwoOps) name n).resources.map
          Resource.totalInstances
        = (run Simulator.fresh twoByTwoOps).resources.map Resource.totalInstances ++ [n] :=
  ⟨by decide, totalInstances_of_addResource twoByTwoOps (by decide)⟩

/-- C15, as stated, fails: `addResource("R", 0)` is not rejected, it adds a resource with no
instance. -/
theorem addResource_zero_counterexample :
    (addResource Simulator.fresh "R" 0).resources = [⟨1, "R", 0, 0, []⟩] := by
  decide

/-! ## The waiting flag and the requests -/

theorem assignProcessEntry_flagSound (p : Process) (n : String) (c : Int)
    (h : p.flagSound) : (assignProcessEntry p n c).flagSound := by
  obtain ⟨hpos, hflag⟩ := h
  unfold assignProcessEntry
  simp only []
  cases hq : JsObj.get? p.requested n with
  | none =>
    simp only []
    split
    · exact ⟨hpos, fun hw => by simp_all⟩
    · exact ⟨hpos, hflag⟩
  | some q =>
    simp only []
    by_cases h1 : q > 0
    · by_cases h2 : q - c ≤ 0
      · simp only [h1, h2, if_true, Bool.not_false]
        refine ⟨?_, fun hw => by simp at hw⟩
        intro k v hk
        simp only [] at hk
        rw [JsObj.delete_set, JsObj.get?_delete] at hk
        split at hk
        · simp at hk
        · exact hpos k v hk
      · simp only [h1, h2, if_true, if_false]
        have hstored : ∀ k v, JsObj.get? (JsObj.set p.requested n (q - c)) k = some v → 0 < v := by
          intro k v hk
          rw [JsObj.get?_set] at hk
          split at hk
          · have : q - c = v := Option.some.inj hk
            omega
          · exact hpos k v hk
        split
        · next hw => exact ⟨hstored, fun hw' => by simp_all⟩
        · next hw =>
          have hw' : p.waiting = true := by simpa using hw
          refine ⟨hstored, fun _ => ⟨⟨n, q - c, JsObj.get?_set_self _ _ _, by omega⟩, ?_⟩⟩
          exact (hflag hw').2
    · exact absurd (hpos n q hq) h1

/-- The converse of the invariant on waiting processes does hold: in every state reached by
calls whose request and assign counts are positive, every process whose waiting flag is set
has an outstanding request (a positive `requested[r]`) and is not in state `running`. -/
theorem flagged_has_request (ops : List Op) (hops : ∀ op ∈ ops, op.positive = true)
    (p : Process) (hp : p ∈ (run Simulator.fresh ops).processes) (hw : p.waiting = true) :
    (∃ k v, JsObj.get? p.requested k = some v ∧ 0 < v) ∧ p.state ≠ ProcState.running := by
  have key := run_processes_forall Process.flagSound (fun c => 0 < c) (fun c hc => hc)
    ?_ ?_ ?_ ?_ ?_ ?_ ?_ ops ?_ p hp
  · exact key.2 hw
  · intro i n
    exact ⟨fun k v hk => by simp [JsObj.get?] at hk, fun hw => by simp at hw⟩
  · intro q n c hc hq
    have hge : 0 ≤ JsObj.getD0 q.requested n := by
      unfold JsObj.getD0
      cases hg : JsObj.get? q.requested n with
      | none => simp
      | some v => have := hq.1 n v hg; simp; omega
    refine ⟨?_, fun _ => ⟨⟨n, _, JsObj.get?_set_self _ _ _, by omega⟩, by simp [requestProcessEntry]⟩⟩
    intro k v hk
    simp only [requestProcessEntry] at hk
    rw [JsObj.get?_set] at hk
    split at hk
    · have : JsObj.getD0 q.requested n + c = v := Option.some.inj hk
      omega
    · exact hq.1 k v hk
  · intro q n c _ hq
    exact assignProcessEntry_flagSound q n c hq
  · intro q n c hq
    exact hq
  · intro q hq
    exact ⟨hq.1, fun hw => by simp at hw⟩
  · intro q hq
    exact ⟨hq.1, fun hw => ⟨(hq.2 hw).1, by simp⟩⟩
  · intro q hq
    exact ⟨hq.1, fun hw => ⟨(hq.2 hw).1, by simp⟩⟩
  · intro op hop c hc
    have := hops op hop
    simpa [Op.positive, hc] using this

/-- C17, the code at the failing input: after `earlyUnflagOps` process 1 still has its
request for R1 outstanding, but the grant of R2 has cleared its waiting flag and set its
state to `running`; when process 2 then releases R1, the wake-up scan passes process 1 over
and R1 stays free with the request still outstanding. -/
theorem grant_clears_flag_early :
    (run Simulator.fresh earlyUnflagOps).processes.map
        (fun p => (p.requested, p.waiting, p.state))
      = [([("R1", 1)], false, ProcState.running), ([], false, ProcState.running)] ∧
    (run Simulator.fresh (earlyUnflagOps ++ [Op.releaseResource 2 1 1])).processes.map
        (fun p => (p.requested, p.waiting, p.state))
      = [([("R1", 1)], false, ProcState.running), ([], false, ProcState.running)] ∧
    (run Simulator.fresh (earlyUnflagOps ++ [Op.releaseResource 2 1 1])).resources.map
        (fun r => (r.name, r.availableInstances, r.allocated))
      = [("R1", 1, []), ("R2", 0, [(1, 1)])] := by
  decide

/-! ## Requests with any count -/

theorem forall₂_updateFirst {α : Type} (R : α → α → Prop) (pred : α → Bool) (f : α → α)
    (hrefl : ∀ a, R a a) (hf : ∀ a, R a (f a)) (l : List α) :
    List.Forall₂ R l (updateFirst pred f l) := by
  induction l with
  | nil => simp [updateFirst]
  | cons a rest ih =>
    by_cases ha : pred a = true
    · simp only [updateFirst, ha, if_true]
      exact List.Forall₂.cons (hf a) (List.forall₂_same.mpr (fun x _ => hrefl x))
    · simp only [updateFirst, ha, Bool.false_eq_true, if_false]
      exact List.Forall₂.cons (hrefl a) ih

theorem assignResource_not_raising (t : Simulator) (a b : Nat) (c : Int) (hc : 0 ≤ c) :
    List.Forall₂
      (fun r r' : Resource => r'.availableInstances ≤ r.availableInstances ∧
        r'.totalInstances = r.totalInstances)
      t.resources (assignResource t a b c).2.resources := by
  have hsame : List.Forall₂
      (fun r r' : Resource => r'.availableInstances ≤ r.availableInstances ∧
        r'.totalInstances = r.totalInstances) t.resources t.resources :=
    List.forall₂_same.mpr (fun x _ => ⟨le_refl _, rfl⟩)
  unfold assignResource
  cases findProcess t a with
  | none => exact hsame
  | some p =>
    cases findResource t b with
    | none => exact hsame
    | some r =>
      simp only []
      split
      · exact hsame
      · refine forall₂_updateFirst _ _ _ (fun x => ⟨le_refl _, rfl⟩) (fun x => ⟨?_, rfl⟩) _
        simp only [assignResourceEntry]
        omega

theorem storedPositive_noNegative (s : Simulator)
    (h : ∀ p ∈ s.processes, p.storedPositive) : NoNegative s := by
  intro p hp k
  have hq := h p hp
  constructor
  · unfold JsObj.getD0
    cases hg : JsObj.get? p.allocated k with
    | none => simp
    | some v => have := hq.2 k v hg; simp; omega
  · unfold JsObj.getD0
    cases hg : JsObj.get? p.requested k with
    | none => simp
    | some v => have := hq.1 k v hg; simp; omega

theorem getD0_nonneg_of_stored (m : JsObj String Int)
    (h : ∀ k v, JsObj.get? m k = some v → 0 < v) (k : String) : 0 ≤ JsObj.getD0 m k := by
  unfold JsObj.getD0
  cases hg : JsObj.get? m k with
  | none => simp
  | some v => have := h k v hg; simp; omega

theorem assignProcessEntry_requested_stored (p : Process) (n : String) (c : Int)
    (h : ∀ k v, JsObj.get? p.requested k = some v → 0 < v) :
    ∀ k v, JsObj.get? (assignProcessEntry p n c).requested k = some v → 0 < v := by
  unfold assignProcessEntry
  simp only []
  cases hq : JsObj.get? p.requested n with
  | none => simp only []; split <;> exact h
  | some q =>
    simp only []
    by_cases h1 : q > 0
    · by_cases h2 : q - c ≤ 0
      · simp only [h1, h2, if_true, Bool.not_false]
        intro k v hk
        rw [JsObj.delete_set, JsObj.get?_delete] at hk
        split at hk
        · simp at hk
        · exact h k v hk
      · simp only [h1, h2, if_true, if_false]
        have hstored : ∀ k v, JsObj.get? (JsObj.set p.requested n (q - c)) k = some v → 0 < v := by
          intro k v hk
          rw [JsObj.get?_set] at hk
          split at hk
          · have : q - c = v := Option.some.inj hk
            omega
          · exact h k v hk
        split <;> exact hstored
    · exact absurd (h n q hq) h1

theorem run_storedPositive (ops : List Op) (hops : ∀ op ∈ ops, op.positive = true) :
    ∀ p ∈ (run Simulator.fresh ops).processes, p.storedPositive := by
  refine run_processes_forall Process.storedPositive (fun c => 0 < c) (fun c hc => hc)
    ?_ ?_ ?_ ?_ ?_ ?_ ?_ ops ?_
  · intro i n
    exact ⟨fun k v hk => by simp [JsObj.get?] at hk, fun k v hk => by simp [JsObj.get?] at hk⟩
  · intro q n c hc hq
    have hge := getD0_nonneg_of_stored q.requested hq.1 n
    refine ⟨?_, hq.2⟩
    intro k v hk
    simp only [requestProcessEntry] at hk
    rw [JsObj.get?_set] at hk
    split at hk
    · have : JsObj.getD0 q.requested n + c = v := Option.some.inj hk
      omega
    · exact hq.1 k v hk
  · intro q n c hc hq
    have hge := getD0_nonneg_of_stored q.allocated hq.2 n
    refine ⟨assignProcessEntry_requested_stored q n c hq.1, ?_⟩
    intro k v hk
    rw [assignProcessEntry_allocated, JsObj.get?_set] at hk
    split at hk
    · have : JsObj.getD0 q.allocated n + c = v := Option.some.inj hk
      omega
    · exact hq.2 k v hk
  · intro q n c hq
    refine ⟨hq.1, ?_⟩
    intro k v hk
    simp only [releaseProcessEntry] at hk
    split at hk
    · rw [JsObj.delete_set, JsObj.get?_delete] at hk
      split at hk
      · simp at hk
      · exact hq.2 k v hk
    · rw [JsObj.get?_set] at hk
      split at hk
      · have := Option.some.inj hk
        omega
      · exact hq.2 k v hk
  · intro q hq
    exact ⟨hq.1, fun k v hk => by simp [JsObj.get?] at hk⟩
  · intro q hq
    exact hq
  · intro q hq
    exact hq
  · intro op hop c hc
    have := hops op hop
    simpa [Op.positive, hc] using this

/-- C14, amended: `requestResource` does not check its count. For existing `p` and `r` with
`p` holding no instance of `r` the call returns true for every integer count, also zero and
negative ones. In a state reached by calls whose request and assign counts are positive no
process has a negative requested or allocated amount, and a request with a count of at least
zero raises no available count and changes no total. -/
theorem requestResource_unchecked_count (ops : List Op)
    (hops : ∀ op ∈ ops, op.positive = true) :
    NoNegative (run Simulator.fresh ops) ∧
    (∀ (processId resourceId : Nat) (p : Process) (r : Resource) (count : Int),
      findProcess (run Simulator.fresh ops) processId = some p →
      findResource (run Simulator.fresh ops) resourceId = some r →
      JsObj.getD0 p.allocated r.name ≤ 0 →
      (requestResource (run Simulator.fresh ops) processId resourceId count).1 = true) ∧
    ∀ (processId resourceId : Nat) (count : Int), 0 ≤ count →
      List.Forall₂
        (fun r r' : Resource => r'.availableInstances ≤ r.availableInstances ∧
          r'.totalInstances = r.totalInstances)
        (run Simulator.fresh ops).resources
        (requestResource (run Simulator.fresh ops) processId resourceId count).2.resources := by
  refine ⟨storedPositive_noNegative _ (run_storedPositive ops hops), ?_, ?_⟩
  · intro processId resourceId p r count hp hr hheld
    unfold requestResource
    simp only [hp, hr]
    have : ¬ JsObj.getD0 p.allocated r.name > 0 := by omega
    simp only [this, if_false]
    split <;> rfl
  · intro processId resourceId count hc
    have hsame : ∀ l : List Resource, List.Forall₂
        (fun r r' : Resource => r'.availableInstances ≤ r.availableInstances ∧
          r'.totalInstances = r.totalInstances) l l :=
      fun l => List.forall₂_same.mpr (fun x _ => ⟨le_refl _, rfl⟩)
    unfold requestResource
    cases findProcess (run Simulator.fresh ops) processId with
    | none => exact hsame _
    | some p =>
      cases findResource (run Simulator.fresh ops) resourceId with
      | none => exact hsame _
      | some r =>
        simp only []
        split
        · exact hsame _
        · split
          · exact assignResource_not_raising
              (requestLedger (run Simulator.fresh ops) processId r count) processId resourceId
              count hc
          · exact hsame _

theorem requestResource_unchecked_count_witness :
    (∀ op ∈ twoByTwoOps, op.positive = true) ∧
    NoNegative (run Simulator.fresh twoByTwoOps) ∧
    (∀ (processId resourceId : Nat) (p : Process) (r : Resource) (count : Int),
      findProcess (run Simulator.fresh twoByTwoOps) processId = some p →
      findResource (run Simulator.fresh twoByTwoOps) resourceId = some r →
      JsObj.getD0 p.allocated r.name ≤ 0 →
      (requestResource (run Simulator.fresh twoByTwoOps) processId resourceId count).1 = true) ∧
    ∀ (processId resourceId : Nat) (count : Int), 0 ≤ count →
      List.Forall₂
        (fun r r' : Resource => r'.availableInstances ≤ r.availableInstances ∧
          r'.totalInstances = r.totalInstances)
        (run Simulator.fresh twoByTwoOps).resources
        (requestResource (run Simulator.fresh twoByTwoOps) processId resourceId
          count).2.resources :=
  ⟨by decide, requestResource_unchecked_count twoByTwoOps (by decide)⟩

/-- C14, as stated, fails: in `idleState` (P1 and R1 with 2 free instances)
`requestResource(1, 1, -1)` returns true and leaves P1 with requested and allocated amounts
of -1 and R1 with 3 available instances out of 2. -/
theorem requestResource_negative_counterexample :
    (requestResource idleState 1 1 (-1)).1 = true ∧
    (requestResource idleState 1 1 (-1)).2.processes.map
        (fun p => (p.requested, p.allocated)) = [([("R1", -1)], [("R1", -1)])] ∧
    (requestResource idleState 1 1 (-1)).2.resources.map
        (fun r => (r.availableInstances, r.totalInstances)) = [(3, 2)] := by
  decide

/-! ## Identifiers handed out by a sequence of calls -/

theorem getLast?_map_of_append {α β : Type} (f : α → β) (l : List α) (m : List β) (b : β)
    (h : l.map f = m ++ [b]) : l.getLast?.map f = some b := by
  have h1 : (l.map f).getLast? = some b := by rw [h]; simp
  rw [← h1]
  induction l using List.reverseRecOn with
  | nil => rfl
  | append_singleton xs x _ => simp

theorem issuedProcessId_addProcess (s : Simulator) (name : String) :
    issuedProcessId s (Call.op (Op.addProcess name)) = some s.nextProcessId := by
  have h := step_idShape_exact s (Op.addProcess name)
  have h1 : (addProcess s name).processes.map Process.id
      = s.processes.map Process.id ++ [s.nextProcessId] := congrArg Prod.fst h
  exact getLast?_map_of_append Process.id _ _ _ h1

theorem issuedResourceId_addResource (s : Simulator) (name : String) (n : Int) :
    issuedResourceId s (Call.op (Op.addResource name n)) = some s.nextResourceId := by
  have h := step_idShape_exact s (Op.addResource name n)
  have h1 : (addResource s name n).resources.map Resource.id
      = s.resources.map Resource.id ++ [s.nextResourceId] :=
    congrArg (fun x => x.2.1) h
  exact getLast?_map_of_append Resource.id _ _ _ h1

theorem issuedProcessIds_fresh (ops : List Op) :
    ∀ s : Simulator, (issuedProcessIds s (ops.map Call.op)).Nodup ∧
      ∀ x ∈ issuedProcessIds s (ops.map Call.op), s.nextProcessId ≤ x := by
  induction ops with
  | nil => intro s; simp [issuedProcessIds]
  | cons op rest ih =>
    intro s
    have hrec := ih (step s op)
    have hshape := step_idShape_exact s op
    simp only [List.map_cons, issuedProcessIds, stepCall]
    cases op with
    | addProcess name =>
      have hnext : (step s (Op.addProcess name)).nextProcessId = s.nextProcessId + 1 :=
        congrArg (fun x => x.2.2.1) hshape
      rw [issuedProcessId_addProcess]
      simp only [Option.toList, List.singleton_append, List.nodup_cons, List.mem_cons]
      refine ⟨⟨fun hmem => ?_, hrec.1⟩, fun x hx => ?_⟩
      · have := hrec.2 _ hmem
        omega
      · rcases hx with rfl | hx
        · exact le_refl _
        · have := hrec.2 _ hx
          omega
    | addResource name n =>
      have hnext : (step s (Op.addResource name n)).nextProcessId = s.nextProcessId :=
        congrArg (fun x => x.2.2.1) hshape
      simp only [issuedProcessId, Option.toList, List.nil_append]
      exact ⟨hrec.1, fun x hx => by have := hrec.2 x hx; omega⟩
    | requestResource a b c =>
      have hnext : (step s (Op.requestResource a b c)).nextProcessId = s.nextProcessId :=
        congrArg (fun x => x.2.2.1) hshape
      simp only [issuedProcessId, Option.toList, List.nil_append]
      exact ⟨hrec.1, fun x hx => by have := hrec.2 x hx; omega⟩
    | assignResource a b c =>
      have hnext : (step s (Op.assignResource a b c)).nextProcessId = s.nextProcessId :=
        congrArg (fun x => x.2.2.1) hshape
      simp only [issuedProcessId, Option.toList, List.nil_append]
      exact ⟨hrec.1, fun x hx => by have := hrec.2 x hx; omega⟩
    | releaseResource a b c =>
      have hnext : (step s (Op.releaseResource a b c)).nextProcessId = s.nextProcessId :=
        congrArg (fun x => x.2.2.1) hshape
      simp only [issuedProcessId, Option.toList, List.nil_append]
      exact ⟨hrec.1, fun x hx => by have := hrec.2 x hx; omega⟩
    | releaseAllResources a =>
      have hnext : (step s (Op.releaseAllResources a)).nextProcessId = s.nextProcessId :=
        congrArg (fun x => x.2.2.1) hshape
      simp only [issuedProcessId, Option.toList, List.nil_append]
      exact ⟨hrec.1, fun x hx => by have := hrec.2 x hx; omega⟩
    | detectDeadlock =>
      have hnext : (step s Op.detectDeadlock).nextProcessId = s.nextProcessId :=
        congrArg (fun x => x.2.2.1) hshape
      simp only [issuedProcessId, Option.toList, List.nil_append]
      exact ⟨hrec.1, fun x hx => by have := hrec.2 x hx; omega⟩

theorem issuedResourceIds_fresh (ops : List Op) :
    ∀ s : Simulator, (issuedResourceIds s (ops.map Call.op)).Nodup ∧
      ∀ x ∈ issuedResourceIds s (ops.map Call.op), s.nextResourceId ≤ x := by
  induction ops with
  | nil => intro s; simp [issuedResourceIds]
  | cons op rest ih =>
    intro s
    have hrec := ih (step s op)
    have hshape := step_idShape_exact s op
    simp only [List.map_cons, issuedResourceIds, stepCall]
    cases op with
    | addResource name n =>
      have hnext : (step s (Op.addResource name n)).nextResourceId = s.nextResourceId + 1 :=
        congrArg (fun x => x.2.2.2) hshape
      rw [issuedResourceId_addResource]
      simp only [Option.toList, List.singleton_append, List.nodup_cons, List.mem_cons]
      refine ⟨⟨fun hmem => ?_, hrec.1⟩, fun x hx => ?_⟩
      · have := hrec.2 _ hmem
        omega
      · rcases hx with rfl | hx
        · exact le_refl _
        · have := hrec.2 _ hx
          omega
    | addProcess name =>
      have hnext : (step s (Op.addProcess name)).nextResourceId = s.nextResourceId :=
        congrArg (fun x => x.2.2.2) hshape
      simp only [issuedResourceId, Option.toList, List.nil_append]
      exact ⟨hrec.1, fun x hx => by have := hrec.2 x hx; omega⟩
    | requestResource a b c =>
      have hnext : (step s (Op.requestResource a b c)).nextResourceId = s.nextResourceId :=
        congrArg (fun x => x.2.2.2) hshape
      simp only [issuedResourceId, Option.toList, List.nil_append]
      exact ⟨hrec.1, fun x hx => by have := hrec.2 x hx; omega⟩
    | assignResource a b c =>
      have hnext : (step s (Op.assignResource a b c)).nextResourceId = s.nextResourceId :=
        congrArg (fun x => x.2.2.2) hshape
      simp only [issuedResourceId, Option.toList, List.nil_append]
      exact ⟨hrec.1, fun x hx => by have := hrec.2 x hx; omega⟩
    | releaseResource a b c =>
      have hnext : (step s (Op.releaseResource a b c)).nextResourceId = s.nextResourceId :=
        congrArg (fun x => x.2.2.2) hshape
      simp only [issuedResourceId, Option.toList, List.nil_append]
      exact ⟨hrec.1, fun x hx => by have := hrec.2 x hx; omega⟩
    | releaseAllResources a =>
      have hnext : (step s (Op.releaseAllResources a)).nextResourceId = s.nextResourceId :=
        congrArg (fun x => x.2.2.2) hshape
      simp only [issuedResourceId, Option.toList, List.nil_append]
      exact ⟨hrec.1, fun x hx => by have := hrec.2 x hx; omega⟩
    | detectDeadlock =>
      have hnext : (step s Op.detectDeadlock).nextResourceId = s.nextResourceId :=
        congrArg (fun x => x.2.2.2) hshape
      simp only [issuedResourceId, Option.toList, List.nil_append]
      exact ⟨hrec.1, fun x hx => by have := hrec.2 x hx; omega⟩

/-- C16, amended: over any sequence of addProcess, addResource, request, assign, release,
releaseAll and detect calls on one Simulator in which `resetSimulation` is not called, the id
given to a newly created process differs from the id given to every process created earlier,
and likewise for resource ids. -/
theorem ids_not_reused_without_reset (ops : List Op) :
    (issuedProcessIds Simulator.fresh (ops.map Call.op)).Nodup ∧
    (issuedResourceIds Simulator.fresh (ops.map Call.op)).Nodup :=
  ⟨(issuedProcessIds_fresh ops Simulator.fresh).1,
    (issuedResourceIds_fresh ops Simulator.fresh).1⟩

/-- C16, as stated, fails: `resetSimulation` sets both counters back to 1, so the process and
the resource created after it get the ids of the ones created before it. -/
theorem ids_reused_after_reset_counterexample :
    issuedProcessIds Simulator.fresh
        [Call.op (Op.addProcess "P1"), Call.op (Op.addResource "R1" 1), Call.resetSimulation,
          Call.op (Op.addProcess "P2"), Call.op (Op.addResource "R2" 1)] = [1, 1] ∧
    issuedResourceIds Simulator.fresh
        [Call.op (Op.addProcess "P1"), Call.op (Op.addResource "R1" 1), Call.resetSimulation,
          Call.op (Op.addProcess "P2"), Call.op (Op.addResource "R2" 1)] = [1, 1] := by
  decide

/-! ## The edges of buildGraph -/

theorem mem_keys_of_get? {κ α : Type} [DecidableEq κ] (m : JsObj κ α) (k : κ) (v : α)
    (h : JsObj.get? m k = some v) : k ∈ JsObj.keys m := by
  by_contra hk
  rw [← JsObj.get?_eq_none_iff] at hk
  rw [hk] at h
  exact Option.noConfusion h

theorem mem_allocationEdges (s : Simulator) (r : Resource) (e : Edge) :
    e ∈ allocationEdges s r ↔
      ∃ pid c p, JsObj.get? r.allocated pid = some c ∧ 0 < c ∧ findProcess s pid = some p ∧
        e = ⟨r.name, p.name, EdgeType.allocation, c⟩ := by
  unfold allocationEdges
  rw [List.mem_filterMap]
  constructor
  · rintro ⟨pid, _, hf⟩
    cases hg : JsObj.get? r.allocated pid with
    | none => simp [hg] at hf
    | some c =>
      by_cases hc : c > 0
      · cases hp : s.processes.find? (fun p => p.id == pid) with
        | none => simp [hg, hc, hp] at hf
        | some p =>
          simp only [hg, hc, hp, if_true, Option.some.injEq] at hf
          exact ⟨pid, c, p, hg, hc, hp, hf.symm⟩
      · simp [hg, hc] at hf
  · rintro ⟨pid, c, p, hg, hc, hp, rfl⟩
    refine ⟨pid, mem_keys_of_get? _ _ _ hg, ?_⟩
    have hp' : s.processes.find? (fun p => p.id == pid) = some p := hp
    have hc' : c > 0 := hc
    simp only [hg, hc', hp', if_true]

theorem mem_requestEdges (p : Process) (e : Edge) :
    e ∈ requestEdges p ↔
      ∃ n c, JsObj.get? p.requested n = some c ∧ 0 < c ∧
        e = ⟨p.name, n, EdgeType.request, c⟩ := by
  unfold requestEdges
  rw [List.mem_filterMap]
  constructor
  · rintro ⟨n, _, hf⟩
    cases hg : JsObj.get? p.requested n with
    | none => simp [hg] at hf
    | some c =>
      by_cases hc : c > 0
      · simp only [hg, hc, if_true, Option.some.injEq] at hf
        exact ⟨n, c, hg, hc, hf.symm⟩
      · simp [hg, hc] at hf
  · rintro ⟨n, c, hg, hc, rfl⟩
    refine ⟨n, mem_keys_of_get? _ _ _ hg, ?_⟩
    have hc' : c > 0 := hc
    simp only [hg, hc', if_true]

theorem mem_buildGraph_edges (s : Simulator) (e : Edge) :
    e ∈ (buildGraph s).edges ↔
      (∃ r ∈ s.resources, ∃ pid c p, JsObj.get? r.allocated pid = some c ∧ 0 < c ∧
        findProcess s pid = some p ∧ e = ⟨r.name, p.name, EdgeType.allocation, c⟩) ∨
      (∃ p ∈ s.processes, ∃ n c, JsObj.get? p.requested n = some c ∧ 0 < c ∧
        e = ⟨p.name, n, EdgeType.request, c⟩) := by
  unfold buildGraph
  simp only [List.mem_append, List.mem_flatten, List.mem_map]
  constructor
  · rintro (⟨l, ⟨r, hr, rfl⟩, he⟩ | ⟨l, ⟨p, hp, rfl⟩, he⟩)
    · exact Or.inl ⟨r, hr, (mem_allocationEdges s r e).mp he⟩
    · exact Or.inr ⟨p, hp, (mem_requestEdges p e).mp he⟩
  · rintro (⟨r, hr, h⟩ | ⟨p, hp, h⟩)
    · exact Or.inl ⟨_, ⟨r, hr, rfl⟩, (mem_allocationEdges s r e).mpr h⟩
    · exact Or.inr ⟨_, ⟨p, hp, rfl⟩, (mem_requestEdges p e).mpr h⟩

theorem nodup_flatten_map {α β κ : Type} (f : α → List β) (g : α → κ) (tag : β → κ)
    (l : List α) (hnd : (l.map g).Nodup) (hf : ∀ a ∈ l, (f a).Nodup)
    (htag : ∀ a, ∀ b ∈ f a, tag b = g a) : ((l.map f).flatten).Nodup := by
  rw [List.nodup_flatten]
  constructor
  · intro l' hl'
    obtain ⟨a, ha, rfl⟩ := List.mem_map.mp hl'
    exact hf a ha
  · rw [List.pairwise_map]
    have h := List.pairwise_map.mp hnd
    refine h.imp ?_
    intro a b hab x hxa hxb
    exact hab ((htag a x hxa).symm.trans (htag b x hxb))

theorem assignProcessEntry_requested_keys (p : Process) (n : String) (c : Int)
    (h : (JsObj.keys p.requested).Nodup) :
    (JsObj.keys (assignProcessEntry p n c).requested).Nodup := by
  unfold assignProcessEntry
  simp only []
  cases hq : JsObj.get? p.requested n with
  | none => simp only []; split <;> exact h
  | some q =>
    simp only []
    by_cases h1 : q > 0
    · by_cases h2 : q - c ≤ 0
      · simp only [h1, h2, if_true, Bool.not_false]
        exact JsObj.keys_delete_nodup _ _ (JsObj.keys_set_nodup _ _ _ h)
      · simp only [h1, h2, if_true, if_false]
        split <;> exact JsObj.keys_set_nodup _ _ _ h
    · simp only [h1, if_false]
      split <;> exact h

theorem run_requested_keys (ops : List Op) :
    ∀ p ∈ (run Simulator.fresh ops).processes, (JsObj.keys p.requested).Nodup := by
  refine run_processes_forall (fun p => (JsObj.keys p.requested).Nodup) (fun _ => True)
    (fun _ _ => trivial) ?_ ?_ ?_ ?_ ?_ ?_ ?_ ops (fun _ _ _ _ => trivial)
  · intro i n
    exact List.nodup_nil
  · intro q n c _ hq
    exact JsObj.keys_set_nodup _ _ _ hq
  · intro q n c _ hq
    exact assignProcessEntry_requested_keys q n c hq
  · intro q n c hq
    exact hq
  · intro q hq
    exact hq
  · intro q hq
    exact hq
  · intro q hq
    exact hq

theorem run_allocated_keys (ops : List Op) :
    ∀ r ∈ (run Simulator.fresh ops).resources, (JsObj.keys r.allocated).Nodup := by
  refine run_resources_forall (fun r => (JsObj.keys r.allocated).Nodup) (fun _ => True)
    ?_ ?_ ?_ ops (fun _ _ _ _ _ => trivial)
  · intro i nm n _
    exact List.nodup_nil
  · intro r a c hr
    exact JsObj.keys_set_nodup _ _ _ hr
  · intro r a c hr
    exact JsObj.keys_lowered_nodup _ _ _ hr

theorem allocationEdges_nodup (s : Simulator) (r : Resource)
    (hnames : (s.processes.map Process.name).Nodup)
    (hkeys : (JsObj.keys r.allocated).Nodup) : (allocationEdges s r).Nodup := by
  unfold allocationEdges
  refine List.Nodup.filterMap ?_ hkeys
  intro pid pid' e he he'
  cases hg : JsObj.get? r.allocated pid with
  | none => simp [hg] at he
  | some c =>
    cases hg' : JsObj.get? r.allocated pid' with
    | none => simp [hg'] at he'
    | some c' =>
      by_cases hc : c > 0
      · by_cases hc' : c' > 0
        · cases hp : s.processes.find? (fun p => p.id == pid) with
          | none => simp [hg, hc, hp] at he
          | some p =>
            cases hp' : s.processes.find? (fun p => p.id == pid') with
            | none => simp [hg', hc', hp'] at he'
            | some p' =>
              simp only [hg, hc, hp, if_true, Option.mem_def, Option.some.injEq] at he
              simp only [hg', hc', hp', if_true, Option.mem_def, Option.some.injEq] at he'
              have hn : p.name = p'.name := by
                have := congrArg Edge.to_ (he.trans he'.symm)
                exact this
              have hmem : p ∈ s.processes := List.mem_of_find?_eq_some hp
              have hmem' : p' ∈ s.processes := List.mem_of_find?_eq_some hp'
              have heq : p = p' :=
                eq_of_mem_of_key_eq Process.name s.processes hnames p p' hmem hmem' hn
              have h1 : p.id = pid := findProcess_id hp
              have h2 : p'.id = pid' := findProcess_id hp'
              rw [← h1, ← h2, heq]
        · simp [hg', hc'] at he'
      · simp [hg, hc] at he

theorem requestEdges_nodup (p : Process) (hkeys : (JsObj.keys p.requested).Nodup) :
    (requestEdges p).Nodup := by
  unfold requestEdges
  refine List.Nodup.filterMap ?_ hkeys
  intro n n' e he he'
  cases hg : JsObj.get? p.requested n with
  | none => simp [hg] at he
  | some c =>
    cases hg' : JsObj.get? p.requested n' with
    | none => simp [hg'] at he'
    | some c' =>
      by_cases hc : c > 0
      · by_cases hc' : c' > 0
        · simp only [hg, hc, if_true, Option.mem_def, Option.some.injEq] at he
          simp only [hg', hc', if_true, Option.mem_def, Option.some.injEq] at he'
          exact congrArg Edge.to_ (he.trans he'.symm)
        · simp [hg', hc'] at he'
      · simp [hg, hc] at he

/-- C22, amended: in every state reached from a fresh simulator, whatever the names, the
edge list of `buildGraph` contains an allocation edge from resource `r` to process `p` with
count `c` exactly when `r.allocated[p.id] == c > 0` and `p` exists, and a request edge from
process `p` to resource name `n` with count `c` exactly when `p.requested[n] == c > 0`, and
no other edge; and in those of these states in which the process names are pairwise
distinct and the resource names are pairwise distinct, no edge appears twice. -/
theorem buildGraph_exact_view (ops : List Op) :
    (∀ e : Edge, e ∈ (buildGraph (run Simulator.fresh ops)).edges ↔
      (∃ r ∈ (run Simulator.fresh ops).resources, ∃ p ∈ (run Simulator.fresh ops).processes,
        ∃ c, JsObj.get? r.allocated p.id = some c ∧ 0 < c ∧
          e = ⟨r.name, p.name, EdgeType.allocation, c⟩) ∨
      (∃ p ∈ (run Simulator.fresh ops).processes, ∃ n c,
        JsObj.get? p.requested n = some c ∧ 0 < c ∧ e = ⟨p.name, n, EdgeType.request, c⟩)) ∧
    (((run Simulator.fresh ops).processes.map Process.name).Nodup →
      ((run Simulator.fresh ops).resources.map Resource.name).Nodup →
      (buildGraph (run Simulator.fresh ops)).edges.Nodup) := by
  have hids := (uniqueIds_of_run ops).1
  constructor
  · intro e
    rw [mem_buildGraph_edges]
    constructor
    · rintro (⟨r, hr, pid, c, p, hg, hc, hp, he⟩ | h)
      · have hpid : p.id = pid := findProcess_id hp
        refine Or.inl ⟨r, hr, p, List.mem_of_find?_eq_some hp, c, ?_, hc, he⟩
        rw [hpid]; exact hg
      · exact Or.inr h
    · rintro (⟨r, hr, p, hp, c, hg, hc, he⟩ | h)
      · exact Or.inl ⟨r, hr, p.id, c, p, hg, hc, findProcess_of_mem _ hids.1 p hp, he⟩
      · exact Or.inr h
  · intro hprocs hres
    unfold buildGraph
    simp only []
    rw [List.nodup_append]
    refine ⟨?_, ?_, ?_⟩
    · refine nodup_flatten_map (allocationEdges (run Simulator.fresh ops)) Resource.name
        Edge.from_ _ hres ?_ ?_
      · intro r hr
        exact allocationEdges_nodup _ r hprocs (run_allocated_keys ops r hr)
      · intro r e he
        obtain ⟨pid, c, p, _, _, _, rfl⟩ := (mem_allocationEdges _ r e).mp he
        rfl
    · refine nodup_flatten_map requestEdges Process.name Edge.from_ _ hprocs ?_ ?_
      · intro p hp
        exact requestEdges_nodup p (run_requested_keys ops p hp)
      · intro p e he
        obtain ⟨n, c, _, _, rfl⟩ := (mem_requestEdges p e).mp he
        rfl
    · intro e h1 h2
      simp only [List.mem_flatten, List.mem_map] at h1 h2
      obtain ⟨l, ⟨r, _, rfl⟩, he⟩ := h1
      obtain ⟨l', ⟨p, _, rfl⟩, he'⟩ := h2
      obtain ⟨pid, c, q, _, _, _, h⟩ := (mem_allocationEdges _ r e).mp he
      obtain ⟨n, c', _, _, h'⟩ := (mem_requestEdges p e).mp he'
      have := congrArg Edge.type (h.symm.trans h')
      exact EdgeType.noConfusion this

theorem buildGraph_exact_view_witness :
    ((run Simulator.fresh sameNameOps).processes.map Process.name
        = ["P", "P", "Q"]) ∧
    (∀ e : Edge, e ∈ (buildGraph (run Simulator.fresh sameNameOps)).edges ↔
      (∃ r ∈ (run Simulator.fresh sameNameOps).resources,
        ∃ p ∈ (run Simulator.fresh sameNameOps).processes,
        ∃ c, JsObj.get? r.allocated p.id = some c ∧ 0 < c ∧
          e = ⟨r.name, p.name, EdgeType.allocation, c⟩) ∨
      (∃ p ∈ (run Simulator.fresh sameNameOps).processes, ∃ n c,
        JsObj.get? p.requested n = some c ∧ 0 < c ∧ e = ⟨p.name, n, EdgeType.request, c⟩)) ∧
    ((run Simulator.fresh twoByTwoOps).processes.map Process.name).Nodup ∧
    ((run Simulator.fresh twoByTwoOps).resources.map Resource.name).Nodup ∧
    (buildGraph (run Simulator.fresh twoByTwoOps)).edges.Nodup :=
  ⟨by decide, (buildGraph_exact_view sameNameOps).1, by decide, by decide,
    (buildGraph_exact_view twoByTwoOps).2 (by decide) (by decide)⟩

/-- C22, as stated, fails: after `sameNameOps` two processes named P both wait for R1, and
the request edge from P to R1 with count 1 is in the edge list twice. -/
theorem duplicate_edge_counterexample :
    (buildGraph (run Simulator.fresh sameNameOps)).edges
      = [⟨"R1", "Q", EdgeType.allocation, 1⟩, ⟨"P", "R1", EdgeType.request, 1⟩,
          ⟨"P", "R1", EdgeType.request, 1⟩] ∧
    ¬ (buildGraph (run Simulator.fresh sameNameOps)).edges.Nodup := by
  decide

/-! ## Order of the edges -/

theorem precedes_blocked {κ : Type} [JsKey κ] (k k' e : κ)
    (h1 : JsObj.precedes k e = true) (h2 : JsObj.precedes k' e = false) :
    JsObj.precedes k' k = false := by
  unfold JsObj.precedes at *
  cases hk : JsKey.arrayIndex k with
  | none => simp [hk] at h1
  | some n =>
    cases hk' : JsKey.arrayIndex k' with
    | none => rfl
    | some j =>
      cases he : JsKey.arrayIndex e with
      | none => simp [hk', he] at h2
      | some m =>
        simp only [hk, he, decide_eq_true_eq] at h1
        simp only [hk', he, decide_eq_false_iff_not] at h2
        simp only [decide_eq_false_iff_not]
        omega

theorem precedes_asymm {κ : Type} [JsKey κ] (k e : κ) (h : JsObj.precedes k e = true) :
    JsObj.precedes e k = false := by
  unfold JsObj.precedes at *
  cases hk : JsKey.arrayIndex k with
  | none => simp [hk] at h
  | some n =>
    cases he : JsKey.arrayIndex e with
    | none => rfl
    | some m =>
      simp only [hk, he, decide_eq_true_eq] at h
      simp only [decide_eq_false_iff_not]
      omega

theorem keyOrdered_insertNew {κ α : Type} [JsKey κ] (m : JsObj κ α) (k : κ) (v : α)
    (h : KeyOrdered (JsObj.keys m)) : KeyOrdered (JsObj.keys (JsObj.insertNew k v m)) := by
  induction m with
  | nil => simp [JsObj.insertNew, JsObj.keys, KeyOrdered]
  | cons e rest ih =>
    have h' : (∀ k' ∈ JsObj.keys rest, JsObj.precedes k' e.1 = false) ∧
        KeyOrdered (JsObj.keys rest) := by
      simpa [KeyOrdered, JsObj.keys] using h
    by_cases hp : JsObj.precedes k e.1 = true
    · have hgoal : KeyOrdered (k :: JsObj.keys (e :: rest)) := by
        refine List.Pairwise.cons ?_ h
        intro k' hk'
        have hk'' : k' = e.1 ∨ k' ∈ JsObj.keys rest := by
          simpa [JsObj.keys] using hk'
        rcases hk'' with rfl | hk''
        · exact precedes_asymm k _ hp
        · exact precedes_blocked k k' e.1 hp (h'.1 k' hk'')
      simpa [JsObj.insertNew, hp, JsObj.keys] using hgoal
    · have hp' : JsObj.precedes k e.1 = false := by simpa using hp
      have hgoal : KeyOrdered (e.1 :: JsObj.keys (JsObj.insertNew k v rest)) := by
        refine List.Pairwise.cons ?_ (ih h'.2)
        intro k' hk'
        have := (JsObj.keys_insertNew_perm rest k v).subset hk'
        rcases List.mem_cons.mp this with rfl | hmem
        · exact hp'
        · exact h'.1 k' hmem
      simpa [JsObj.insertNew, hp, JsObj.keys] using hgoal

theorem keyOrdered_set {κ α : Type} [DecidableEq κ] [JsKey κ] (m : JsObj κ α) (k : κ) (v : α)
    (h : KeyOrdered (JsObj.keys m)) : KeyOrdered (JsObj.keys (JsObj.set m k v)) := by
  unfold JsObj.set
  cases hk : JsObj.get? m k with
  | some w =>
    simp only []
    rw [JsObj.keys_replace]
    exact h
  | none => exact keyOrdered_insertNew m k v h

theorem keyOrdered_delete {κ α : Type} [DecidableEq κ] [JsKey κ] (m : JsObj κ α) (k : κ)
    (h : KeyOrdered (JsObj.keys m)) : KeyOrdered (JsObj.keys (JsObj.delete m k)) := by
  unfold JsObj.delete JsObj.keys
  exact List.Pairwise.sublist (List.Sublist.map _ (List.filter_sublist _)) h

theorem run_allocated_keyOrdered (ops : List Op) :
    ∀ r ∈ (run Simulator.fresh ops).resources, KeyOrdered (JsObj.keys r.allocated) := by
  refine run_resources_forall (fun r => KeyOrdered (JsObj.keys r.allocated)) (fun _ => True)
    ?_ ?_ ?_ ops (fun _ _ _ _ _ => trivial)
  · intro i nm n _
    exact List.Pairwise.nil
  · intro r a c hr
    exact keyOrdered_set _ _ _ hr
  · intro r a c hr
    simp only [releaseResourceEntry]
    split
    · exact keyOrdered_delete _ _ (keyOrdered_set _ _ _ hr)
    · exact keyOrdered_set _ _ _ hr

theorem insertNew_of_not_index {κ α : Type} [JsKey κ] (m : JsObj κ α) (k : κ) (v : α)
    (hk : JsKey.arrayIndex k = none) : JsObj.insertNew k v m = m ++ [(k, v)] := by
  induction m with
  | nil => rfl
  | cons e rest ih =>
    have hp : JsObj.precedes k e.1 = false := by
      unfold JsObj.precedes
      rw [hk]
    simp [JsObj.insertNew, hp, ih]

theorem requestEdges_append (p : Process) (n : String) (c : Int)
    (hn : stringArrayIndex n = none) (hnew : JsObj.get? p.requested n = none) (hc : 0 < c) :
    requestEdges (requestProcessEntry p n c)
      = requestEdges p ++ [⟨p.name, n, EdgeType.request, c⟩] := by
  have hset : JsObj.set p.requested n (JsObj.getD0 p.requested n + c)
      = p.requested ++ [(n, c)] := by
    have h0 : JsObj.getD0 p.requested n = 0 := by simp [JsObj.getD0, hnew]
    unfold JsObj.set
    rw [hnew, h0]
    simp only [zero_add]
    exact insertNew_of_not_index p.requested n c hn
  have hget : ∀ k, JsObj.get? (p.requested ++ [(n, c)]) k
      = if n = k then some c else JsObj.get? p.requested k := by
    intro k
    rw [← hset, JsObj.get?_set]
    by_cases hk : n = k
    · simp only [hk, if_true]
      subst hk
      simp [JsObj.getD0, hnew]
    · simp only [hk, if_false]
  unfold requestEdges requestProcessEntry
  simp only [hset, JsObj.keys, List.map_append, List.map_cons, List.map_nil,
    List.filterMap_append]
  congr 1
  · apply List.filterMap_congr
    intro k hk
    have hne : n ≠ k := by
      intro h
      subst h
      exact (JsObj.get?_eq_none_iff p.requested n).mp hnew hk
    rw [hget k]
    simp only [hne, if_false]
  · have hc' : c > 0 := hc
    simp [hget n, hc']

theorem assignProcessEntry_requested_keyOrdered (p : Process) (n : String) (c : Int)
    (h : KeyOrdered (JsObj.keys p.requested)) :
    KeyOrdered (JsObj.keys (assignProcessEntry p n c).requested) := by
  unfold assignProcessEntry
  simp only []
  cases hq : JsObj.get? p.requested n with
  | none => simp only []; split <;> exact h
  | some q =>
    simp only []
    by_cases h1 : q > 0
    · by_cases h2 : q - c ≤ 0
      · simp only [h1, h2, if_true, Bool.not_false]
        exact keyOrdered_delete _ _ (keyOrdered_set _ _ _ h)
      · simp only [h1, h2, if_true, if_false]
        split <;> exact keyOrdered_set _ _ _ h
    · simp only [h1, if_false]
      split <;> exact h

theorem run_requested_keyOrdered (ops : List Op) :
    ∀ p ∈ (run Simulator.fresh ops).processes, KeyOrdered (JsObj.keys p.requested) := by
  refine run_processes_forall (fun p => KeyOrdered (JsObj.keys p.requested)) (fun _ => True)
    (fun _ _ => trivial) ?_ ?_ ?_ ?_ ?_ ?_ ?_ ops (fun _ _ _ _ => trivial)
  · intro i n
    exact List.Pairwise.nil
  · intro q n c _ hq
    exact keyOrdered_set _ _ _ hq
  · intro q n c _ hq
    exact assignProcessEntry_requested_keyOrdered q n c hq
  · intro q n c hq
    exact hq
  · intro q hq
    exact hq
  · intro q hq
    exact hq
  · intro q hq
    exact hq

theorem requestEdges_numerals_first (p : Process)
    (hord : KeyOrdered (JsObj.keys p.requested)) (hnd : (JsObj.keys p.requested).Nodup) :
    (requestEdges p).Pairwise (fun e e' => e.to_ ≠ e'.to_ ∧
      ∀ m, stringArrayIndex e'.to_ = some m →
        ∃ n, stringArrayIndex e.to_ = some n ∧ n ≤ m) := by
  have hboth : (JsObj.keys p.requested).Pairwise
      (fun k k' => JsObj.precedes k' k = false ∧ k ≠ k') := hord.and hnd
  unfold requestEdges
  refine List.Pairwise.filterMap _ ?_ hboth
  intro k k' hR e he e' he'
  cases hg : JsObj.get? p.requested k with
  | none => simp [hg] at he
  | some c =>
    cases hg' : JsObj.get? p.requested k' with
    | none => simp [hg'] at he'
    | some c' =>
      by_cases hc : c > 0
      · by_cases hc' : c' > 0
        · simp only [hg, hc, if_true, Option.mem_def, Option.some.injEq] at he
          simp only [hg', hc', if_true, Option.mem_def, Option.some.injEq] at he'
          rw [← he, ← he']
          refine ⟨hR.2, ?_⟩
          intro m hm
          have hprec := hR.1
          unfold JsObj.precedes at hprec
          have hm' : JsKey.arrayIndex k' = some m := hm
          rw [hm'] at hprec
          cases hk : JsKey.arrayIndex k with
          | none => simp [hk] at hprec
          | some n =>
            simp only [hk, decide_eq_false_iff_not] at hprec
            exact ⟨n, hk, by omega⟩
        · simp [hg', hc'] at he'
      · simp [hg, hc] at he

/-- C23, amended: the edge list of `buildGraph` is a function of the lists of processes and
resources, and lists the edges in `Object.keys` order of the underlying maps. In a reachable
state whose process ids are all array indices (below 2^32 - 1): the allocation edges of every
resource appear in ascending order of the id of the process they point to, which is the order
of creation of the processes and not the order in which they acquired the resource; of any
two request edges of a process, to different names, if the later one goes to a name that is
an array index then so does the earlier one, to a numerically smaller index, so that the
names that are numerals come first, in ascending numeric order; and a first request of a
process for a resource whose name is not an array index puts its request edge after the
request edges that the process already has. -/
theorem edges_in_key_order (ops : List Op)
    (hbound : (run Simulator.fresh ops).nextProcessId ≤ 4294967295) :
    (∀ t : Simulator, t.processes = (run Simulator.fresh ops).processes →
      t.resources = (run Simulator.fresh ops).resources →
      (buildGraph t).edges = (buildGraph (run Simulator.fresh ops)).edges) ∧
    (∀ r ∈ (run Simulator.fresh ops).resources,
      (allocationEdges (run Simulator.fresh ops) r).Pairwise (fun e e' =>
        ∃ p ∈ (run Simulator.fresh ops).processes, ∃ q ∈ (run Simulator.fresh ops).processes,
          e.to_ = p.name ∧ e'.to_ = q.name ∧ p.id < q.id)) ∧
    (∀ p ∈ (run Simulator.fresh ops).processes,
      (requestEdges p).Pairwise (fun e e' => e.to_ ≠ e'.to_ ∧
        ∀ m, stringArrayIndex e'.to_ = some m →
          ∃ n, stringArrayIndex e.to_ = some n ∧ n ≤ m)) ∧
    ∀ p ∈ (run Simulator.fresh ops).processes, ∀ (n : String) (c : Int),
      stringArrayIndex n = none → JsObj.get? p.requested n = none → 0 < c →
      requestEdges (requestProcessEntry p n c)
        = requestEdges p ++ [⟨p.name, n, EdgeType.request, c⟩] := by
  refine ⟨?_, ?_, ?_, ?_⟩
  · intro t hp hr
    unfold buildGraph
    simp only [hp, hr]
    congr 2
    apply List.map_congr_left
    intro r _
    unfold allocationEdges
    rw [hp]
  · intro r hr
    have hord := run_allocated_keyOrdered ops r hr
    have hnd := run_allocated_keys ops r hr
    have hlt := (uniqueIds_of_run ops).2.1
    have hboth : (JsObj.keys r.allocated).Pairwise
        (fun k k' => JsObj.precedes k' k = false ∧ k ≠ k') := hord.and hnd
    unfold allocationEdges
    refine List.Pairwise.filterMap _ ?_ hboth
    intro pid pid' hR e he e' he'
    cases hg : JsObj.get? r.allocated pid with
    | none => simp [hg] at he
    | some c =>
      cases hg' : JsObj.get? r.allocated pid' with
      | none => simp [hg'] at he'
      | some c' =>
        by_cases hc : c > 0
        · by_cases hc' : c' > 0
          · cases hp : (run Simulator.fresh ops).processes.find? (fun p => p.id == pid) with
            | none => simp [hg, hc, hp] at he
            | some p =>
              cases hp' : (run Simulator.fresh ops).processes.find?
                  (fun p => p.id == pid') with
              | none => simp [hg', hc', hp'] at he'
              | some q =>
                simp only [hg, hc, hp, if_true, Option.mem_def, Option.some.injEq] at he
                simp only [hg', hc', hp', if_true, Option.mem_def, Option.some.injEq] at he'
                have hmem : p ∈ (run Simulator.fresh ops).processes :=
                  List.mem_of_find?_eq_some hp
                have hmem' : q ∈ (run Simulator.fresh ops).processes :=
                  List.mem_of_find?_eq_some hp'
                have h1 : p.id = pid := findProcess_id hp
                have h2 : q.id = pid' := findProcess_id hp'
                have hb1 : pid < 4294967295 := by
                  have := hlt p.id (List.mem_map_of_mem _ hmem)
                  omega
                have hb2 : pid' < 4294967295 := by
                  have := hlt q.id (List.mem_map_of_mem _ hmem')
                  omega
                have hprec := hR.1
                have hlt' : ¬ pid' < pid := by
                  simpa [JsObj.precedes, JsKey.arrayIndex, hb1, hb2] using hprec
                refine ⟨p, hmem, q, hmem', ?_, ?_, ?_⟩
                · rw [← he]
                · rw [← he']
                · have := hR.2
                  omega
          · simp [hg', hc'] at he'
        · simp [hg, hc] at he
  · intro p hp
    exact requestEdges_numerals_first p (run_requested_keyOrdered ops p hp)
      (run_requested_keys ops p hp)
  · intro p _ n c hn hnew hc
    exact requestEdges_append p n c hn hnew hc

theorem edges_in_key_order_witness :
    (run Simulator.fresh numeralNameOps).nextProcessId ≤ 4294967295 ∧
    (∀ t : Simulator, t.processes = (run Simulator.fresh numeralNameOps).processes →
      t.resources = (run Simulator.fresh numeralNameOps).resources →
      (buildGraph t).edges = (buildGraph (run Simulator.fresh numeralNameOps)).edges) ∧
    (∀ r ∈ (run Simulator.fresh numeralNameOps).resources,
      (allocationEdges (run Simulator.fresh numeralNameOps) r).Pairwise (fun e e' =>
        ∃ p ∈ (run Simulator.fresh numeralNameOps).processes,
          ∃ q ∈ (run Simulator.fresh numeralNameOps).processes,
          e.to_ = p.name ∧ e'.to_ = q.name ∧ p.id < q.id)) ∧
    (∀ p ∈ (run Simulator.fresh numeralNameOps).processes,
      (requestEdges p).Pairwise (fun e e' => e.to_ ≠ e'.to_ ∧
        ∀ m, stringArrayIndex e'.to_ = some m →
          ∃ n, stringArrayIndex e.to_ = some n ∧ n ≤ m)) ∧
    ∀ p ∈ (run Simulator.fresh numeralNameOps).processes, ∀ (n : String) (c : Int),
      stringArrayIndex n = none → JsObj.get? p.requested n = none → 0 < c →
      requestEdges (requestProcessEntry p n c)
        = requestEdges p ++ [⟨p.name, n, EdgeType.request, c⟩] :=
  ⟨by decide, edges_in_key_order numeralNameOps (by decide)⟩

/-- C23, as stated, fails: after `lateFirstOps` process 2 has acquired R1 before process 1,
yet the allocation edge to P1 comes first; and after `numeralNameOps` process 1 has requested
the resource named 7 before the one named 3, yet its request edge to 3 comes first. -/
theorem insertion_order_counterexample :
    (buildGraph (run Simulator.fresh [Op.addProcess "P1", Op.addProcess "P2",
        Op.addResource "R1" 2, Op.requestResource 2 1 1])).edges
      = [⟨"R1", "P2", EdgeType.allocation, 1⟩] ∧
    (buildGraph (run Simulator.fresh lateFirstOps)).edges
      = [⟨"R1", "P1", EdgeType.allocation, 1⟩, ⟨"R1", "P2", EdgeType.allocation, 1⟩] ∧
    (buildGraph (run Simulator.fresh numeralNameOps)).edges
      = [⟨"7", "P2", EdgeType.allocation, 1⟩, ⟨"3", "P2", EdgeType.allocation, 1⟩,
          ⟨"P1", "3", EdgeType.request, 1⟩, ⟨"P1", "7", EdgeType.request, 1⟩] := by
  decide

/-! ## The scan grants whole requests only -/

theorem notRaised_refl (rs : List Resource) : NotRaised rs rs :=
  List.forall₂_same.mpr (fun _ _ => ⟨le_refl _, rfl⟩)

theorem notRaised_trans (a b c : List Resource) (h1 : NotRaised a b) (h2 : NotRaised b c) :
    NotRaised a c := by
  unfold NotRaised at *
  induction h1 generalizing c with
  | nil => cases h2; exact List.Forall₂.nil
  | cons hxy _ ih =>
    cases h2 with
    | cons hyz htail =>
      exact List.Forall₂.cons ⟨le_trans hyz.1 hxy.1, hyz.2.trans hxy.2⟩ (ih _ htail)

theorem notRaised_find (rs rs' : List Resource) (h : NotRaised rs rs') (n : String)
    (r' : Resource) (hr' : rs'.find? (fun r => r.name == n) = some r') :
    ∃ r, rs.find? (fun r => r.name == n) = some r ∧
      r'.availableInstances ≤ r.availableInstances := by
  unfold NotRaised at h
  induction rs generalizing rs' with
  | nil => cases h; simp at hr'
  | cons x xs ih =>
    cases rs' with
    | nil => cases h
    | cons y ys =>
      have hxy := (List.forall₂_cons.mp h).1
      have htail := (List.forall₂_cons.mp h).2
      by_cases hy : y.name = n
      · have hx : x.name = n := by rw [← hxy.2]; exact hy
        have hyb : (y.name == n) = true := by simpa using hy
        have hxb : (x.name == n) = true := by simpa using hx
        simp only [List.find?, hyb, Option.some.injEq] at hr'
        subst hr'
        exact ⟨x, by simp only [List.find?, hxb], hxy.1⟩
      · have hx : ¬ x.name = n := by rw [← hxy.2]; exact hy
        have hyb : (y.name == n) = false := by simpa using hy
        have hxb : (x.name == n) = false := by simpa using hx
        simp only [List.find?, hyb] at hr'
        obtain ⟨r, hr, hle⟩ := ih ys htail hr'
        exact ⟨r, by simp only [List.find?, hxb]; exact hr, hle⟩

theorem assignResource_notRaised (t : Simulator) (a b : Nat) (c : Int) (hc : 0 ≤ c) :
    NotRaised t.resources (assignResource t a b c).2.resources := by
  unfold assignResource
  cases findProcess t a with
  | none => exact notRaised_refl _
  | some p =>
    cases findResource t b with
    | none => exact notRaised_refl _
    | some r =>
      simp only []
      split
      · exact notRaised_refl _
      · refine forall₂_updateFirst _ _ _ (fun x => ⟨le_refl _, rfl⟩) (fun x => ⟨?_, rfl⟩) _
        simp only [assignResourceEntry]
        omega

theorem assignProcessEntry_requested_full (p : Process) (n : String) (q : Int)
    (hq : JsObj.get? p.requested n = some q) (hpos : 0 < q) :
    JsObj.get? (assignProcessEntry p n q).requested n = none ∧
    (assignProcessEntry p n q).waiting = false := by
  unfold assignProcessEntry
  simp only [hq]
  have h1 : q > 0 := hpos
  have h2 : q - q ≤ 0 := by omega
  simp [h1, h2, JsObj.get?_delete_self]

theorem assignProcessEntry_waiting (p : Process) (n : String) (c : Int)
    (h : p.waiting = false) : (assignProcessEntry p n c).waiting = false := by
  unfold assignProcessEntry
  simp only []
  cases JsObj.get? p.requested n with
  | none => simp [h]
  | some q =>
    simp only []
    by_cases h1 : q > 0
    · by_cases h2 : q - c ≤ 0
      · simp [h1, h2]
      · simp [h1, h2, h]
    · simp [h1, h]

theorem scan_wholeGrant (s : Simulator) (hu : UniqueIds s) (i : Nat) (p : Process)
    (hp : s.processes[i]? = some p) (n : String) (l : List Nat) :
    UniqueIds (l.foldl autoAssignProcess s) ∧
    NotRaised s.resources (l.foldl autoAssignProcess s).resources ∧
    ∃ p', (l.foldl autoAssignProcess s).processes[i]? = some p' ∧ p'.id = p.id ∧
      WholeGrant s p p' n := by
  refine scan_preserves (fun t => UniqueIds t ∧ NotRaised s.resources t.resources ∧
      ∃ p', t.processes[i]? = some p' ∧ p'.id = p.id ∧ WholeGrant s p p' n) l ?_ s
    ⟨hu, notRaised_refl _, p, hp, rfl, Or.inl ⟨rfl, rfl⟩⟩
  intro t j _ x k q res ht hx hq hqpos hres hav
  obtain ⟨htu, hnr, p', hp', hid, hwg⟩ := ht
  have hresmem : res ∈ t.resources := List.mem_of_find?_eq_some hres
  have hresname : res.name = k := findResourceByName_name hres
  have hfr : findResource t res.id = some res := findResource_of_mem t htu.2 res hresmem
  refine ⟨uniqueIds_assignResource t _ _ _ htu,
    notRaised_trans _ _ _ hnr (assignResource_notRaised t _ _ _ (le_of_lt hqpos)), ?_⟩
  by_cases hij : i = j
  · subst hij
    have hxp : p' = x := Option.some.inj (hp'.symm.trans hx)
    subst hxp
    refine ⟨assignProcessEntry p' res.name q, ?_, ?_, ?_⟩
    · exact assignResource_getElem?_self t htu i p' hp' res.id q res hfr hav
    · rw [assignProcessEntry_id]; exact hid
    · rw [hresname]
      by_cases hkn : k = n
      · subst hkn
        rcases hwg with ⟨hreq, hall⟩ | ⟨q0, r0, _, _, _, _, hnone, _⟩
        · right
          obtain ⟨r0, hr0, hle⟩ := notRaised_find _ _ hnr k res hres
          have hfull := assignProcessEntry_requested_full p' k q hq hqpos
          refine ⟨q, r0, hreq ▸ hq, hqpos, hr0, le_trans hav hle, hfull.1, ?_⟩
          rw [assignProcessEntry_allocated, JsObj.getD0_set]
          simp only [if_true]
          unfold JsObj.getD0
          rw [hall]
        · rw [hnone] at hq
          exact Option.noConfusion hq
      · have hreq := assignProcessEntry_requested_ne p' k n q hkn
        have hall := assignProcessEntry_allocated_ne p' k n q hkn
        rcases hwg with ⟨h1, h2⟩ | ⟨q0, r0, h1, h2, h3, h4, h5, h6⟩
        · exact Or.inl ⟨hreq.trans h1, hall.trans h2⟩
        · refine Or.inr ⟨q0, r0, h1, h2, h3, h4, hreq.trans h5, ?_⟩
          unfold JsObj.getD0 at h6 ⊢
          rw [hall]
          exact h6
  · refine ⟨p', ?_, hid, hwg⟩
    rw [assignResource_getElem?_other t htu i j x hx hij]
    exact hp'

/-- C11: the wake-up scan never makes a partial grant. In a state whose process ids and
resource ids are pairwise distinct, for every process `p` and every resource name `n`, after
`autoAssignResources` either `p.requested[n]` and `p.allocated[n]` are both unchanged, or the
whole outstanding amount `q` of `p` for `n` has been cleared and `p.allocated[n]` has grown by
exactly `q`, the resource having had at least `q` instances available. Each single grant of
the scan is an `assignResource` for the whole outstanding amount, made while the resource
has at least that many instances available. -/
theorem scan_no_partial_grant (s : Simulator) (hu : UniqueIds s) (i : Nat) (p : Process)
    (hp : s.processes[i]? = some p) (n : String) :
    (∃ p', (autoAssignResources s).processes[i]? = some p' ∧ p'.id = p.id ∧
      WholeGrant s p p' n) ∧
    ∀ (j : Nat) (t : Simulator) (k : String),
      autoAssignKey j t k = t ∨
      ∃ process q resource, t.processes[j]? = some process ∧
        JsObj.get? process.requested k = some q ∧ 0 < q ∧
        findResourceByName t k = some resource ∧ q ≤ resource.availableInstances ∧
        autoAssignKey j t k = (assignResource t process.id resource.id q).2 :=
  ⟨(scan_wholeGrant s hu i p hp n (List.range s.processes.length)).2.2,
    fun j t k => autoAssignKey_cases j t k⟩

theorem scan_no_partial_grant_witness :
    UniqueIds (run Simulator.fresh staleRequestOps) ∧
    (run Simulator.fresh staleRequestOps).processes[0]?
      = some ⟨1, "P1", ProcState.waiting, [], [("R1", 1), ("R2", 1)], true⟩ ∧
    (∃ p', (autoAssignResources (run Simulator.fresh staleRequestOps)).processes[0]? = some p' ∧
      p'.id = 1 ∧
      WholeGrant (run Simulator.fresh staleRequestOps)
        ⟨1, "P1", ProcState.waiting, [], [("R1", 1), ("R2", 1)], true⟩ p' "R1") ∧
    ∀ (j : Nat) (t : Simulator) (k : String),
      autoAssignKey j t k = t ∨
      ∃ process q resource, t.processes[j]? = some process ∧
        JsObj.get? process.requested k = some q ∧ 0 < q ∧
        findResourceByName t k = some resource ∧ q ≤ resource.availableInstances ∧
        autoAssignKey j t k = (assignResource t process.id resource.id q).2 :=
  ⟨⟨by decide, by decide⟩, by decide,
    scan_no_partial_grant (run Simulator.fresh staleRequestOps) ⟨by decide, by decide⟩ 0
      ⟨1, "P1", ProcState.waiting, [], [("R1", 1), ("R2", 1)], true⟩ (by decide) "R1"⟩

/-! ## After the scan nothing is left to grant -/

theorem grantable_notRaised (t t' : Simulator) (h : NotRaised t.resources t'.resources)
    (q : Process) (k : String) (hg : grantable t q k = false) : grantable t' q k = false := by
  unfold grantable at hg ⊢
  cases hq : JsObj.get? q.requested k with
  | none => rfl
  | some c =>
    simp only [hq] at hg ⊢
    by_cases hc : c > 0
    · simp only [hc, decide_True, Bool.true_and] at hg ⊢
      cases hr' : findResourceByName t' k with
      | none => rfl
      | some r' =>
        obtain ⟨r, hr, hle⟩ := notRaised_find _ _ h k r' hr'
        have hr2 : findResourceByName t k = some r := hr
        simp only [hr2, decide_eq_false_iff_not] at hg
        simp only [decide_eq_false_iff_not]
        omega
    · simp [hc]

theorem autoAssignKey_of_grantable (i : Nat) (t : Simulator) (k : String) (pc : Process)
    (hp : t.processes[i]? = some pc) (hg : grantable t pc k = true) :
    ∃ q res, JsObj.get? pc.requested k = some q ∧ 0 < q ∧
      findResourceByName t k = some res ∧ q ≤ res.availableInstances ∧
      autoAssignKey i t k = (assignResource t pc.id res.id q).2 := by
  unfold grantable at hg
  cases hq : JsObj.get? pc.requested k with
  | none => simp [hq] at hg
  | some q =>
    simp only [hq, Bool.and_eq_true, decide_eq_true_eq] at hg
    cases hr : findResourceByName t k with
    | none => simp [hr] at hg
    | some res =>
      simp only [hr, decide_eq_true_eq] at hg
      refine ⟨q, res, rfl, hg.1, rfl, hg.2, ?_⟩
      have h1 : q > 0 := hg.1
      have h2 : res.availableInstances ≥ q := hg.2
      simp [autoAssignKey, hp, hq, hr, h1, h2]

theorem scan_keys_visit (i : Nat) (t0 : Simulator) (p0 : Process) (hu : UniqueIds t0)
    (hp0 : t0.processes[i]? = some p0) (ks : List String) :
    ∀ (done : List String) (t : Simulator),
      ((t = t0 ∧ ∀ k ∈ done, grantable t0 p0 k = false) ∨
        (UniqueIds t ∧ t.processes.map Process.id = t0.processes.map Process.id ∧
          ∃ pc, t.processes[i]? = some pc ∧ pc.waiting = false)) →
      ((ks.foldl (autoAssignKey i) t = t0 ∧ ∀ k ∈ done ++ ks, grantable t0 p0 k = false) ∨
        (UniqueIds (ks.foldl (autoAssignKey i) t) ∧
          (ks.foldl (autoAssignKey i) t).processes.map Process.id
            = t0.processes.map Process.id ∧
          ∃ pc, (ks.foldl (autoAssignKey i) t).processes[i]? = some pc ∧
            pc.waiting = false)) := by
  induction ks with
  | nil =>
    intro done t h
    simpa using h
  | cons k ks ih =>
    intro done t h
    simp only [List.foldl_cons]
    have hnext := ih (done ++ [k]) (autoAssignKey i t k)
    have happ : done ++ [k] ++ ks = done ++ k :: ks := by simp
    rw [happ] at hnext
    apply hnext
    rcases h with ⟨rfl, hdone⟩ | ⟨htu, hids, pc, hpc, hw⟩
    · by_cases hg : grantable t p0 k = true
      · obtain ⟨q, res, hq, hqpos, hres, hav, heq⟩ :=
          autoAssignKey_of_grantable i t k p0 hp0 hg
        right
        rw [heq]
        have hfr : findResource t res.id = some res :=
          findResource_of_mem t hu.2 res (List.mem_of_find?_eq_some hres)
        refine ⟨uniqueIds_assignResource t _ _ _ hu, assignResource_processIds t _ _ _,
          assignProcessEntry p0 res.name q,
          assignResource_getElem?_self t hu i p0 hp0 res.id q res hfr hav, ?_⟩
        rw [findResourceByName_name hres]
        exact (assignProcessEntry_requested_full p0 k q hq hqpos).2
      · have hg' : grantable t p0 k = false := by simpa using hg
        left
        refine ⟨autoAssignKey_of_not_grantable i t k p0 hp0 hg', ?_⟩
        intro k' hk'
        rcases List.mem_append.mp hk' with h1 | h1
        · exact hdone k' h1
        · have : k' = k := by simpa using h1
          rw [this]; exact hg'
    · right
      rcases autoAssignKey_cases i t k with heq | ⟨x, q, res, hx, hq, hqpos, hres, hav, heq⟩
      · rw [heq]
        exact ⟨htu, hids, pc, hpc, hw⟩
      · rw [heq]
        have hxp : pc = x := Option.some.inj (hpc.symm.trans hx)
        subst hxp
        have hfr : findResource t res.id = some res :=
          findResource_of_mem t htu.2 res (List.mem_of_find?_eq_some hres)
        refine ⟨uniqueIds_assignResource t _ _ _ htu,
          (assignResource_processIds t _ _ _).trans hids,
          assignProcessEntry pc res.name q,
          assignResource_getElem?_self t htu i pc hpc res.id q res hfr hav, ?_⟩
        exact assignProcessEntry_waiting pc res.name q hw

theorem scan_visit_idle (i : Nat) (t0 : Simulator) (p0 : Process) (hu : UniqueIds t0)
    (hp0 : t0.processes[i]? = some p0) :
    UniqueIds (autoAssignProcess t0 i) ∧
    (autoAssignProcess t0 i).processes.map Process.id = t0.processes.map Process.id ∧
    ∃ p1, (autoAssignProcess t0 i).processes[i]? = some p1 ∧
      (p1.waiting = true →
        ∀ k ∈ JsObj.keys p1.requested, grantable (autoAssignProcess t0 i) p1 k = false) := by
  unfold autoAssignProcess
  simp only [hp0]
  by_cases hw : p0.waiting = true
  · simp only [hw, if_true]
    have h := scan_keys_visit i t0 p0 hu hp0 (JsObj.keys p0.requested) [] t0
      (Or.inl ⟨rfl, fun k hk => by simp at hk⟩)
    rcases h with ⟨heq, hall⟩ | ⟨h1, h2, pc, hpc, hpw⟩
    · rw [heq]
      exact ⟨hu, rfl, p0, hp0, fun _ k hk => hall k (by simpa using hk)⟩
    · exact ⟨h1, h2, pc, hpc, fun hcon => by rw [hpw] at hcon; exact absurd hcon (by simp)⟩
  · rw [if_neg hw]
    exact ⟨hu, rfl, p0, hp0, fun hcon => absurd hcon hw⟩

theorem scan_rest_idle (i : Nat) (t1 : Simulator) (p1 : Process) (hu : UniqueIds t1)
    (hp1 : t1.processes[i]? = some p1) (l : List Nat) (hl : ∀ j ∈ l, j ≠ i) :
    NotRaised t1.resources (l.foldl autoAssignProcess t1).resources ∧
    (l.foldl autoAssignProcess t1).processes[i]? = some p1 := by
  have key := scan_preserves (fun t => UniqueIds t ∧ NotRaised t1.resources t.resources ∧
      t.processes[i]? = some p1) l ?_ t1 ⟨hu, notRaised_refl _, hp1⟩
  · exact key.2
  · intro t j hj x k q res ht hx hq hqpos hres hav
    obtain ⟨htu, hnr, hp⟩ := ht
    refine ⟨uniqueIds_assignResource t _ _ _ htu,
      notRaised_trans _ _ _ hnr (assignResource_notRaised t _ _ _ (le_of_lt hqpos)), ?_⟩
    rw [assignResource_getElem?_other t htu i j x hx (fun h => hl j hj h.symm)]
    exact hp

theorem scan_prefix_ids (s : Simulator) (hu : UniqueIds s) (l : List Nat) :
    UniqueIds (l.foldl autoAssignProcess s) ∧
    (l.foldl autoAssignProcess s).processes.map Process.id = s.processes.map Process.id := by
  refine scan_preserves (fun t => UniqueIds t ∧
      t.processes.map Process.id = s.processes.map Process.id) l ?_ s ⟨hu, rfl⟩
  intro t j _ x k q res ht _ _ _ _ _
  exact ⟨uniqueIds_assignResource t _ _ _ ht.1, (assignResource_processIds t _ _ _).trans ht.2⟩

theorem scanIdle_autoAssignResources (s : Simulator) (hu : UniqueIds s) :
    scanIdle (autoAssignResources s) = true := by
  have hfin := scan_prefix_ids s hu (List.range s.processes.length)
  unfold scanIdle
  rw [List.all_eq_true]
  intro x hx
  obtain ⟨i, hi, hxi⟩ := List.getElem_of_mem hx
  have hlen : (autoAssignResources s).processes.length = s.processes.length := by
    have := congrArg List.length hfin.2
    simpa using this
  have hi' : i < s.processes.length := by rw [← hlen]; exact hi
  have hx' : (autoAssignResources s).processes[i]? = some x := by
    rw [List.getElem?_eq_getElem hi, hxi]
  have hsplit : autoAssignResources s
      = (List.range' (i + 1) (s.processes.length - i - 1)).foldl autoAssignProcess
          (autoAssignProcess ((List.range i).foldl autoAssignProcess s) i) := by
    unfold autoAssignResources
    rw [range_split s.processes.length i hi', List.foldl_append, List.foldl_cons]
  have hpre := scan_prefix_ids s hu (List.range i)
  have hlen0 : ((List.range i).foldl autoAssignProcess s).processes.length
      = s.processes.length := by
    have := congrArg List.length hpre.2
    simpa using this
  have hi0 : i < ((List.range i).foldl autoAssignProcess s).processes.length := by
    rw [hlen0]; exact hi'
  have hp0 : ((List.range i).foldl autoAssignProcess s).processes[i]?
      = some (((List.range i).foldl autoAssignProcess s).processes[i]) :=
    List.getElem?_eq_getElem hi0
  obtain ⟨hu1, _, p1, hp1, hidle⟩ := scan_visit_idle i _ _ hpre.1 hp0
  have hrest := scan_rest_idle i _ p1 hu1 hp1 (List.range' (i + 1) (s.processes.length - i - 1))
    (fun j hj => by
      have := (List.mem_range'_1.mp hj).1
      omega)
  rw [← hsplit] at hrest
  have hxp : x = p1 := Option.some.inj (hx'.symm.trans hrest.2)
  subst hxp
  by_cases hw : x.waiting = true
  · simp only [hw, Bool.not_true, Bool.false_or, List.all_eq_true]
    intro k hk
    have := grantable_notRaised _ _ hrest.1 x k (hidle hw k hk)
    simp [this]
  · simp [hw]

theorem uniqueIds_releaseLedger (s : Simulator) (a b : Nat) (p : Process) (r : Resource)
    (c : Int) (hu : UniqueIds s) : UniqueIds (releaseLedger s a b p r c) := by
  unfold UniqueIds releaseLedger
  simp only []
  rw [ids_updateFirst_process _ _ (fun q => releaseProcessEntry q r.name c) (fun q => rfl),
    ids_updateFirst_resource _ _ (fun q => releaseResourceEntry q p.id c) (fun q => rfl)]
  exact hu

theorem uniqueIds_releaseAllLedger (s : Simulator) (a : Nat) (p : Process)
    (hu : UniqueIds s) : UniqueIds (releaseAllLedger s a p) := by
  have hres : ((JsObj.keys p.allocated).foldl (releaseAllStep p) s.resources).map
      Resource.id = s.resources.map Resource.id :=
    foldl_preserves
      (fun rs : List Resource => rs.map Resource.id = s.resources.map Resource.id)
      (releaseAllStep p) _ (fun rs k _ hrs => (releaseAllStep_ids p rs k).trans hrs)
      s.resources rfl
  unfold UniqueIds releaseAllLedger
  simp only []
  rw [hres, ids_updateFirst_process _ _
    (fun q => { q with allocated := [], waiting := false, state := ProcState.ready })
    (fun q => rfl)]
  exact hu

/-- C29: the wake-up scan is exhaustive for flagged waiters. In a state whose process ids
and resource ids are pairwise distinct, immediately after `autoAssignResources` returns no
process whose waiting flag is set has a positive outstanding request for an existing resource
whose available count is at least the requested amount; with auto-assign enabled this is so
after every successful `releaseResource` and `releaseAllResources`. -/
theorem scan_exhaustive (s : Simulator) (hu : UniqueIds s) :
    scanIdle (autoAssignResources s) = true ∧
    (s.autoAssignEnabled = true →
      (∀ (a b : Nat) (c : Int), (releaseResource s a b c).1 = true →
        scanIdle (releaseResource s a b c).2 = true) ∧
      ∀ a : Nat, (releaseAllResources s a).1 = true →
        scanIdle (releaseAllResources s a).2 = true) := by
  refine ⟨scanIdle_autoAssignResources s hu, fun hen => ⟨?_, ?_⟩⟩
  · intro a b c hok
    unfold releaseResource at hok ⊢
    cases hp : findProcess s a with
    | none => simp [hp] at hok
    | some p =>
      cases hr : findResource s b with
      | none => simp [hp, hr] at hok
      | some r =>
        simp only [hp, hr] at hok ⊢
        split at hok
        · simp at hok
        · next hcond =>
          simp only [hcond, if_false]
          have hen' : (releaseLedger s a b p r c).autoAssignEnabled = true := hen
          unfold wakeUp
          rw [if_pos hen']
          exact scanIdle_autoAssignResources _ (uniqueIds_releaseLedger s a b p r c hu)
  · intro a hok
    unfold releaseAllResources at hok ⊢
    cases hp : findProcess s a with
    | none => simp [hp] at hok
    | some p =>
      simp only []
      have hen' : (releaseAllLedger s a p).autoAssignEnabled = true := hen
      unfold wakeUp
      rw [if_pos hen']
      exact scanIdle_autoAssignResources _ (uniqueIds_releaseAllLedger s a p hu)

theorem scan_exhaustive_witness :
    UniqueIds (run Simulator.fresh staleRequestOps) ∧
    scanIdle (autoAssignResources (run Simulator.fresh staleRequestOps)) = true ∧
    ((run Simulator.fresh staleRequestOps).autoAssignEnabled = true →
      (∀ (a b : Nat) (c : Int),
        (releaseResource (run Simulator.fresh staleRequestOps) a b c).1 = true →
        scanIdle (releaseResource (run Simulator.fresh staleRequestOps) a b c).2 = true) ∧
      ∀ a : Nat, (releaseAllResources (run Simulator.fresh staleRequestOps) a).1 = true →
        scanIdle (releaseAllResources (run Simulator.fresh staleRequestOps) a).2 = true) :=
  ⟨⟨by decide, by decide⟩,
    scan_exhaustive (run Simulator.fresh staleRequestOps) ⟨by decide, by decide⟩⟩

/-! ## Paths and cycles -/

theorem mem_setAdd (xs : List String) (y x : String) : x ∈ setAdd xs y ↔ x ∈ xs ∨ x = y := by
  unfold setAdd
  split
  · next h =>
    constructor
    · exact Or.inl
    · rintro (h1 | rfl)
      · exact h1
      · exact h
  · simp

theorem mem_foldl_setAdd (l acc : List String) (x : String) :
    x ∈ l.foldl setAdd acc ↔ x ∈ acc ∨ x ∈ l := by
  induction l generalizing acc with
  | nil => simp
  | cons a rest ih =>
    simp only [List.foldl_cons, ih, mem_setAdd, List.mem_cons]
    constructor
    · rintro ((h | h) | h)
      · exact Or.inl h
      · exact Or.inr (Or.inl h)
      · exact Or.inr (Or.inr h)
    · rintro (h | h | h)
      · exact Or.inl (Or.inl h)
      · exact Or.inl (Or.inr h)
      · exact Or.inr h

theorem hasEdge_iff (graph : GraphData) (a b : String) :
    hasEdge graph a b = true ↔ ∃ e ∈ graph.edges, e.from_ = a ∧ e.to_ = b := by
  unfold hasEdge
  simp [List.any_eq_true]

theorem isPath_cons (graph : GraphData) (a : String) (l : List String)
    (h : isPath graph (a :: l) = true) : isPath graph l = true := by
  cases l with
  | nil => rfl
  | cons b rest =>
    simp only [isPath, Bool.and_eq_true] at h
    exact h.2

theorem isPath_drop (graph : GraphData) (n : Nat) (l : List String)
    (h : isPath graph l = true) : isPath graph (l.drop n) = true := by
  induction n generalizing l with
  | zero => simpa using h
  | succ n ih =>
    cases l with
    | nil => simpa using h
    | cons a rest =>
      simp only [List.drop_succ_cons]
      exact ih rest (isPath_cons graph a rest h)

theorem isPath_append_singleton (graph : GraphData) (l : List String) (v : String)
    (h : isPath graph l = true)
    (hlast : ∀ u, l.getLast? = some u → hasEdge graph u v = true) :
    isPath graph (l ++ [v]) = true := by
  induction l with
  | nil => rfl
  | cons a rest ih =>
    cases rest with
    | nil =>
      have := hlast a rfl
      simp [isPath, this]
    | cons b rest' =>
      simp only [isPath, Bool.and_eq_true] at h
      have hrec := ih h.2 (fun u hu => hlast u (by simpa using hu))
      simp only [List.cons_append, isPath, Bool.and_eq_true]
      exact ⟨h.1, by simpa using hrec⟩

theorem successor_on_path (graph : GraphData) (x : String) (l : List String)
    (h : isPath graph l = true) (hx : x ∈ l) :
    (∃ w ∈ l, hasEdge graph x w = true) ∨ l.getLast? = some x := by
  induction l with
  | nil => simp at hx
  | cons a rest ih =>
    cases rest with
    | nil =>
      right
      have : x = a := by simpa using hx
      simp [this]
    | cons b rest' =>
      simp only [isPath, Bool.and_eq_true] at h
      rcases List.mem_cons.mp hx with rfl | hx'
      · exact Or.inl ⟨b, by simp, h.1⟩
      · rcases ih h.2 hx' with ⟨w, hw, he⟩ | hl
        · exact Or.inl ⟨w, List.mem_cons_of_mem _ hw, he⟩
        · right
          simpa using hl

theorem successor_on_cycle (graph : GraphData) (c : List String) (x : String)
    (hc : isCycle graph c = true) (hx : x ∈ c) : ∃ w ∈ c, hasEdge graph x w = true := by
  unfold isCycle at hc
  cases hh : c.head? with
  | none => simp [hh] at hc
  | some first =>
    cases hl : c.getLast? with
    | none => simp [hh, hl] at hc
    | some last =>
      simp only [hh, hl, Bool.and_eq_true] at hc
      rcases successor_on_path graph x c hc.1 hx with h | h
      · exact h
      · have : last = x := Option.some.inj (hl.symm.trans h)
        subst this
        exact ⟨first, List.mem_of_mem_head? hh, hc.2⟩

theorem onCycle_successor (graph : GraphData) (x : String) (h : onCycle graph x) :
    ∃ w, hasEdge graph x w = true ∧ onCycle graph w := by
  obtain ⟨c, hx, hc⟩ := h
  obtain ⟨w, hw, he⟩ := successor_on_cycle graph c x hc hx
  exact ⟨w, he, c, hw, hc⟩

theorem head?_drop_indexOf (l : List String) (v : String) (h : v ∈ l) :
    (l.drop (l.indexOf v)).head? = some v := by
  induction l with
  | nil => simp at h
  | cons a rest ih =>
    by_cases hav : a = v
    · subst hav
      simp
    · have hv : v ∈ rest := by
        rcases List.mem_cons.mp h with h1 | h1
        · exact absurd h1.symm hav
        · exact h1
      rw [List.indexOf_cons_ne _ hav]
      simpa using ih hv

theorem getLast?_drop_of_lt (l : List String) (n : Nat) (h : n < l.length) :
    (l.drop n).getLast? = l.getLast? := by
  induction n generalizing l with
  | zero => simp
  | succ n ih =>
    cases l with
    | nil => simp at h
    | cons a rest =>
      have h' : n < rest.length := by simpa using h
      simp only [List.drop_succ_cons]
      rw [ih rest h']
      cases rest with
      | nil => simp at h'
      | cons b rest' => simp [List.getLast?_cons_cons]

theorem suffix_onCycle (graph : GraphData) (path : List String) (v : String)
    (hchain : isPath graph path = true) (hv : v ∈ path)
    (hlast : ∀ u, path.getLast? = some u → hasEdge graph u v = true) :
    ∀ x ∈ path.drop (path.indexOf v), onCycle graph x := by
  intro x hx
  refine ⟨path.drop (path.indexOf v), hx, ?_⟩
  have hidx : path.indexOf v < path.length := List.indexOf_lt_length.mpr hv
  have hhead := head?_drop_indexOf path v hv
  have hl := getLast?_drop_of_lt path _ hidx
  cases hp : path.getLast? with
  | none =>
    have : path = [] := List.getLast?_eq_none_iff.mp hp
    rw [this] at hv
    simp at hv
  | some u =>
    unfold isCycle
    rw [hhead, hl, hp]
    simp only [Bool.and_eq_true]
    exact ⟨isPath_drop graph _ path hchain, hlast u hp⟩

/-! ## The depth-first search -/

theorem path_length_le (graph : GraphData) (path : List String) (st : DfsState)
    (h : DfsWF graph path st) : path.length ≤ graph.edges.length + 1 := by
  have hnd : path.tail.Nodup := List.Nodup.sublist (List.tail_sublist path) h.path_nodup
  have hsub : path.tail ⊆ graph.edges.map Edge.to_ := by
    intro x hx
    obtain ⟨e, he, hex⟩ := h.path_targets x hx
    exact List.mem_map.mpr ⟨e, he, hex⟩
  have hle : path.tail.length ≤ (graph.edges.map Edge.to_).length :=
    (List.subperm_of_subset hnd hsub).length_le
  have htl : path.tail.length = path.length - 1 := List.length_tail path
  simp only [List.length_map] at hle
  omega

theorem detected_mono (graph : GraphData) (st st' : DfsState)
    (h : ∀ x ∈ st.deadlockNodes, x ∈ st'.deadlockNodes) (hd : Detected graph st) :
    Detected graph st' := by
  obtain ⟨e, he, h1, h2⟩ := hd
  exact ⟨e, he, h _ h1, h _ h2⟩

theorem finished_persist (graph : GraphData) (path : List String) (st st' : DfsState)
    (h : DfsWF graph path st) (h' : DfsWF graph path st')
    (hv : ∀ x ∈ st.visited, x ∈ st'.visited) (x : String) (hx : Finished st x) :
    Finished st' x :=
  ⟨hv x hx.1, fun hcon => hx.2 ((h.stack_iff x).mpr ((h'.stack_iff x).mp hcon))⟩

theorem dfs_fold_spec (graph : GraphData) (fuel : Nat) (path1 : List String) (v : String)
    (IH : ∀ w st, DfsWF graph path1 st → DfsGood graph st → hasEdge graph v w = true →
      DfsPost graph path1 w st (dfs graph fuel w path1 st))
    (es : List Edge) (hes : ∀ e ∈ es, e ∈ graph.edges ∧ e.from_ = v) :
    ∀ st, DfsWF graph path1 st → DfsGood graph st →
      DfsWF graph path1 (es.foldl (fun acc edge => dfs graph fuel edge.to_ path1 acc) st) ∧
      DfsGood graph (es.foldl (fun acc edge => dfs graph fuel edge.to_ path1 acc) st) ∧
      (∀ x ∈ st.visited,
        x ∈ (es.foldl (fun acc edge => dfs graph fuel edge.to_ path1 acc) st).visited) ∧
      (∀ x ∈ st.deadlockNodes,
        x ∈ (es.foldl (fun acc edge => dfs graph fuel edge.to_ path1 acc) st).deadlockNodes) ∧
      ∀ e ∈ es,
        Detected graph (es.foldl (fun acc edge => dfs graph fuel edge.to_ path1 acc) st) ∨
        Finished (es.foldl (fun acc edge => dfs graph fuel edge.to_ path1 acc) st) e.to_ := by
  induction es with
  | nil =>
    intro st hwf hgood
    exact ⟨hwf, hgood, fun _ h => h, fun _ h => h, fun e he => by simp at he⟩
  | cons e rest ih =>
    intro st hwf hgood
    have he := hes e (List.mem_cons_self _ _)
    have hedge : hasEdge graph v e.to_ = true :=
      (hasEdge_iff graph v e.to_).mpr ⟨e, he.1, he.2, rfl⟩
    have hpost := IH e.to_ st hwf hgood hedge
    have hrec := ih (fun e' he' => hes e' (List.mem_cons_of_mem _ he'))
      (dfs graph fuel e.to_ path1 st) hpost.wf hpost.good
    obtain ⟨h1, h2, h3, h4, h5⟩ := hrec
    simp only [List.foldl_cons]
    refine ⟨h1, h2, fun x hx => h3 x (hpost.visited_mono x hx),
      fun x hx => h4 x (hpost.recorded_mono x hx), ?_⟩
    intro e' he'
    rcases List.mem_cons.mp he' with rfl | hmem
    · rcases hpost.settled with hd | hf
      · exact Or.inl (detected_mono graph _ _ h4 hd)
      · exact Or.inr (finished_persist graph path1 _ _ hpost.wf h1 h3 _ hf)
    · exact h5 e' hmem

theorem dfs_spec (graph : GraphData) :
    ∀ (fuel : Nat) (v : String) (path : List String) (st : DfsState),
      DfsWF graph path st → DfsGood graph st →
      fuel + path.length = graph.edges.length + 2 →
      (∀ u, path.getLast? = some u → hasEdge graph u v = true) →
      DfsPost graph path v st (dfs graph fuel v path st) := by
  intro fuel
  induction fuel with
  | zero =>
    intro v path st hwf _ hlen _
    have := path_length_le graph path st hwf
    omega
  | succ fuel ih =>
    intro v path st hwf hgood hlen hlast
    by_cases hstack : v ∈ st.recursionStack
    · -- the node is on the recursion stack: the suffix of the path is recorded
      have hv : v ∈ path := (hwf.stack_iff v).mp hstack
      have hidx : path.indexOf v < path.length := List.indexOf_lt_length.mpr hv
      have hcyc := suffix_onCycle graph path v hwf.path_chain hv hlast
      have hdfs : dfs graph (fuel + 1) v path st
          = { st with deadlockNodes :=
                (path.drop (path.indexOf v)).foldl setAdd st.deadlockNodes } := by
        simp only [dfs, hstack, hidx, if_true]
      rw [hdfs]
      have hdet : Detected graph { st with deadlockNodes :=
          (path.drop (path.indexOf v)).foldl setAdd st.deadlockNodes } := by
        cases hp : path.getLast? with
        | none =>
          have : path = [] := List.getLast?_eq_none_iff.mp hp
          rw [this] at hv
          simp at hv
        | some u =>
          obtain ⟨e, he, hfrom, hto⟩ := (hasEdge_iff graph u v).mp (hlast u hp)
          refine ⟨e, he, ?_, ?_⟩
          · simp only [mem_foldl_setAdd]
            right
            rw [hfrom]
            have hl := getLast?_drop_of_lt path _ hidx
            rw [hp] at hl
            exact List.mem_of_getLast?_eq_some hl
          · simp only [mem_foldl_setAdd]
            right
            rw [hto]
            exact List.mem_of_mem_head? (head?_drop_indexOf path v hv)
      refine ⟨⟨hwf.stack_iff, hwf.path_visited, hwf.path_nodup, hwf.path_chain,
        hwf.path_targets⟩, ⟨?_, Or.inl hdet⟩, fun _ h => h, ?_, Or.inl hdet⟩
      · intro x hx
        simp only [mem_foldl_setAdd] at hx
        rcases hx with hx | hx
        · exact hgood.sound x hx
        · exact hcyc x hx
      · intro x hx
        simp only [mem_foldl_setAdd]
        exact Or.inl hx
    · by_cases hvis : v ∈ st.visited
      · have hdfs : dfs graph (fuel + 1) v path st = st := by
          simp only [dfs, hstack, hvis, if_true, if_false]
        rw [hdfs]
        exact ⟨hwf, hgood, fun _ h => h, fun _ h => h, Or.inr ⟨hvis, hstack⟩⟩
      · -- a node met for the first time
        have hvpath : v ∉ path := fun h => hstack ((hwf.stack_iff v).mpr h)
        have hwf1 : DfsWF graph (path ++ [v])
            { st with visited := setAdd st.visited v,
                      recursionStack := setAdd st.recursionStack v } := by
          refine ⟨?_, ?_, ?_, ?_, ?_⟩
          · intro x
            simp only [mem_setAdd, List.mem_append, List.mem_singleton, hwf.stack_iff]
          · intro x hx
            simp only [mem_setAdd]
            rcases List.mem_append.mp hx with h | h
            · exact Or.inl (hwf.path_visited x h)
            · exact Or.inr (by simpa using h)
          · rw [List.nodup_append]
            refine ⟨hwf.path_nodup, List.nodup_singleton v, ?_⟩
            intro x hx hx'
            have : x = v := by simpa using hx'
            exact hvpath (this ▸ hx)
          · exact isPath_append_singleton graph path v hwf.path_chain hlast
          · intro x hx
            cases hpath : path with
            | nil => simp [hpath] at hx
            | cons a rest =>
              rw [hpath] at hx
              simp only [List.cons_append, List.tail_cons, List.mem_append,
                List.mem_singleton] at hx
              rcases hx with h | h
              · exact hwf.path_targets x (by rw [hpath]; simpa using h)
              · cases hp : path.getLast? with
                | none =>
                  have : path = [] := List.getLast?_eq_none_iff.mp hp
                  rw [this] at hpath
                  exact absurd hpath (by simp)
                | some u =>
                  obtain ⟨e, he, _, hto⟩ := (hasEdge_iff graph u v).mp (hlast u hp)
                  exact ⟨e, he, by rw [hto, h]⟩
        have hgood1 : DfsGood graph
            { st with visited := setAdd st.visited v,
                      recursionStack := setAdd st.recursionStack v } := by
          refine ⟨hgood.sound, ?_⟩
          rcases hgood.acyclic with hd | hf
          · exact Or.inl hd
          · right
            intro x hx
            have h1 : x ∈ setAdd st.visited v := hx.1
            have h2 : x ∉ setAdd st.recursionStack v := hx.2
            simp only [mem_setAdd, not_or] at h1 h2
            rcases h1 with h1 | h1
            · exact hf x ⟨h1, h2.1⟩
            · exact absurd h1 h2.2
        have hlast1 : (path ++ [v]).getLast? = some v := by simp
        have hfold := dfs_fold_spec graph fuel (path ++ [v]) v
          (fun w st' hw hg hedge => ih w (path ++ [v]) st' hw hg
            (by simp only [List.length_append, List.length_singleton]; omega)
            (fun u hu => by
              rw [hlast1] at hu
              rw [← Option.some.inj hu]
              exact hedge))
          (graph.edges.filter (fun edge => edge.from_ == v))
          (fun e he => by
            have := List.mem_filter.mp he
            exact ⟨this.1, by simpa using this.2⟩)
          _ hwf1 hgood1
        obtain ⟨hwf2, hgood2, hvis2, hrec2, hall2⟩ := hfold
        have hdfs : dfs graph (fuel + 1) v path st
            = { (List.foldl (fun acc edge => dfs graph fuel edge.to_ (path ++ [v]) acc)
                  { st with visited := setAdd st.visited v,
                            recursionStack := setAdd st.recursionStack v }
                  (graph.edges.filter (fun edge => edge.from_ == v))) with
                recursionStack :=
                  (List.foldl (fun acc edge => dfs graph fuel edge.to_ (path ++ [v]) acc)
                    { st with visited := setAdd st.visited v,
                              recursionStack := setAdd st.recursionStack v }
                    (graph.edges.filter (fun edge => edge.from_ == v))).recursionStack.filter
                    (fun n => n != v) } := by
          simp only [dfs, hstack, hvis, if_false]
        rw [hdfs]
        have hvin : v ∈ (List.foldl (fun acc edge => dfs graph fuel edge.to_ (path ++ [v]) acc)
            { st with visited := setAdd st.visited v,
                      recursionStack := setAdd st.recursionStack v }
            (graph.edges.filter (fun edge => edge.from_ == v))).visited :=
          hvis2 v ((mem_setAdd _ _ _).mpr (Or.inr rfl))
        refine ⟨⟨?_, ?_, hwf.path_nodup, hwf.path_chain, hwf.path_targets⟩, ⟨hgood2.sound, ?_⟩,
          ?_, hrec2, Or.inr ⟨hvin, ?_⟩⟩
        · intro x
          simp only [List.mem_filter, hwf2.stack_iff, List.mem_append, List.mem_singleton,
            bne_iff_ne, ne_eq]
          constructor
          · rintro ⟨h | h, hne⟩
            · exact h
            · exact absurd h hne
          · intro h
            exact ⟨Or.inl h, fun hxv => hvpath (hxv ▸ h)⟩
        · intro x hx
          exact hvis2 x ((mem_setAdd _ _ _).mpr (Or.inl (hwf.path_visited x hx)))
        · by_cases hD : Detected graph
              (List.foldl (fun acc edge => dfs graph fuel edge.to_ (path ++ [v]) acc)
                { st with visited := setAdd st.visited v,
                          recursionStack := setAdd st.recursionStack v }
                (graph.edges.filter (fun edge => edge.from_ == v)))
          · exact Or.inl hD
          · right
            have hfin2 := hgood2.acyclic.resolve_left hD
            intro x hx
            have hx1 := hx.1
            have hx2 := hx.2
            simp only [List.mem_filter, bne_iff_ne, ne_eq, not_and, not_not] at hx2
            by_cases hxs : x ∈ (List.foldl
                (fun acc edge => dfs graph fuel edge.to_ (path ++ [v]) acc)
                { st with visited := setAdd st.visited v,
                          recursionStack := setAdd st.recursionStack v }
                (graph.edges.filter (fun edge => edge.from_ == v))).recursionStack
            · have hxv : x = v := hx2 hxs
              rw [hxv]
              intro hcon
              obtain ⟨w, hedge, hw⟩ := onCycle_successor graph v hcon
              obtain ⟨e, he, hfrom, hto⟩ := (hasEdge_iff graph v w).mp hedge
              have hmem : e ∈ graph.edges.filter (fun edge => edge.from_ == v) :=
                List.mem_filter.mpr ⟨he, by simpa using hfrom⟩
              rcases hall2 e hmem with hd | hf
              · exact hD hd
              · rw [hto] at hf
                exact hfin2 w hf hw
            · exact hfin2 x ⟨hx1, hxs⟩
        · intro x hx
          exact hvis2 x ((mem_setAdd _ _ _).mpr (Or.inl hx))
        · simp only [List.mem_filter, bne_iff_ne, ne_eq, not_true_eq_false, and_false,
            not_false_eq_true]

theorem dfsStart_spec (graph : GraphData) (st : DfsState) (name : String)
    (hwf : DfsWF graph [] st) (hgood : DfsGood graph st) :
    DfsPost graph [] name st (dfsStart graph st name) := by
  unfold dfsStart
  by_cases hvis : name ∈ st.visited
  · rw [if_pos hvis]
    refine ⟨hwf, hgood, fun _ h => h, fun _ h => h, Or.inr ⟨hvis, ?_⟩⟩
    intro hcon
    have := (hwf.stack_iff name).mp hcon
    simp at this
  · rw [if_neg hvis]
    exact dfs_spec graph (dfsFuel graph) name [] st hwf hgood (by simp [dfsFuel])
      (fun u hu => by simp at hu)

theorem dfsStart_fold_spec (graph : GraphData) (ks : List String) :
    ∀ st, DfsWF graph [] st → DfsGood graph st →
      DfsWF graph [] (ks.foldl (dfsStart graph) st) ∧
      DfsGood graph (ks.foldl (dfsStart graph) st) ∧
      (∀ x ∈ st.visited, x ∈ (ks.foldl (dfsStart graph) st).visited) ∧
      (∀ x ∈ st.deadlockNodes, x ∈ (ks.foldl (dfsStart graph) st).deadlockNodes) ∧
      ∀ k ∈ ks, Detected graph (ks.foldl (dfsStart graph) st) ∨
        Finished (ks.foldl (dfsStart graph) st) k := by
  induction ks with
  | nil =>
    intro st hwf hgood
    exact ⟨hwf, hgood, fun _ h => h, fun _ h => h, fun k hk => by simp at hk⟩
  | cons k rest ih =>
    intro st hwf hgood
    have hpost := dfsStart_spec graph st k hwf hgood
    obtain ⟨h1, h2, h3, h4, h5⟩ := ih (dfsStart graph st k) hpost.wf hpost.good
    simp only [List.foldl_cons]
    refine ⟨h1, h2, fun x hx => h3 x (hpost.visited_mono x hx),
      fun x hx => h4 x (hpost.recorded_mono x hx), ?_⟩
    intro k' hk'
    rcases List.mem_cons.mp hk' with rfl | hmem
    · rcases hpost.settled with hd | hf
      · exact Or.inl (detected_mono graph _ _ h4 hd)
      · exact Or.inr (finished_persist graph [] _ _ hpost.wf h1 h3 _ hf)
    · exact h5 k' hmem

theorem dfsAll_spec (graph : GraphData) :
    DfsGood graph (dfsAll graph) ∧
    ∀ k, k ∈ JsObj.keys graph.processes ∨ k ∈ JsObj.keys graph.resources →
      Detected graph (dfsAll graph) ∨ Finished (dfsAll graph) k := by
  have hwf0 : DfsWF graph [] { visited := [], recursionStack := [], deadlockNodes := [] } :=
    ⟨fun x => by simp, fun x hx => by simp at hx, List.nodup_nil, rfl,
      fun x hx => by simp at hx⟩
  have hgood0 : DfsGood graph { visited := [], recursionStack := [], deadlockNodes := [] } :=
    ⟨fun x hx => by simp at hx, Or.inr (fun x hx => by simp [Finished] at hx)⟩
  obtain ⟨a1, a2, a3, a4, a5⟩ :=
    dfsStart_fold_spec graph (JsObj.keys graph.processes) _ hwf0 hgood0
  obtain ⟨b1, b2, b3, b4, b5⟩ :=
    dfsStart_fold_spec graph (JsObj.keys graph.resources) _ a1 a2
  refine ⟨b2, ?_⟩
  intro k hk
  rcases hk with hk | hk
  · rcases a5 k hk with hd | hf
    · exact Or.inl (detected_mono graph _ _ b4 hd)
    · exact Or.inr (finished_persist graph [] _ _ a1 b1 b3 _ hf)
  · exact b5 k hk

theorem detectDeadlock_eq_filter (graph : GraphData) :
    Graph.detectDeadlock graph
      = (dfsAll graph).deadlockNodes.filter
          (fun node => (JsObj.get? graph.processes node).isSome) := rfl

theorem isSome_get?_mem_keys {κ α : Type} [DecidableEq κ] (m : JsObj κ α) (k : κ)
    (h : (JsObj.get? m k).isSome = true) : k ∈ JsObj.keys m := by
  cases hg : JsObj.get? m k with
  | none => rw [hg] at h; simp at h
  | some v => exact mem_keys_of_get? m k v hg

theorem get?_foldl_set_names {α : Type} (name : α → String) (l : List α) :
    ∀ (init : JsObj String α) (x : String),
      (JsObj.get? (l.foldl (fun g p => JsObj.set g (name p) p) init) x).isSome = true →
      (JsObj.get? init x).isSome = true ∨ ∃ p ∈ l, name p = x := by
  induction l with
  | nil =>
    intro init x h
    exact Or.inl h
  | cons a rest ih =>
    intro init x h
    simp only [List.foldl_cons] at h
    rcases ih _ x h with h1 | ⟨p, hp, hpx⟩
    · rw [JsObj.get?_set] at h1
      by_cases hax : name a = x
      · exact Or.inr ⟨a, List.mem_cons_self _ _, hax⟩
      · simp only [hax, if_false] at h1
        exact Or.inl h1
    · exact Or.inr ⟨p, List.mem_cons_of_mem _ hp, hpx⟩

/-- C19, amended: for every graph none of whose node names is inherited from
`Object.prototype`, every name returned by `Graph.detectDeadlock` is a process node that lies
on a directed cycle of the edges; a call of `dfs` on a node of the recursion stack records
the suffix of the current path that starts at that node. When, besides, no process of a
state has an outstanding request and no process has the name of a resource,
`Graph.detectDeadlock(buildGraph())` is empty. -/
theorem detectDeadlock_sound (graph : GraphData) (hord : graph.ordinary = true) :
    (∀ x ∈ Graph.detectDeadlock graph,
      (JsObj.get? graph.processes x).isSome = true ∧ onCycle graph x) ∧
    (∀ (fuel : Nat) (v : String) (path : List String) (st : DfsState),
      v ∈ st.recursionStack → v ∈ path →
      (dfs graph (fuel + 1) v path st).deadlockNodes
        = (path.drop (path.indexOf v)).foldl setAdd st.deadlockNodes) ∧
    ∀ s : Simulator,
      (buildGraph s).ordinary = true →
      (∀ p ∈ s.processes, ∀ r ∈ s.resources, p.name ≠ r.name) →
      (∀ p ∈ s.processes, ∀ k, JsObj.getD0 p.requested k ≤ 0) →
      Graph.detectDeadlock (buildGraph s) = [] := by
  have hsound : ∀ g : GraphData, ∀ x ∈ Graph.detectDeadlock g,
      (JsObj.get? g.processes x).isSome = true ∧ onCycle g x := by
    intro g x hx
    rw [detectDeadlock_eq_filter] at hx
    have := List.mem_filter.mp hx
    exact ⟨this.2, (dfsAll_spec g).1.sound x this.1⟩
  refine ⟨hsound graph, ?_, ?_⟩
  · intro fuel v path st hstack hv
    have hidx : path.indexOf v < path.length := List.indexOf_lt_length.mpr hv
    simp only [dfs, hstack, hidx, if_true]
  · intro s _ hdisj hnone
    rw [List.eq_nil_iff_forall_not_mem]
    intro x hx
    obtain ⟨hproc, hcyc⟩ := hsound (buildGraph s) x hx
    have hname : ∃ p ∈ s.processes, p.name = x := by
      have := get?_foldl_set_names Process.name s.processes [] x hproc
      rcases this with h | h
      · simp [JsObj.get?] at h
      · exact h
    obtain ⟨p, hp, hpx⟩ := hname
    obtain ⟨w, hedge, _⟩ := onCycle_successor (buildGraph s) x hcyc
    obtain ⟨e, he, hfrom, _⟩ := (hasEdge_iff (buildGraph s) x w).mp hedge
    rcases (mem_buildGraph_edges s e).mp he with
      ⟨r, hr, pid, c, q, _, _, _, heq⟩ | ⟨q, hq, n, c, hget, hc, _⟩
    · have : e.from_ = r.name := by rw [heq]
      exact hdisj p hp r hr (hpx.trans (hfrom.symm.trans this))
    · have := hnone q hq n
      simp only [JsObj.getD0, hget, Option.getD_some] at this
      omega

theorem detectDeadlock_sound_witness :
    (buildGraph (run Simulator.fresh twoByTwoOps)).ordinary = true ∧
    (∀ x ∈ Graph.detectDeadlock (buildGraph (run Simulator.fresh twoByTwoOps)),
      (JsObj.get? (buildGraph (run Simulator.fresh twoByTwoOps)).processes x).isSome = true ∧
        onCycle (buildGraph (run Simulator.fresh twoByTwoOps)) x) ∧
    (∀ (fuel : Nat) (v : String) (path : List String) (st : DfsState),
      v ∈ st.recursionStack → v ∈ path →
      (dfs (buildGraph (run Simulator.fresh twoByTwoOps)) (fuel + 1) v path st).deadlockNodes
        = (path.drop (path.indexOf v)).foldl setAdd st.deadlockNodes) ∧
    ∀ s : Simulator,
      (buildGraph s).ordinary = true →
      (∀ p ∈ s.processes, ∀ r ∈ s.resources, p.name ≠ r.name) →
      (∀ p ∈ s.processes, ∀ k, JsObj.getD0 p.requested k ≤ 0) →
      Graph.detectDeadlock (buildGraph s) = [] :=
  ⟨by decide, detectDeadlock_sound (buildGraph (run Simulator.fresh twoByTwoOps)) (by decide)⟩

/-- C19, as stated, fails: after `sharedNameOps` no process has an outstanding request, the
only edge is the allocation edge from the resource X to the process X, and
`Graph.detectDeadlock` returns X. -/
theorem shared_name_counterexample :
    (run Simulator.fresh sharedNameOps).processes.map (fun p => p.requested) = [[]] ∧
    (buildGraph (run Simulator.fresh sharedNameOps)).edges
      = [⟨"X", "X", EdgeType.allocation, 1⟩] ∧
    Graph.detectDeadlock (buildGraph (run Simulator.fresh sharedNameOps)) = ["X"] := by
  decide

/-- C28: cycle existence is never missed. For every graph each of whose edges joins a listed
process node and a listed resource node, if the edges contain a directed cycle then
`Graph.detectDeadlock` returns a non-empty list. -/
theorem detectDeadlock_complete (graph : GraphData)
    (hbip : ∀ e ∈ graph.edges,
      ((JsObj.get? graph.processes e.from_).isSome = true ∧
        (JsObj.get? graph.resources e.to_).isSome = true) ∨
      ((JsObj.get? graph.resources e.from_).isSome = true ∧
        (JsObj.get? graph.processes e.to_).isSome = true))
    (hcyc : ∃ c, isCycle graph c = true) :
    Graph.detectDeadlock graph ≠ [] := by
  obtain ⟨hgood, hall⟩ := dfsAll_spec graph
  rw [detectDeadlock_eq_filter]
  by_cases hD : Detected graph (dfsAll graph)
  · obtain ⟨e, he, h1, h2⟩ := hD
    intro hnil
    rcases hbip e he with h | h
    · have : e.from_ ∈ (dfsAll graph).deadlockNodes.filter
          (fun node => (JsObj.get? graph.processes node).isSome) :=
        List.mem_filter.mpr ⟨h1, h.1⟩
      rw [hnil] at this
      simp at this
    · have : e.to_ ∈ (dfsAll graph).deadlockNodes.filter
          (fun node => (JsObj.get? graph.processes node).isSome) :=
        List.mem_filter.mpr ⟨h2, h.2⟩
      rw [hnil] at this
      simp at this
  · exfalso
    have hfin := hgood.acyclic.resolve_left hD
    obtain ⟨c, hc⟩ := hcyc
    have hne : ∃ x, x ∈ c := by
      unfold isCycle at hc
      cases hh : c.head? with
      | none => simp [hh] at hc
      | some first => exact ⟨first, List.mem_of_mem_head? hh⟩
    obtain ⟨x, hx⟩ := hne
    obtain ⟨w, _, hedge⟩ := successor_on_cycle graph c x hc hx
    obtain ⟨e, he, hfrom, _⟩ := (hasEdge_iff graph x w).mp hedge
    have hkey : x ∈ JsObj.keys graph.processes ∨ x ∈ JsObj.keys graph.resources := by
      rcases hbip e he with h | h
      · exact Or.inl (hfrom ▸ isSome_get?_mem_keys _ _ h.1)
      · exact Or.inr (hfrom ▸ isSome_get?_mem_keys _ _ h.1)
    rcases hall x hkey with hd | hf
    · exact hD hd
    · exact hfin x hf ⟨c, hx, hc⟩

theorem detectDeadlock_complete_witness :
    (∀ e ∈ (buildGraph (run Simulator.fresh twoByTwoOps)).edges,
      ((JsObj.get? (buildGraph (run Simulator.fresh twoByTwoOps)).processes e.from_).isSome
          = true ∧
        (JsObj.get? (buildGraph (run Simulator.fresh twoByTwoOps)).resources e.to_).isSome
          = true) ∨
      ((JsObj.get? (buildGraph (run Simulator.fresh twoByTwoOps)).resources e.from_).isSome
          = true ∧
        (JsObj.get? (buildGraph (run Simulator.fresh twoByTwoOps)).processes e.to_).isSome
          = true)) ∧
    (∃ c, isCycle (buildGraph (run Simulator.fresh twoByTwoOps)) c = true) ∧
    Graph.detectDeadlock (buildGraph (run Simulator.fresh twoByTwoOps)) ≠ [] :=
  ⟨by decide, ⟨["P1", "R2", "P2", "R1"], by decide⟩,
    detectDeadlock_complete (buildGraph (run Simulator.fresh twoByTwoOps)) (by decide)
      ⟨["P1", "R2", "P2", "R1"], by decide⟩⟩

/-! ## The entries of the two allocation maps -/

theorem get?_lowered {κ : Type} [DecidableEq κ] [JsKey κ] (m : JsObj κ Int) (k k' : κ)
    (c : Int) :
    JsObj.get? (if JsObj.getD0 m k - c ≤ 0 then JsObj.delete (JsObj.set m k (JsObj.getD0 m k - c)) k
      else JsObj.set m k (JsObj.getD0 m k - c)) k'
      = if k = k' then (if JsObj.getD0 m k - c ≤ 0 then none else some (JsObj.getD0 m k - c))
        else JsObj.get? m k' := by
  by_cases hle : JsObj.getD0 m k - c ≤ 0
  · simp only [hle, if_true, JsObj.delete_set, JsObj.get?_delete]
  · simp only [hle, if_false, JsObj.get?_set]

theorem getD0_congr {κ κ' : Type} [DecidableEq κ] [DecidableEq κ'] (m : JsObj κ Int)
    (m' : JsObj κ' Int) (k : κ) (k' : κ') (h : JsObj.get? m k = JsObj.get? m' k') :
    JsObj.getD0 m k = JsObj.getD0 m' k' := by
  unfold JsObj.getD0
  rw [h]

theorem inv_uniqueIds (s : Simulator) (h : Inv s) : UniqueIds s := by
  refine ⟨?_, h.1.rids_nodup⟩
  have := h.1.pids_nodup
  rwa [holding_ids] at this

theorem agree_update (ps : List Process) (rs : List Resource)
    (hpn : (ps.map Process.id).Nodup) (hrn : (rs.map Resource.id).Nodup)
    (hnn : (rs.map Resource.name).Nodup) (a b : Nat) (p0 : Process) (r0 : Resource)
    (hp0 : p0 ∈ ps) (hr0 : r0 ∈ rs) (hpa : p0.id = a) (hrb : r0.id = b)
    (f : Process → Process) (g : Resource → Resource)
    (hfid : ∀ q, (f q).id = q.id) (hgname : ∀ q, (g q).name = q.name)
    (hf : ∀ k, k ≠ r0.name → JsObj.get? (f p0).allocated k = JsObj.get? p0.allocated k)
    (hg : ∀ k, k ≠ a → JsObj.get? (g r0).allocated k = JsObj.get? r0.allocated k)
    (hfg : JsObj.get? (f p0).allocated r0.name = JsObj.get? (g r0).allocated a)
    (h : ∀ p ∈ ps, ∀ r ∈ rs, JsObj.get? p.allocated r.name = JsObj.get? r.allocated p.id) :
    ∀ p ∈ updateFirst (fun p => p.id == a) f ps, ∀ r ∈ updateFirst (fun r => r.id == b) g rs,
      JsObj.get? p.allocated r.name = JsObj.get? r.allocated p.id := by
  rw [updateFirst_eq_map Process.id a f ps hpn, updateFirst_eq_map Resource.id b g rs hrn]
  intro p' hp' r' hr'
  obtain ⟨p, hp, rfl⟩ := List.mem_map.mp hp'
  obtain ⟨r, hr, rfl⟩ := List.mem_map.mp hr'
  by_cases hpid : p.id = a
  · have hpp : p = p0 :=
      eq_of_mem_of_key_eq Process.id ps hpn p p0 hp hp0 (hpid.trans hpa.symm)
    subst hpp
    by_cases hrid : r.id = b
    · have hrr : r = r0 :=
        eq_of_mem_of_key_eq Resource.id rs hrn r r0 hr hr0 (hrid.trans hrb.symm)
      subst hrr
      simp only [hpid, hrid, if_true, hgname, hfid]
      exact hfg
    · have hne : r.name ≠ r0.name := by
        intro hcon
        have := eq_of_mem_of_key_eq Resource.name rs hnn r r0 hr hr0 hcon
        exact hrid (this ▸ hrb)
      simp only [hpid, hrid, if_true, if_false, hfid]
      rw [hf r.name hne]
      have := h p hp r hr
      rw [hpid] at this
      exact this
  · by_cases hrid : r.id = b
    · have hrr : r = r0 :=
        eq_of_mem_of_key_eq Resource.id rs hrn r r0 hr hr0 (hrid.trans hrb.symm)
      subst hrr
      simp only [hpid, hrid, if_true, if_false, hgname]
      rw [hg p.id hpid]
      exact h p hp r hr
    · simp only [hpid, hrid, if_false]
      exact h p hp r hr

theorem agree_of_allocated_same (ps ps' : List Process) (rs : List Resource)
    (hps : ∀ p' ∈ ps', ∃ p ∈ ps, p'.id = p.id ∧ p'.allocated = p.allocated)
    (h : ∀ p ∈ ps, ∀ r ∈ rs, JsObj.get? p.allocated r.name = JsObj.get? r.allocated p.id) :
    ∀ p ∈ ps', ∀ r ∈ rs, JsObj.get? p.allocated r.name = JsObj.get? r.allocated p.id := by
  intro p' hp' r hr
  obtain ⟨p, hp, hid, hal⟩ := hps p' hp'
  rw [hid, hal]
  exact h p hp r hr

theorem assignResource_agree (t : Simulator) (a b : Nat) (c : Int) (hu : UniqueIds t)
    (hn : (t.resources.map Resource.name).Nodup) (h : EntryAgree t) :
    EntryAgree (assignResource t a b c).2 := by
  unfold assignResource
  cases hp : findProcess t a with
  | none => exact h
  | some p0 =>
    cases hr : findResource t b with
    | none => exact h
    | some r0 =>
      simp only []
      split
      · exact h
      · have hp0 : p0 ∈ t.processes := List.mem_of_find?_eq_some hp
        have hr0 : r0 ∈ t.resources := List.mem_of_find?_eq_some hr
        have hpa : p0.id = a := findProcess_id hp
        refine agree_update t.processes t.resources hu.1 hu.2 hn a b p0 r0 hp0 hr0 hpa
          (findResource_id hr) (fun q => assignProcessEntry q r0.name c)
          (fun q => assignResourceEntry q p0.id c)
          (fun q => assignProcessEntry_id q r0.name c) (fun q => rfl) ?_ ?_ ?_ h
        · intro k hk
          exact assignProcessEntry_allocated_ne p0 r0.name k c (fun hcon => hk hcon.symm)
        · intro k hk
          simp only [assignResourceEntry]
          rw [hpa]
          exact JsObj.get?_set_ne _ _ _ _ (fun hcon => hk hcon.symm)
        · simp only [assignResourceEntry]
          rw [assignProcessEntry_allocated, JsObj.get?_set_self, hpa, JsObj.get?_set_self,
            getD0_congr _ _ _ _ (h p0 hp0 r0 hr0), hpa]

theorem wakeUp_agree (s : Simulator) (hu : UniqueIds s)
    (hn : (s.resources.map Resource.name).Nodup) (h : EntryAgree s) :
    EntryAgree (wakeUp s) := by
  have key := wakeUp_preserves
    (fun t => UniqueIds t ∧ (t.resources.map Resource.name).Nodup ∧ EntryAgree t)
    (fun t a b c _ ht => ⟨uniqueIds_assignResource t a b c ht.1,
      by rw [assignResource_names]; exact ht.2.1,
      assignResource_agree t a b c ht.1 ht.2.1 ht.2.2⟩) s ⟨hu, hn, h⟩
  exact key.2.2

theorem requestLedger_agree (s : Simulator) (a : Nat) (r : Resource) (c : Int)
    (h : EntryAgree s) : EntryAgree (requestLedger s a r c) := by
  refine agree_of_allocated_same s.processes _ s.resources ?_ h
  intro p' hp'
  rcases mem_updateFirst _ _ _ p' hp' with hmem | ⟨y, hy, rfl⟩
  · exact ⟨p', hmem, rfl, rfl⟩
  · exact ⟨y, List.mem_of_find?_eq_some hy, rfl, rfl⟩

theorem releaseLedger_agree (s : Simulator) (a b : Nat) (p : Process) (r : Resource)
    (c : Int) (hp : findProcess s a = some p) (hr : findResource s b = some r)
    (hu : UniqueIds s) (hn : (s.resources.map Resource.name).Nodup) (h : EntryAgree s) :
    EntryAgree (releaseLedger s a b p r c) := by
  have hp0 : p ∈ s.processes := List.mem_of_find?_eq_some hp
  have hr0 : r ∈ s.resources := List.mem_of_find?_eq_some hr
  have hpa : p.id = a := findProcess_id hp
  refine agree_update s.processes s.resources hu.1 hu.2 hn a b p r hp0 hr0 hpa
    (findResource_id hr) (fun q => releaseProcessEntry q r.name c)
    (fun q => releaseResourceEntry q p.id c) (fun q => rfl) (fun q => rfl) ?_ ?_ ?_ h
  · intro k hk
    have hne : ¬ r.name = k := fun hcon => hk hcon.symm
    simp only [releaseProcessEntry]
    rw [get?_lowered, if_neg hne]
  · intro k hk
    have hne : ¬ a = k := fun hcon => hk hcon.symm
    simp only [releaseResourceEntry]
    rw [get?_lowered, hpa, if_neg hne]
  · simp only [releaseProcessEntry, releaseResourceEntry]
    rw [get?_lowered, get?_lowered, hpa, getD0_congr _ _ _ _ (h p hp0 r hr0), hpa]
    simp only [if_true]

theorem releaseAllLedger_resources (s : Simulator) (a : Nat) (p : Process)
    (hp : findProcess s a = some p) (hinv : Inv s) (h : EntryAgree s) :
    (releaseAllLedger s a p).resources
      = s.resources.map (fun r => { r with
          availableInstances := r.availableInstances + JsObj.getD0 r.allocated a
          allocated := JsObj.delete r.allocated a }) := by
  have hpm : p ∈ s.processes := List.mem_of_find?_eq_some hp
  have hpa : p.id = a := findProcess_id hp
  have hkeys : (JsObj.keys p.allocated).Nodup :=
    hinv.1.keys_nodup p.holding (List.mem_map_of_mem _ hpm)
  unfold releaseAllLedger
  simp only []
  rw [releaseAll_fold_eq_map p _ s.resources hkeys hinv.1.names_nodup]
  apply List.map_congr_left
  intro r hr
  have hag := h p hpm r hr
  rw [hpa] at hag
  cases hg : JsObj.get? p.allocated r.name with
  | none =>
    have hnk : r.name ∉ JsObj.keys p.allocated := (JsObj.get?_eq_none_iff _ _).mp hg
    have hra : JsObj.get? r.allocated a = none := by rw [← hag, hg]
    simp only [hnk, if_false]
    have h0 : JsObj.getD0 r.allocated a = 0 := by simp [JsObj.getD0, hra]
    rw [h0, JsObj.delete_of_absent _ _ hra]
    simp
  | some c =>
    have hk : r.name ∈ JsObj.keys p.allocated := mem_keys_of_get? _ _ _ hg
    have hra : JsObj.get? r.allocated a = some c := by rw [← hag, hg]
    have hc : JsObj.getD0 r.allocated a = c := by simp [JsObj.getD0, hra]
    simp only [hk, if_true, Option.elim, releaseResourceEntry, hpa, hc, sub_self, le_refl,
      JsObj.delete_set]

theorem releaseAllLedger_agree (s : Simulator) (a : Nat) (p : Process)
    (hp : findProcess s a = some p) (hinv : Inv s) (h : EntryAgree s) :
    EntryAgree (releaseAllLedger s a p) := by
  have hu := inv_uniqueIds s hinv
  have hres := releaseAllLedger_resources s a p hp hinv h
  have hpa : p.id = a := findProcess_id hp
  have hpm : p ∈ s.processes := List.mem_of_find?_eq_some hp
  intro p' hp' r' hr'
  rw [hres] at hr'
  obtain ⟨r, hr, rfl⟩ := List.mem_map.mp hr'
  have hp'' : p' ∈ updateFirst (fun q => q.id == a)
      (fun q => { q with allocated := [], waiting := false, state := ProcState.ready })
      s.processes := hp'
  rw [updateFirst_eq_map Process.id a _ s.processes hu.1] at hp''
  obtain ⟨q, hq, rfl⟩ := List.mem_map.mp hp''
  by_cases hqa : q.id = a
  · simp only [hqa, if_true, JsObj.get?_delete_self]
    rfl
  · simp only [hqa, if_false]
    rw [JsObj.get?_delete_ne _ _ _ (fun hcon => hqa hcon.symm)]
    exact h q hq r hr

theorem step_agree (s : Simulator) (op : Op) (hinv : Inv s)
    (hnames : ((step s op).resources.map Resource.name).Nodup) (h : EntryAgree s) :
    EntryAgree (step s op) := by
  have hu := inv_uniqueIds s hinv
  have hn := hinv.1.names_nodup
  cases op with
  | addProcess name =>
    simp only [step, addProcess]
    have hfresh : s.nextProcessId ∉ s.processes.map Process.id :=
      fun hmem => Nat.lt_irrefl _ (hinv.2.1 _ hmem)
    refine wakeUp_agree _ ⟨?_, hu.2⟩ hn ?_
    · simp only [List.map_append, List.map_cons, List.map_nil]
      rw [List.nodup_append]
      refine ⟨hu.1, List.nodup_singleton _, ?_⟩
      intro x hx hx'
      have : x = s.nextProcessId := by simpa using hx'
      exact hfresh (this ▸ hx)
    · intro p hp r hr
      rcases List.mem_append.mp hp with hp | hp
      · exact h p hp r hr
      · have hpe : p = _ := List.mem_singleton.mp hp
        subst hpe
        simp only []
        cases hg : JsObj.get? r.allocated s.nextProcessId with
        | none => rfl
        | some v =>
          have := hinv.1.holders_exist r hr s.nextProcessId (by rw [hg]; simp)
          rw [holding_ids] at this
          exact absurd this hfresh
  | addResource name n =>
    simp only [step, addResource] at hnames ⊢
    rw [wakeUp_names] at hnames
    have hfresh : s.nextResourceId ∉ s.resources.map Resource.id :=
      fun hmem => Nat.lt_irrefl _ (hinv.2.2 _ hmem)
    refine wakeUp_agree _ ⟨hu.1, ?_⟩ hnames ?_
    · simp only [List.map_append, List.map_cons, List.map_nil]
      rw [List.nodup_append]
      refine ⟨hu.2, List.nodup_singleton _, ?_⟩
      intro x hx hx'
      have : x = s.nextResourceId := by simpa using hx'
      exact hfresh (this ▸ hx)
    · simp only [List.map_append, List.map_cons, List.map_nil] at hnames
      intro p hp r hr
      rcases List.mem_append.mp hr with hr | hr
      · exact h p hp r hr
      · have hre : r = _ := List.mem_singleton.mp hr
        subst hre
        simp only []
        cases hg : JsObj.get? p.allocated
            (if name ≠ "" then name else "R" ++ toString (s.resources.length + 1)) with
        | none => rfl
        | some v =>
          have hmem := hinv.1.held_named p.holding (List.mem_map_of_mem _ hp) _
            (by simp only [Process.holding]; rw [hg]; simp)
          have := List.disjoint_of_nodup_append hnames hmem
          simp at this
  | requestResource a b c =>
    simp only [step]
    unfold requestResource
    cases hp : findProcess s a with
    | none => exact h
    | some p =>
      cases hr : findResource s b with
      | none => exact h
      | some r =>
        simp only []
        split
        · exact h
        · split
          · have hinv' := requestLedger_inv s a r c hinv
            exact assignResource_agree _ a b c (inv_uniqueIds _ hinv') hinv'.1.names_nodup
              (requestLedger_agree s a r c h)
          · exact requestLedger_agree s a r c h
  | assignResource a b c =>
    exact assignResource_agree s a b c hu hn h
  | releaseResource a b c =>
    simp only [step]
    unfold releaseResource
    cases hp : findProcess s a with
    | none => exact h
    | some p =>
      cases hr : findResource s b with
      | none => exact h
      | some r =>
        simp only []
        split
        · exact h
        · next hc =>
          have hinv' := releaseLedger_inv s a b p r c hp hr hc hinv
          exact wakeUp_agree _ (inv_uniqueIds _ hinv') hinv'.1.names_nodup
            (releaseLedger_agree s a b p r c hp hr hu hn h)
  | releaseAllResources a =>
    simp only [step]
    unfold releaseAllResources
    cases hp : findProcess s a with
    | none => exact h
    | some p =>
      simp only []
      have hinv' := releaseAllLedger_inv s a p hp hinv
      exact wakeUp_agree _ (inv_uniqueIds _ hinv') hinv'.1.names_nodup
        (releaseAllLedger_agree s a p hp hinv h)
  | detectDeadlock =>
    simp only [step]
    unfold detectDeadlock
    simp only []
    split
    · refine agree_of_allocated_same s.processes _ s.resources ?_ h
      intro p' hp'
      obtain ⟨q, hq, rfl⟩ := List.mem_map.mp hp'
      refine ⟨q, hq, ?_, ?_⟩ <;> split <;> rfl
    · refine agree_of_allocated_same s.processes _ s.resources ?_ h
      intro p' hp'
      obtain ⟨q, hq, rfl⟩ := List.mem_map.mp hp'
      refine ⟨q, hq, ?_, ?_⟩ <;> split <;> rfl

theorem run_agree (ops : List Op)
    (hnames : ((run Simulator.fresh ops).resources.map Resource.name).Nodup) :
    EntryAgree (run Simulator.fresh ops) := by
  induction ops using List.reverseRecOn with
  | nil =>
    intro p hp
    simp [run, Simulator.fresh] at hp
  | append_singleton ops op ih =>
    have hrun : run Simulator.fresh (ops ++ [op]) = step (run Simulator.fresh ops) op := by
      simp [run, List.foldl_append]
    rw [hrun] at hnames ⊢
    obtain ⟨extra, hextra⟩ := step_names (run Simulator.fresh ops) op
    have hprev : ((run Simulator.fresh ops).resources.map Resource.name).Nodup := by
      rw [hextra] at hnames
      exact (List.nodup_append.mp hnames).1
    exact step_agree _ op (run_inv ops hprev) hnames (ih hprev)

/-! ## releaseAllResources -/

theorem scan_skips_unflagged (s : Simulator) (i : Nat) (p : Process) (hu : UniqueIds s)
    (hp : s.processes[i]? = some p) (hw : p.waiting = false) (l : List Nat) :
    UniqueIds (l.foldl autoAssignProcess s) ∧
    (l.foldl autoAssignProcess s).processes[i]? = some p := by
  refine foldl_preserves (fun t => UniqueIds t ∧ t.processes[i]? = some p) autoAssignProcess l
    ?_ s ⟨hu, hp⟩
  intro t j _ ht
  by_cases hji : j = i
  · subst hji
    have : autoAssignProcess t j = t := by
      unfold autoAssignProcess
      simp [ht.2, hw]
    rw [this]
    exact ht
  · have h1 := scan_prefix_ids t ht.1 [j]
    have h2 := scan_rest_idle i t p ht.1 ht.2 [j] (fun j' hj' => by
      have : j' = j := by simpa using hj'
      rw [this]; exact hji)
    exact ⟨h1.1, h2.2⟩

/-- C12, amended: in every state reached with pairwise distinct resource names, for every
existing process `p`, `releaseAllResources(p)` returns true; before the wake-up scan every
resource has got back exactly the instances it had recorded for `p` and has no entry for `p`
left; and when the call returns `p.allocated` is empty, the state of `p` is `ready`, and no
resource has an entry for `p` in its allocation map. -/
theorem releaseAllResources_returns (ops : List Op)
    (hnames : ((run Simulator.fresh ops).resources.map Resource.name).Nodup)
    (a : Nat) (p : Process) (hp : findProcess (run Simulator.fresh ops) a = some p) :
    (releaseAllResources (run Simulator.fresh ops) a).1 = true ∧
    (releaseAllLedger (run Simulator.fresh ops) a p).resources
      = (run Simulator.fresh ops).resources.map (fun r => { r with
          availableInstances := r.availableInstances + JsObj.getD0 r.allocated a
          allocated := JsObj.delete r.allocated a }) ∧
    (∃ p', findProcess (releaseAllResources (run Simulator.fresh ops) a).2 a = some p' ∧
      p'.allocated = [] ∧ p'.state = ProcState.ready) ∧
    ∀ r ∈ (releaseAllResources (run Simulator.fresh ops) a).2.resources,
      JsObj.get? r.allocated a = none := by
  have hinv := run_inv ops hnames
  have hag := run_agree ops hnames
  have hu := inv_uniqueIds _ hinv
  have hpa : p.id = a := findProcess_id hp
  have hpm : p ∈ (run Simulator.fresh ops).processes := List.mem_of_find?_eq_some hp
  have hinv' := releaseAllLedger_inv _ a p hp hinv
  have hu' := inv_uniqueIds _ hinv'
  have hag' := releaseAllLedger_agree _ a p hp hinv hag
  have hfin : (releaseAllResources (run Simulator.fresh ops) a)
      = (true, wakeUp (releaseAllLedger (run Simulator.fresh ops) a p)) := by
    unfold releaseAllResources
    rw [hp]
  have hinvF := wakeUp_inv _ hinv'
  have huF := inv_uniqueIds _ hinvF
  have hagF := wakeUp_agree _ hu' hinv'.1.names_nodup hag'
  obtain ⟨i, hi⟩ := List.mem_iff_getElem?.mp hpm
  have hmid : (releaseAllLedger (run Simulator.fresh ops) a p).processes[i]?
      = some { p with allocated := [], waiting := false, state := ProcState.ready } := by
    have : (releaseAllLedger (run Simulator.fresh ops) a p).processes
        = updateFirst (fun q => q.id == a)
            (fun q => { q with allocated := [], waiting := false, state := ProcState.ready })
            (run Simulator.fresh ops).processes := rfl
    rw [this, updateFirst_eq_map Process.id a _ _ hu.1, List.getElem?_map, hi]
    simp [hpa]
  have hfinal : (wakeUp (releaseAllLedger (run Simulator.fresh ops) a p)).processes[i]?
      = some { p with allocated := [], waiting := false, state := ProcState.ready } := by
    unfold wakeUp
    split
    · exact (scan_skips_unflagged _ i _ hu' hmid rfl _).2
    · exact hmid
  have hmemF := List.getElem?_mem hfinal
  rw [hfin]
  refine ⟨rfl, releaseAllLedger_resources _ a p hp hinv hag,
    ⟨⟨a, p.name, ProcState.ready, [], p.requested, false⟩, ?_, rfl, rfl⟩, ?_⟩
  · have h3 : findProcess (wakeUp (releaseAllLedger (run Simulator.fresh ops) a p)) p.id
        = some ⟨p.id, p.name, ProcState.ready, [], p.requested, false⟩ :=
      findProcess_of_mem _ huF.1 _ hmemF
    rw [hpa] at h3
    exact h3
  · intro r hr
    have h3 : JsObj.get? ([] : JsObj String Int) r.name = JsObj.get? r.allocated p.id :=
      hagF _ hmemF r hr
    rw [hpa] at h3
    exact h3.symm

theorem releaseAllResources_returns_witness :
    ((run Simulator.fresh twoByTwoOps).resources.map Resource.name).Nodup ∧
    findProcess (run Simulator.fresh twoByTwoOps) 1
      = some ⟨1, "P1", ProcState.waiting, [("R1", 1)], [("R2", 1)], true⟩ ∧
    (releaseAllResources (run Simulator.fresh twoByTwoOps) 1).1 = true ∧
    (releaseAllLedger (run Simulator.fresh twoByTwoOps) 1
        ⟨1, "P1", ProcState.waiting, [("R1", 1)], [("R2", 1)], true⟩).resources
      = (run Simulator.fresh twoByTwoOps).resources.map (fun r => { r with
          availableInstances := r.availableInstances + JsObj.getD0 r.allocated 1
          allocated := JsObj.delete r.allocated 1 }) ∧
    (∃ p', findProcess (releaseAllResources (run Simulator.fresh twoByTwoOps) 1).2 1 = some p' ∧
      p'.allocated = [] ∧ p'.state = ProcState.ready) ∧
    ∀ r ∈ (releaseAllResources (run Simulator.fresh twoByTwoOps) 1).2.resources,
      JsObj.get? r.allocated 1 = none :=
  ⟨by decide, by decide,
    releaseAllResources_returns twoByTwoOps (by decide) 1
      ⟨1, "P1", ProcState.waiting, [("R1", 1)], [("R2", 1)], true⟩ (by decide)⟩

/-- C12, as stated, fails: with two resources named R, of which the process holds the second,
`releaseAllResources` returns the instance to the first: the first resource has 2 instances
available out of 1, the second still has none available and still has its entry for the
process. -/
theorem releaseAll_wrong_pool_counterexample :
    (run Simulator.fresh duplicateNameReleaseAllOps).resources
      = [⟨1, "R", 1, 2, []⟩, ⟨2, "R", 1, 0, [(1, 1)]⟩] := by
  decide

/-! ## Recovery by termination of the process of lowest priority -/

theorem recoverRounds_done (priority : Nat → Int) (fuel : Nat) (s : Simulator)
    (h : (detectDeadlock s).1 = []) :
    recoverRounds priority (fuel + 1) s = some ([], (detectDeadlock s).2) := by
  simp [recoverRounds, h]

theorem recoverRounds_round (priority : Nat → Int) (fuel : Nat) (s : Simulator)
    (victim : Process) (removed : List Nat) (s' : Simulator)
    (h : (detectDeadlock s).1 ≠ [])
    (hv : lowestPriority priority
      ((detectDeadlock s).2.processes.filter (fun p => p.name ∈ (detectDeadlock s).1))
      = some victim)
    (hrec : recoverRounds priority fuel
      (removeProcess (releaseAllResources (detectDeadlock s).2 victim.id).2 victim.id)
      = some (removed, s')) :
    recoverRounds priority (fuel + 1) s = some (victim.id :: removed, s') := by
  simp [recoverRounds, h, hv, hrec]

theorem lowestPriority_pair (priority : Nat → Int) (p q : Process) (hid : p.id < q.id) :
    lowestPriority priority [p, q]
      = some (if priority p.id ≤ priority q.id then p else q) := by
  unfold lowestPriority
  simp only [List.foldl_cons, List.foldl_nil]
  by_cases h : priority p.id ≤ priority q.id
  · have hno : ¬ (priority q.id < priority p.id ∨
        (priority q.id = priority p.id ∧ q.id < p.id)) := by
      rintro (h1 | ⟨_, h2⟩)
      · omega
      · omega
    simp only [hno, h, if_true, if_false]
  · have hyes : priority q.id < priority p.id ∨
        (priority q.id = priority p.id ∧ q.id < p.id) := Or.inl (by omega)
    simp only [hyes, h, if_true, if_false]

/-- C24: recovery by terminate-lowest-priority, on the strategy as the spec describes it.
After the two-by-two cycle has been detected, whatever the priorities, `recover` removes
exactly the process with the lower priority value (process 1 when the values are equal),
no resource keeps an entry for the removed process, whose instances have gone back to their
resources and on to the waiting survivor, and a subsequent detection reports nothing. -/
theorem recover_twoByTwo (priority : Nat → Int) :
    (detectDeadlock (run Simulator.fresh twoByTwoOps)).1 = ["P1", "P2"] ∧
    ∃ T, recover priority twoByTwoDetected
        = some ([if priority 1 ≤ priority 2 then 1 else 2], T) ∧
      T.processes.map (fun p => (p.id, p.allocated, p.requested))
        = (if priority 1 ≤ priority 2 then [(2, [("R2", 1), ("R1", 1)], [])]
            else [(1, [("R1", 1), ("R2", 1)], [])]) ∧
      T.resources.map (fun r => (r.name, r.availableInstances, r.allocated))
        = (if priority 1 ≤ priority 2 then [("R1", 0, [(2, 1)]), ("R2", 0, [(2, 1)])]
            else [("R1", 0, [(1, 1)]), ("R2", 0, [(1, 1)])]) ∧
      (detectDeadlock T).1 = [] := by
  refine ⟨by decide, ?_⟩
  have hfuel : twoByTwoDetected.processes.length + 1 = 1 + 1 + 1 := by decide
  have hne : (detectDeadlock twoByTwoDetected).1 ≠ [] := by decide
  have hcand : (detectDeadlock twoByTwoDetected).2.processes.filter
      (fun p => p.name ∈ (detectDeadlock twoByTwoDetected).1)
      = [⟨1, "P1", ProcState.deadlocked, [("R1", 1)], [("R2", 1)], true⟩,
          ⟨2, "P2", ProcState.deadlocked, [("R2", 1)], [("R1", 1)], true⟩] := by decide
  have hpick := lowestPriority_pair priority
    ⟨1, "P1", ProcState.deadlocked, [("R1", 1)], [("R2", 1)], true⟩
    ⟨2, "P2", ProcState.deadlocked, [("R2", 1)], [("R1", 1)], true⟩ (by decide)
  rw [← hcand] at hpick
  by_cases h : priority 1 ≤ priority 2
  · simp only [h, if_true] at hpick ⊢
    refine ⟨(detectDeadlock (removeProcess
      (releaseAllResources (detectDeadlock twoByTwoDetected).2 1).2 1)).2, ?_,
      by decide, by decide, by decide⟩
    unfold recover
    rw [hfuel]
    exact recoverRounds_round priority (1 + 1) twoByTwoDetected _ [] _ hne hpick
      (recoverRounds_done priority 1 _ (by decide))
  · simp only [h, if_false] at hpick ⊢
    refine ⟨(detectDeadlock (removeProcess
      (releaseAllResources (detectDeadlock twoByTwoDetected).2 2).2 2)).2, ?_,
      by decide, by decide, by decide⟩
    unfold recover
    rw [hfuel]
    exact recoverRounds_round priority (1 + 1) twoByTwoDetected _ [] _ hne hpick
      (recoverRounds_done priority 1 _ (by decide))

/-! ## Requests and releases against what the resource records -/

/-- C3, amended: in every state reached with resource names that are pairwise distinct and
not inherited from `Object.prototype`, for every existing process `p` and resource `r` such
that `r` records at least one instance held by `p` (`r.allocated[p.id] >= 1`),
`requestResource(p, r, count)` returns `false` and leaves the whole state as it was. -/
theorem request_rejected_when_held (ops : List Op)
    (hnames : ((run Simulator.fresh ops).resources.map Resource.name).Nodup)
    (hord : ordinaryResources (run Simulator.fresh ops) = true)
    (processId resourceId : Nat) (count : Int) (p : Process) (r : Resource)
    (hp : findProcess (run Simulator.fresh ops) processId = some p)
    (hr : findResource (run Simulator.fresh ops) resourceId = some r)
    (hheld : 1 ≤ JsObj.getD0 r.allocated p.id) :
    requestResource (run Simulator.fresh ops) processId resourceId count
      = (false, run Simulator.fresh ops) := by
  have hagree : JsObj.getD0 p.allocated r.name = JsObj.getD0 r.allocated p.id :=
    (run_inv ops hnames).1.consistent p.holding
      (List.mem_map_of_mem _ (List.mem_of_find?_eq_some hp)) r (List.mem_of_find?_eq_some hr)
  exact requestResource_of_held _ processId resourceId count p r hp hr (by omega)

theorem request_rejected_when_held_witness :
    ((run Simulator.fresh holdingOps).resources.map Resource.name).Nodup ∧
    ordinaryResources (run Simulator.fresh holdingOps) = true ∧
    findProcess (run Simulator.fresh holdingOps) 1
      = some ⟨1, "P1", ProcState.running, [("R1", 1)], [], false⟩ ∧
    findResource (run Simulator.fresh holdingOps) 1 = some ⟨1, "R1", 2, 1, [(1, 1)]⟩ ∧
    requestResource (run Simulator.fresh holdingOps) 1 1 1
      = (false, run Simulator.fresh holdingOps) :=
  ⟨by decide, by decide, by decide, by decide,
    request_rejected_when_held holdingOps (by decide) (by decide) 1 1 1
      ⟨1, "P1", ProcState.running, [("R1", 1)], [], false⟩ ⟨1, "R1", 2, 1, [(1, 1)]⟩
      (by decide) (by decide) (by decide)⟩

/-- C3, as stated, fails: with two resources named R, after process 1 has been granted the
first and has released, by name, through the second, the first resource still records one
instance held by process 1, yet `requestResource(1, 1, 1)` returns `true` and queues the
request. -/
theorem held_request_accepted_counterexample :
    findResource (run Simulator.fresh duplicateNameOps) 1 = some ⟨1, "R", 1, 0, [(1, 1)]⟩ ∧
    (requestResource (run Simulator.fresh duplicateNameOps) 1 1 1).1 = true ∧
    (requestResource (run Simulator.fresh duplicateNameOps) 1 1 1).2.processes.map
        (fun p => (p.id, p.requested, p.waiting)) = [(1, [("R", 1)], true)] := by
  decide

/-- C6, amended: in every state reached with resource names that are pairwise distinct and
not inherited from `Object.prototype`, for every existing process `p` and resource `r` and
every count greater than the number of instances that `r` records as held by `p`
(`r.allocated[p.id]`, zero when absent), `releaseResource(p, r, count)` returns `false` and
leaves the whole state as it was. -/
theorem release_rejected_when_short (ops : List Op)
    (hnames : ((run Simulator.fresh ops).resources.map Resource.name).Nodup)
    (hord : ordinaryResources (run Simulator.fresh ops) = true)
    (processId resourceId : Nat) (count : Int) (p : Process) (r : Resource)
    (hp : findProcess (run Simulator.fresh ops) processId = some p)
    (hr : findResource (run Simulator.fresh ops) resourceId = some r)
    (hcount : JsObj.getD0 r.allocated p.id < count) :
    releaseResource (run Simulator.fresh ops) processId resourceId count
      = (false, run Simulator.fresh ops) := by
  have hagree : JsObj.getD0 p.allocated r.name = JsObj.getD0 r.allocated p.id :=
    (run_inv ops hnames).1.consistent p.holding
      (List.mem_map_of_mem _ (List.mem_of_find?_eq_some hp)) r (List.mem_of_find?_eq_some hr)
  exact releaseResource_of_short _ processId resourceId count p r hp hr (by omega)

theorem release_rejected_when_short_witness :
    ((run Simulator.fresh holdingOps).resources.map Resource.name).Nodup ∧
    ordinaryResources (run Simulator.fresh holdingOps) = true ∧
    findProcess (run Simulator.fresh holdingOps) 1
      = some ⟨1, "P1", ProcState.running, [("R1", 1)], [], false⟩ ∧
    findResource (run Simulator.fresh holdingOps) 1 = some ⟨1, "R1", 2, 1, [(1, 1)]⟩ ∧
    releaseResource (run Simulator.fresh holdingOps) 1 1 2
      = (false, run Simulator.fresh holdingOps) :=
  ⟨by decide, by decide, by decide, by decide,
    release_rejected_when_short holdingOps (by decide) (by decide) 1 1 2
      ⟨1, "P1", ProcState.running, [("R1", 1)], [], false⟩ ⟨1, "R1", 2, 1, [(1, 1)]⟩
      (by decide) (by decide) (by decide)⟩

/-- C6, as stated, fails: with two resources named R, of which process 1 holds only the
first, `releaseResource(1, 2, 1)` asks for one instance more than process 1 holds of the
second resource, yet it returns `true` and leaves the second resource with 2 instances
available out of 1. -/
theorem short_release_accepted_counterexample :
    findResource (run Simulator.fresh duplicateNameHeldOps) 2 = some ⟨2, "R", 1, 1, []⟩ ∧
    (releaseResource (run Simulator.fresh duplicateNameHeldOps) 1 2 1).1 = true ∧
    (releaseResource (run Simulator.fresh duplicateNameHeldOps) 1 2 1).2.resources
      = [⟨1, "R", 1, 0, [(1, 1)]⟩, ⟨2, "R", 1, 2, []⟩] := by
  decide

end SimuLock
